import Mathlib

/-!
AstroSim: the fire-diffuse network model, the KChI model and the parameter descriptions.

Shallow embedding of `src/FireDiffuseModel.cpp`, `src/FireDiffuseModel.h`, of the
fire-diffuse and KChI parts of `src/ODEFunctions.cpp`, of the save, load, equilibrium,
flux and set-up methods of `src/KChICell.cpp` and `src/KChIModel.cpp`, and of
`utility/SingleParam.cpp`, `utility/SingleValueParam.cpp` and `utility/ParamGroup.cpp`.

Conventions of the embedding.

* The structures are generic in the type `α` of the C++ `double` values.  The arithmetic
  of the operations is carried out over exact rationals (`α = ℚ`): rounding is not
  modelled.  `PreSimulationCall` performs no arithmetic besides `tStart + preRunTime` and is
  kept generic, so that it can also be run on the extended values `Dbl`, which contain
  the non-finite values.
* `std::vector` is a `List`.  A cell does not own its dynamic values: `cells[i]->dynVals`
  points at offset `i * NbValsPerCell` of the flat buffer `vals` of the model.
* An access outside a vector is undefined behaviour in C++; here a read yields `0`, a
  write does nothing, and the theorems assume the indices they speak about are in range.
* Code of the repository that is not part of the sources at hand (the base classes
  `ODENetworkDynamicsModel`, `ChICell` and `ChIModel`, the solver, the metrics, the
  stimulation strategies) is taken as a parameter; so are the GSL functions and the
  `HILL` macros.
* A file stream is a list of tokens with its state bits; the text of a number is taken
  as exact.  An extraction that fails to parse stores 0, as the C++ library does.
* A pointer to a buffer is a block and an offset; a `QString` is the list of its
  characters, and the Qt methods used (`indexOf`, `left`, `mid`, `trimmed`, `split`) are
  written out; the virtual methods of `SingleParam` are a record of functions.
-/

namespace AstroSim

/-! ## Data model -/

/-- The constant `FIREDIFFUSEMODEL_NBVALS_PER_CELL` of `FireDiffuseModel.h`. -/
def FIREDIFFUSEMODEL_NBVALS_PER_CELL : Nat := 1

/-- The class-wide default values of `FireDiffuseCell` (static members). -/
structure CellDefaults (α : Type) where
  DefaultC : α
  DefaultThresh : α
  DefaultActQuant : α
  DefaultTauRefr : α
  DefaultDegrad : α
  DefaultActivDelay : α

/-- The fields of `FireDiffuseCell` (the dynamic values live in the buffer of the model). -/
structure FireDiffuseCell (α : Type) where
  thresh : α
  actQuant : α
  tauRefr : α
  degrad : α
  activDelay : α
  refractTime : α
  willActivate : Bool
  actTime : α
  totFlux : α
deriving DecidableEq

/-- Index of the messenger concentration in the dynamic values of a cell
(`FireDiffuseCell::C`). -/
def FireDiffuseCell.C : Nat := 0

/-- The external network topology: `size()`, `GetNeighbors(i)` and the coupling
function object `(*network)[i][j]` applied to a value. -/
structure Network (α : Type) where
  size : Nat
  GetNeighbors : Nat → List Nat
  coupling : Nat → Nat → α → α

/-- Modelled from the spec: the stimulation strategies are not part of the sources; a
strategy is a callable invoked with the current time that adds flux contributions for
given cells.  Here: at time `t`, reading the dynamic values, it issues a sequence of calls
`ModifFluxes(i, x)`. -/
abbrev StimulationStrat (α : Type) : Type := α → List α → List (Nat × α)

/-- The state of a `FireDiffuseModel`. -/
structure FireDiffuseModel (α : Type) where
  cells : List (FireDiffuseCell α)
  vals : List α
  tCurr : α
  tStart : α
  isPreRunning : Bool
  preRunToEqu : Bool
  preRunTime : α
  stimStrats : List (StimulationStrat α)
  network : Network α

/-- Modelled from the spec: the base class `ODENetworkDynamicsModel`, which points the
cells into the buffer, is not part of the sources; the slice of cell `i` starts at offset
`i * slotsPerCell` of the flat buffer (as `KChIModel::SetUpCellsAndODEs` does it).  This
is the read of `cells[i]->dynVals[k]`. -/
def dynVal (vals : List ℚ) (i k : Nat) : ℚ :=
  vals.getD (i * FIREDIFFUSEMODEL_NBVALS_PER_CELL + k) 0

/-! ## Cells -/

/-- The method `FireDiffuseCell::Initialize`: returns the cell and the value written to
`dynVals[0]`. -/
def FireDiffuseCell.Initialize (d : CellDefaults ℚ) (_c : FireDiffuseCell ℚ) :
    FireDiffuseCell ℚ × ℚ :=
  ({ thresh := d.DefaultThresh
     actQuant := d.DefaultActQuant
     tauRefr := d.DefaultTauRefr
     degrad := d.DefaultDegrad
     activDelay := d.DefaultActivDelay
     refractTime := -999999
     willActivate := false
     actTime := 0
     totFlux := 0 }, d.DefaultC)

/-- The method `FireDiffuseCellFunct::CompFunc(t, v, f)`: `v` and `f` are pointers, given
as a buffer and an offset; the result is the buffer of `f` after the call. -/
def FireDiffuseCellFunct.CompFunc (cell : FireDiffuseCell ℚ) (_t : ℚ)
    (v : List ℚ) (vOff : Nat) (f : List ℚ) (fOff : Nat) : List ℚ :=
  f.set (fOff + 0) (- cell.degrad * v.getD (vOff + 0) 0 - cell.totFlux)

/-! ## Fluxes -/

/-- The term added to `cells[i]->totFlux` for the neighbour `j`: the coupling function of
the edge applied to the difference of the two concentrations. -/
def edgeFlux (net : Network ℚ) (vals : List ℚ) (i j : Nat) : ℚ :=
  net.coupling i j (dynVal vals i FireDiffuseCell.C - dynVal vals j FireDiffuseCell.C)

/-- One pass of the inner loop of `ComputeFluxes`: the neighbour `j` of cell `i`. -/
def ComputeFluxes_neighbor (i : Nat) (m : FireDiffuseModel ℚ) (j : Nat) :
    FireDiffuseModel ℚ :=
  { m with
    cells := m.cells.modify
               (fun c => { c with totFlux := c.totFlux + edgeFlux m.network m.vals i j }) i }

/-- One pass of the outer loop of `ComputeFluxes`: cell `i`. -/
def ComputeFluxes_cell (m : FireDiffuseModel ℚ) (i : Nat) : FireDiffuseModel ℚ :=
  (m.network.GetNeighbors i).foldl (ComputeFluxes_neighbor i)
    { m with cells := m.cells.modify (fun c => { c with totFlux := 0 }) i }

/-- The method `FireDiffuseModel::ComputeFluxes`. -/
def FireDiffuseModel.ComputeFluxes (m : FireDiffuseModel ℚ) (_t : ℚ) : FireDiffuseModel ℚ :=
  (List.range m.network.size).foldl ComputeFluxes_cell m

/-- The method `FireDiffuseModel::ModifFluxes`. -/
def FireDiffuseModel.ModifFluxes (m : FireDiffuseModel ℚ) (i : Nat) (flux : ℚ) : FireDiffuseModel ℚ :=
  { m with cells := m.cells.modify (fun c => { c with totFlux := c.totFlux + flux }) i }

/-- The calls `ModifFluxes(i, x)` that the stimulation hook issues at time `t`, in order. -/
def stimCalls (m : FireDiffuseModel ℚ) (t : ℚ) : List (Nat × ℚ) :=
  (m.stimStrats.map (fun s => s t m.vals)).flatten

/-- Modelled from the spec: `Stimulate(t)` belongs to `StimulableCellNetwork`, which is
not part of the sources; the hook runs every strategy of `stimStrats` in order for the
time `t`, and the calls to `ModifFluxes` they issue are applied. -/
def FireDiffuseModel.Stimulate (m : FireDiffuseModel ℚ) (t : ℚ) : FireDiffuseModel ℚ :=
  (stimCalls m t).foldl (fun m p => FireDiffuseModel.ModifFluxes m p.1 p.2) m

/-- Modelled from the spec: `GetNbDynVal` belongs to the base class, which is not part of
the sources; the number of slots of a cell is the constant declared for the variant. -/
def GetNbDynVal (_m : FireDiffuseModel ℚ) (_i : Nat) : Nat :=
  FIREDIFFUSEMODEL_NBVALS_PER_CELL

/-- One pass of the loop of `FireDiffuseNetFunct::CompFunc`: the derivative of cell `i`. -/
def CompFunc_cell (m : FireDiffuseModel ℚ) (t : ℚ) (v : List ℚ) (dynValDim : Nat)
    (f : List ℚ) (i : Nat) : List ℚ :=
  match m.cells[i]? with
  | some c => FireDiffuseCellFunct.CompFunc c t v (i * dynValDim) f (i * dynValDim)
  | none => f

/-- The method `FireDiffuseNetFunct::CompFunc(t, v, f)`: returns the model (whose flux
accumulators are rewritten) and the output vector `f`. -/
def FireDiffuseNetFunct.CompFunc (m : FireDiffuseModel ℚ) (t : ℚ) (v f : List ℚ) :
    FireDiffuseModel ℚ × List ℚ :=
  let dynValDim := GetNbDynVal m 0
  let m1 := FireDiffuseModel.ComputeFluxes m t
  let m2 := FireDiffuseModel.Stimulate m1 t
  (m2, (List.range m2.cells.length).foldl (CompFunc_cell m2 t v dynValDim) f)

/-! ## Discrete-state update -/

/-- First `if` of the loop of `UpdateVals`: arming of cell `i`. -/
def UpdateVals_arm (m : FireDiffuseModel ℚ) (i : Nat) : FireDiffuseModel ℚ :=
  match m.cells[i]? with
  | some c =>
    if c.willActivate = false ∧ dynVal m.vals i 0 ≥ c.thresh ∧
        m.tCurr - c.refractTime > c.tauRefr then
      { m with cells := m.cells.set i { c with willActivate := true, actTime := m.tCurr } }
    else m
  | none => m

/-- Second `if` of the loop of `UpdateVals`: firing of cell `i`. -/
def UpdateVals_fire (m : FireDiffuseModel ℚ) (i : Nat) : FireDiffuseModel ℚ :=
  match m.cells[i]? with
  | some c =>
    if c.willActivate = true ∧ m.tCurr - c.actTime > c.activDelay then
      { m with
        cells := m.cells.set i { c with refractTime := m.tCurr, willActivate := false }
        vals := m.vals.set (i * FIREDIFFUSEMODEL_NBVALS_PER_CELL + 0) c.actQuant }
    else m
  | none => m

/-- One pass of the loop of `UpdateVals`. -/
def UpdateVals_cell (m : FireDiffuseModel ℚ) (i : Nat) : FireDiffuseModel ℚ :=
  UpdateVals_fire (UpdateVals_arm m i) i

/-- The method `FireDiffuseModel::UpdateVals(t)`.  The call of the base class,
`ODENetworkDynamicsModel::UpdateVals(t)`, is the parameter `base`. -/
def FireDiffuseModel.UpdateVals (base : FireDiffuseModel ℚ → ℚ → FireDiffuseModel ℚ)
    (m : FireDiffuseModel ℚ) (t : ℚ) : FireDiffuseModel ℚ :=
  let m0 := { m with tCurr := t }
  if m0.isPreRunning = false then
    let m1 := base m0 t
    (List.range m1.cells.length).foldl UpdateVals_cell m1
  else m0

/-- The model is well formed: one cell for each node of the network, a buffer holding the
dynamic values of every cell, and neighbour lists that name allocated cells only. -/
def WellFormed (m : FireDiffuseModel ℚ) : Prop :=
  m.network.size = m.cells.length ∧
  m.vals.length = m.cells.length * FIREDIFFUSEMODEL_NBVALS_PER_CELL ∧
  ∀ i, i < m.network.size → ∀ j, j ∈ m.network.GetNeighbors i → j < m.cells.length

/-- The sum that `ComputeFluxes` accumulates for cell `i`, written over the neighbour
list of `i`. -/
def fluxSum (net : Network ℚ) (vals : List ℚ) (i : Nat) : ℚ :=
  ((net.GetNeighbors i).map
    (fun j => net.coupling i j
      (dynVal vals i FireDiffuseCell.C - dynVal vals j FireDiffuseCell.C))).sum

/-! ## Auxiliary definitions used in the statements and proofs -/

/-- Writing the flux accumulator of a cell. -/
def setTotFlux (x : ℚ) (c : FireDiffuseCell ℚ) : FireDiffuseCell ℚ := { c with totFlux := x }

/-- Adding to the flux accumulator of a cell. -/
def addTotFlux (x : ℚ) (c : FireDiffuseCell ℚ) : FireDiffuseCell ℚ :=
  { c with totFlux := c.totFlux + x }

/-- The cells after the first `n` passes of the outer loop of `ComputeFluxes`. -/
def fluxCells (n : Nat) (net : Network ℚ) (vals : List ℚ)
    (cs : List (FireDiffuseCell ℚ)) : List (FireDiffuseCell ℚ) :=
  (List.range n).foldl (fun cs i => cs.modify (setTotFlux (fluxSum net vals i)) i) cs

/-- The cell of the firing scenario: threshold 4, refractory period 7.5, activation
delay 5, quantum 8, decay 0.3, never fired. -/
def scenarioCell : FireDiffuseCell ℚ :=
  { thresh := 4
    actQuant := 8
    tauRefr := 15 / 2
    degrad := 3 / 10
    activDelay := 5
    refractTime := -999999
    willActivate := false
    actTime := 0
    totFlux := 0 }

/-- A network of two nodes joined by one edge, with the coupling function `x ↦ 2 x`. -/
def pairNetwork : Network ℚ :=
  { size := 2
    GetNeighbors := fun i => if i = 0 then [1] else if i = 1 then [0] else []
    coupling := fun _ _ x => 2 * x }

/-- Two coupled cells holding the concentrations 3 and 1. -/
def pairModel : FireDiffuseModel ℚ :=
  { cells := [scenarioCell, scenarioCell]
    vals := [3, 1]
    tCurr := 0
    tStart := 0
    isPreRunning := false
    preRunToEqu := false
    preRunTime := 0
    stimStrats := []
    network := pairNetwork }

/-- The total amount that the calls `ModifFluxes(i, x)` of a list add for cell `k`. -/
def stimSum (calls : List (Nat × ℚ)) (k : Nat) : ℚ :=
  ((calls.filter (fun p => p.1 = k)).map (fun p => p.2)).sum

/-- The cells after a list of calls `ModifFluxes(i, x)`. -/
def stimCells (calls : List (Nat × ℚ)) (cs : List (FireDiffuseCell ℚ)) :
    List (FireDiffuseCell ℚ) :=
  calls.foldl (fun cs p => cs.modify (addTotFlux p.2) p.1) cs

/-- The value that the derivative function of a cell writes for the input value `x`. -/
def cellDeriv (c : FireDiffuseCell ℚ) (x : ℚ) : ℚ := - c.degrad * x - c.totFlux

/-- The two coupled cells of `pairModel`, with both concentrations of the buffer at 0. -/
def pairModelZero : FireDiffuseModel ℚ := { pairModel with vals := [0, 0] }

/-- The base-class call `ODENetworkDynamicsModel::UpdateVals(t)` leaves the cells, the
buffer of dynamic values, the current time and the pre-running flag as they are. -/
def BaseFrame (base : FireDiffuseModel ℚ → ℚ → FireDiffuseModel ℚ) : Prop :=
  ∀ m t, (base m t).cells = m.cells ∧ (base m t).vals = m.vals ∧
    (base m t).tCurr = m.tCurr ∧ (base m t).isPreRunning = m.isPreRunning

/-- A base-class `UpdateVals` that does nothing to the state modelled here. -/
def idBase (m : FireDiffuseModel ℚ) (_t : ℚ) : FireDiffuseModel ℚ := m

/-- The model when the loop of `UpdateVals(t)` reaches cell `i`: the current time is set,
the base class has been called and the cells before `i` have been handled. -/
def loopState (base : FireDiffuseModel ℚ → ℚ → FireDiffuseModel ℚ)
    (m : FireDiffuseModel ℚ) (t : ℚ) (i : Nat) : FireDiffuseModel ℚ :=
  (List.range i).foldl UpdateVals_cell (base { m with tCurr := t } t)

/-- What the external solver does to the model during `Solve`: it evaluates the
derivative function, it writes the advanced state into the buffer of the model, and it
notifies the model of an accepted step through `UpdateVals`. -/
inductive SolverAction where
  | eval (t : ℚ) (v f : List ℚ)
  | write (vals : List ℚ)
  | update (t : ℚ)

/-- The effect of one action of the solver on the model. -/
def applyAction (base : FireDiffuseModel ℚ → ℚ → FireDiffuseModel ℚ)
    (m : FireDiffuseModel ℚ) : SolverAction → FireDiffuseModel ℚ
  | SolverAction.eval t v f => (FireDiffuseNetFunct.CompFunc m t v f).1
  | SolverAction.write vals => { m with vals := vals }
  | SolverAction.update t => FireDiffuseModel.UpdateVals base m t

/-- Modelled from the spec: `ODESolver::Solve` is not part of the sources; its run is the
sequence of the actions it performs on the model (derivative evaluations, writes of the
advanced state, one `UpdateVals` after each accepted step). -/
def runSolver (base : FireDiffuseModel ℚ → ℚ → FireDiffuseModel ℚ)
    (m : FireDiffuseModel ℚ) (actions : List SolverAction) : FireDiffuseModel ℚ :=
  actions.foldl (applyAction base) m

/-- A network of one isolated node. -/
def soloNetwork : Network ℚ :=
  { size := 1
    GetNeighbors := fun _ => []
    coupling := fun _ _ x => x }

/-- The firing scenario: one isolated never-fired cell holding the quantity `q`. -/
def soloModel (q : ℚ) : FireDiffuseModel ℚ :=
  { cells := [scenarioCell]
    vals := [q]
    tCurr := 0
    tStart := 0
    isPreRunning := false
    preRunToEqu := false
    preRunTime := 0
    stimStrats := []
    network := soloNetwork }

/-- The arming `if` of `UpdateVals`, on one cell whose quantity is `q`. -/
def armCell (t q : ℚ) (c : FireDiffuseCell ℚ) : FireDiffuseCell ℚ :=
  if c.willActivate = false ∧ q ≥ c.thresh ∧ t - c.refractTime > c.tauRefr then
    { c with willActivate := true, actTime := t }
  else c

/-- The firing `if` of `UpdateVals`, on one cell. -/
def fireCell (t : ℚ) (c : FireDiffuseCell ℚ) : FireDiffuseCell ℚ :=
  if c.willActivate = true ∧ t - c.actTime > c.activDelay then
    { c with refractTime := t, willActivate := false }
  else c

/-- The quantity of a cell after the firing `if` of `UpdateVals`. -/
def fireVal (t q : ℚ) (c : FireDiffuseCell ℚ) : ℚ :=
  if c.willActivate = true ∧ t - c.actTime > c.activDelay then c.actQuant else q

/-- The cells and the buffer after the pass of the loop of `UpdateVals` on cell `i`. -/
def passPair (t : ℚ) (s : List (FireDiffuseCell ℚ) × List ℚ) (i : Nat) :
    List (FireDiffuseCell ℚ) × List ℚ :=
  (s.1.modify (fun c => fireCell t (armCell t (dynVal s.2 i 0) c)) i,
   match s.1[i]? with
   | some c =>
     if (armCell t (dynVal s.2 i 0) c).willActivate = true ∧
         t - (armCell t (dynVal s.2 i 0) c).actTime > (armCell t (dynVal s.2 i 0) c).activDelay then
       s.2.set i (armCell t (dynVal s.2 i 0) c).actQuant
     else s.2
   | none => s.2)

/-! ## Pre-simulation call -/

/-- The code that `PreSimulationCall` calls and that is not part of the sources: the
method of the base class `ODENetworkDynamicsModel::PreSimulationCall`, the solver
(`solver->Solve(*this, tStart, tEnd)`, whose result, if any, the caller drops),
`ODEProblem::UseCurrentValsAsInitVals` and `metrics.ComputeMetrics`. -/
structure PreSimEnv (α : Type) where
  basePreSimulationCall : FireDiffuseModel α → Bool × FireDiffuseModel α
  Solve : FireDiffuseModel α → α → α → FireDiffuseModel α
  UseCurrentValsAsInitVals : FireDiffuseModel α → FireDiffuseModel α
  ComputeMetrics : FireDiffuseModel α → Bool × FireDiffuseModel α

/-- The block `if (preRunToEqu) { ... }` of `PreSimulationCall`: the warm-up run. -/
def PreSimulationCall_warmUp {α : Type} [Add α] (env : PreSimEnv α)
    (m : FireDiffuseModel α) : FireDiffuseModel α :=
  if m.preRunToEqu = true then
    let tmpStimStrats := m.stimStrats
    let m1 := { m with stimStrats := [], isPreRunning := true }
    let m2 := env.Solve m1 m1.tStart (m1.tStart + m1.preRunTime)
    { m2 with stimStrats := tmpStimStrats, isPreRunning := false }
  else m

/-- The method `FireDiffuseModel::PreSimulationCall`: returns `ok` and the model. -/
def FireDiffuseModel.PreSimulationCall {α : Type} [Add α] (env : PreSimEnv α) (m : FireDiffuseModel α) :
    Bool × FireDiffuseModel α :=
  let r0 := env.basePreSimulationCall m
  let m1 := PreSimulationCall_warmUp env r0.2
  let m2 := env.UseCurrentValsAsInitVals m1
  let r := env.ComputeMetrics m2
  (r0.1 && r.1, r.2)

/-- The values of a C++ `double`, as far as finiteness is concerned: a finite value (taken
as an exact rational), the two infinities and NaN. -/
inductive Dbl where
  | fin (q : ℚ)
  | posInf
  | negInf
  | nan

/-- The test `std::isfinite`. -/
def Dbl.isFinite : Dbl → Bool
  | Dbl.fin _ => true
  | _ => false

/-- Addition of `double` values (rounding left out). -/
def Dbl.add : Dbl → Dbl → Dbl
  | Dbl.fin a, Dbl.fin b => Dbl.fin (a + b)
  | Dbl.nan, _ => Dbl.nan
  | _, Dbl.nan => Dbl.nan
  | Dbl.posInf, Dbl.negInf => Dbl.nan
  | Dbl.negInf, Dbl.posInf => Dbl.nan
  | Dbl.posInf, _ => Dbl.posInf
  | _, Dbl.posInf => Dbl.posInf
  | Dbl.negInf, _ => Dbl.negInf
  | _, Dbl.negInf => Dbl.negInf

instance : Add Dbl := ⟨Dbl.add⟩

/-- Some dynamic value of the model is not finite. -/
def hasNonFinite (vals : List Dbl) : Bool := vals.any (fun x => !x.isFinite)

/-- A cell of the scenario over the extended values. -/
def scenarioCellDbl : FireDiffuseCell Dbl :=
  { thresh := Dbl.fin 4
    actQuant := Dbl.fin 8
    tauRefr := Dbl.fin (15 / 2)
    degrad := Dbl.fin (3 / 10)
    activDelay := Dbl.fin 5
    refractTime := Dbl.fin (-999999)
    willActivate := false
    actTime := Dbl.fin 0
    totFlux := Dbl.fin 0 }

/-- One isolated cell at the quantity 0, set up for a warm-up run of length 10. -/
def warmUpModel : FireDiffuseModel Dbl :=
  { cells := [scenarioCellDbl]
    vals := [Dbl.fin 0]
    tCurr := Dbl.fin 0
    tStart := Dbl.fin 0
    isPreRunning := false
    preRunToEqu := true
    preRunTime := Dbl.fin 10
    stimStrats := []
    network := { size := 1, GetNeighbors := fun _ => [], coupling := fun _ _ x => x } }

/-- A base class and metrics that report success (no metric is attached), and a solver
whose warm-up run diverges and leaves NaN in the buffer of the model. -/
def divergingEnv : PreSimEnv Dbl :=
  { basePreSimulationCall := fun m => (true, m)
    Solve := fun m _ tEnd => { m with vals := m.vals.map (fun _ => Dbl.nan), tCurr := tEnd }
    UseCurrentValsAsInitVals := fun m => m
    ComputeMetrics := fun m => (true, m) }

/-! ## Examples for the warm-up -/

/-- A model with one stimulation strategy (it adds 1 to the flux of cell 0), set up for a
warm-up run of length 10 from `tStart = 2`. -/
def stimulatedModel : FireDiffuseModel ℚ :=
  { soloModel 0 with
    tStart := 2
    preRunToEqu := true
    preRunTime := 10
    stimStrats := [fun _ _ => [(0, 1)]] }

/-- A solver that records what it is run on: it sets the current time to the end of the
interval it is given and writes into the buffer the start of the interval and 1 if the
model it is run on has no stimulation strategy and is pre-running, 0 otherwise. -/
def recordingEnv : PreSimEnv ℚ :=
  { basePreSimulationCall := fun m => (true, m)
    Solve := fun m tStart tEnd =>
      { m with
        tCurr := tEnd
        vals := [tStart, if m.stimStrats.isEmpty && m.isPreRunning then 1 else 0] }
    UseCurrentValsAsInitVals := fun m => m
    ComputeMetrics := fun m => (true, m) }

/-! ## Streams -/

/-- A token of a text stream, delimited by white space: the text of a number (taken as
exact), the cut-off beginning of a number (such as `1e-`), or text that does not start a
number (such as `abc`). -/
inductive Tok where
  | num (q : ℚ)
  | cutNum
  | bad
deriving DecidableEq

/-- An input file stream: the tokens not yet read, whether white space follows the last
token, and the state bits `failbit` and `eofbit`. -/
structure IStream where
  toks : List Tok
  trailing : Bool
  failbit : Bool
  eofbit : Bool

/-- The test `stream.good()`: no state bit is set. -/
def IStream.good (s : IStream) : Bool := !s.failbit && !s.eofbit

/-- The test `stream.eof()`. -/
def IStream.eof (s : IStream) : Bool := s.eofbit

/-- The extraction `stream >> x` of a `double` (`old` is the value of `x` before).  On a
stream that is not good nothing is read and `failbit` is set.  At the end of the stream
`eofbit` and `failbit` are set.  A number is stored and consumed, and `eofbit` is set when
the end of the stream follows it without white space.  Text that is not a number sets
`failbit` and stores 0. -/
def IStream.readDouble (s : IStream) (old : ℚ) : ℚ × IStream :=
  if s.good = false then (old, { s with failbit := true })
  else
    match s.toks with
    | [] => (old, { s with failbit := true, eofbit := true })
    | Tok.num q :: rest => (q, { s with toks := rest, eofbit := rest.isEmpty && !s.trailing })
    | Tok.cutNum :: rest =>
      (0, { s with toks := rest, failbit := true, eofbit := rest.isEmpty && !s.trailing })
    | Tok.bad :: _ => (0, { s with failbit := true })

/-- The extraction `stream >> b` of a `bool`: the numbers 0 and 1 are false and true, any
other number sets `failbit` and stores true. -/
def IStream.readBool (s : IStream) (old : Bool) : Bool × IStream :=
  if s.good = false then (old, { s with failbit := true })
  else
    match s.toks with
    | [] => (old, { s with failbit := true, eofbit := true })
    | Tok.num q :: rest =>
      if q = 0 then (false, { s with toks := rest, eofbit := rest.isEmpty && !s.trailing })
      else if q = 1 then (true, { s with toks := rest, eofbit := rest.isEmpty && !s.trailing })
      else (true, { s with toks := rest, failbit := true,
                           eofbit := rest.isEmpty && !s.trailing })
    | Tok.cutNum :: rest =>
      (false, { s with toks := rest, failbit := true, eofbit := rest.isEmpty && !s.trailing })
    | Tok.bad :: _ => (false, { s with failbit := true })

/-- The extraction `stream >> n` of an `int`: a whole number is stored and consumed; of a
number with a fractional part the integral part is stored and the fractional part stays
in the stream. -/
def IStream.readInt (s : IStream) (old : Int) : Int × IStream :=
  if s.good = false then (old, { s with failbit := true })
  else
    match s.toks with
    | [] => (old, { s with failbit := true, eofbit := true })
    | Tok.num q :: rest =>
      if q.den = 1 then (q.num, { s with toks := rest, eofbit := rest.isEmpty && !s.trailing })
      else if 0 ≤ q then (Rat.floor q, { s with toks := Tok.num (q - Rat.floor q) :: rest })
      else (- Rat.floor (-q), { s with toks := Tok.num (-q - Rat.floor (-q)) :: rest })
    | Tok.cutNum :: rest =>
      (0, { s with toks := rest, failbit := true, eofbit := rest.isEmpty && !s.trailing })
    | Tok.bad :: _ => (0, { s with failbit := true })

/-- An output file stream: the items written so far, the number of items the sink still
accepts, and the state bit `badbit`. -/
structure OStream where
  out : List Tok
  room : Nat
  badbit : Bool

/-- The test `stream.good()` of an output stream. -/
def OStream.good (s : OStream) : Bool := !s.badbit

/-- The insertion `stream << x << std::endl` of a number.  The item written is the number
itself: the text form of a number is taken as exact, the rounding of `operator<<` to its
precision of 6 significant digits is not modelled. -/
def OStream.writeDouble (s : OStream) (q : ℚ) : OStream :=
  if s.good = false then s
  else if s.room = 0 then { s with badbit := true }
  else { s with out := s.out ++ [Tok.num q], room := s.room - 1 }

/-- The insertion `stream << b << std::endl` of a `bool`: written as 1 or 0. -/
def OStream.writeBool (s : OStream) (b : Bool) : OStream :=
  s.writeDouble (if b then 1 else 0)

/-- A fresh output stream on a sink that accepts `room` items. -/
def OStream.fresh (room : Nat) : OStream := { out := [], room := room, badbit := false }

/-- An input stream opened on a text made of the given tokens, each followed by a
newline. -/
def IStream.ofLines (toks : List Tok) : IStream :=
  { toks := toks, trailing := true, failbit := false, eofbit := false }

/-! ## Save and load of a fire-diffuse cell -/

/-- The method `FireDiffuseCell::SetToEquilibrium`: returns the cell and the value written
to `dynVals[C]`. -/
def FireDiffuseCell.SetToEquilibrium (d : CellDefaults ℚ) (c : FireDiffuseCell ℚ) :
    FireDiffuseCell ℚ × ℚ :=
  ({ c with totFlux := 0, refractTime := -999999, willActivate := false, actTime := 0 },
   d.DefaultC)

/-- The method `FireDiffuseCell::LoadFromStream`: returns the status, the cell and the
stream. -/
def FireDiffuseCell.LoadFromStream (c : FireDiffuseCell ℚ) (stream : IStream) :
    Bool × FireDiffuseCell ℚ × IStream :=
  let r1 := stream.readDouble c.thresh
  let r2 := r1.2.readDouble c.actQuant
  let r3 := r2.2.readDouble c.tauRefr
  let r4 := r3.2.readDouble c.degrad
  let r5 := r4.2.readDouble c.activDelay
  (!r5.2.eof,
   { c with thresh := r1.1, actQuant := r2.1, tauRefr := r3.1, degrad := r4.1,
            activDelay := r5.1 },
   r5.2)

/-- The method `FireDiffuseCell::SaveToStream`: returns the status and the stream. -/
def FireDiffuseCell.SaveToStream (c : FireDiffuseCell ℚ) (stream : OStream) :
    Bool × OStream :=
  let s1 := stream.writeDouble c.thresh
  let s2 := s1.writeDouble c.actQuant
  let s3 := s2.writeDouble c.tauRefr
  let s4 := s3.writeDouble c.degrad
  let s5 := s4.writeDouble c.activDelay
  (s5.good, s5)

/-- The class-wide defaults that go with the scenario cell. -/
def scenarioDefaults : CellDefaults ℚ :=
  { DefaultC := 0
    DefaultThresh := 4
    DefaultActQuant := 8
    DefaultTauRefr := 15 / 2
    DefaultDegrad := 3 / 10
    DefaultActivDelay := 5 }

/-- A cell of the scenario that is scheduled to fire (armed at time 3) after a firing at
time 1, with parameters that are not the defaults. -/
def scheduledCell : FireDiffuseCell ℚ :=
  { thresh := 2
    actQuant := 6
    tauRefr := 1
    degrad := 1 / 2
    activDelay := 4
    refractTime := 1
    willActivate := true
    actTime := 3
    totFlux := 0 }

/-! ## The KChI cell -/

/-- The constant `KCHIMODEL_NBVALS_PER_CELL` of `KChICell.h`. -/
def KCHIMODEL_NBVALS_PER_CELL : Nat := 9

/-- Modelled from the spec: `ChICell.h` is not part of the sources; the base class of the
KChI cell is taken with the fields that the sources at hand read or write (parameters,
the flux accumulator, the exogenous input term and two flags). -/
structure ChICell where
  a2 : ℚ
  c1 : ℚ
  rC : ℚ
  rL : ℚ
  vER : ℚ
  Ker : ℚ
  vd : ℚ
  kd : ℚ
  Kplcd : ℚ
  k3 : ℚ
  kP : ℚ
  kR : ℚ
  kpi : ℚ
  totFlux : ℚ
  gluIP3Prod : ℚ
  caSpontLeak : Bool
  defaultBiophysParams : Bool

/-- The fields of `KChICell`: the 25 saved parameters, the computed parameters and the
two potassium fluxes. -/
structure KChICell extends ChICell where
  Va : ℚ
  Sa : ℚ
  alphExt : ℚ
  KoBl : ℚ
  CaOut : ℚ
  ClOut : ℚ
  ClIn : ℚ
  NaOut : ℚ
  NaIn : ℚ
  Cap : ℚ
  GClLeak : ℚ
  GNaLeak : ℚ
  OmegaK : ℚ
  GKLeak : ℚ
  GKirMax : ℚ
  KNa : ℚ
  KK : ℚ
  JNaKATPaseMax : ℚ
  GCaLeak : ℚ
  PCaLType : ℚ
  OMP : ℚ
  kpact : ℚ
  kpinh : ℚ
  kPhos : ℚ
  ensureCaEq : Bool
  VolCyt : ℚ
  VolER : ℚ
  VolExt : ℚ
  LogForECl : ℚ
  LogForENa : ℚ
  OCK : ℚ
  OPK : ℚ
  KFluxOut : ℚ
  KFluxIn : ℚ

/-- Indices of the dynamic values of a KChI cell (`KChICell::KDynValNames`). -/
def KChICell.Ko : Nat := 3

/-- Index of the intracellular potassium concentration. -/
def KChICell.Ki : Nat := 4

/-- Index of the membrane potential. -/
def KChICell.Vm : Nat := 5

/-- Index of the calcium concentration of the endoplasmic reticulum. -/
def KChICell.Cer : Nat := 6

/-- Index of the enhancing phosphorylation ratio. -/
def KChICell.Gp : Nat := 7

/-- Index of the decreasing phosphorylation ratio. -/
def KChICell.Gm : Nat := 8

/-- The class-wide default values that `KChICell` reads: the equilibrium values of its
dynamic values, two default concentrations, and the defaults `DefaultCa`, `Defaulth` and
`DefaultIP3` of the base class. -/
structure KChIDefaults where
  DefaultCa : ℚ
  Defaulth : ℚ
  DefaultIP3 : ℚ
  DefaultKo : ℚ
  DefaultKi : ℚ
  DefaultVm : ℚ
  DefaultCer : ℚ
  DefaultGp : ℚ
  DefaultGm : ℚ
  DefaultNaOut : ℚ
  DefaultNaIn : ℚ

/-- Modelled from the spec: `ChIModel.h` is not part of the sources; the model is taken
with the parameters of the base class that the sources at hand read, followed by the 15
network-level parameters of `KChIModel` and the computed `FoRT`. -/
structure KChIModel where
  d1 : ℚ
  d2 : ℚ
  d3 : ℚ
  d5 : ℚ
  C0 : ℚ
  r5p : ℚ
  v3k : ℚ
  K3k : ℚ
  Sij : ℚ
  T : ℚ
  GJCComp : Int
  KDiffVoltThr : ℚ
  VKirH : ℚ
  VKirS : ℚ
  VLTmHalf : ℚ
  VLTmSlope : ℚ
  VLThHalf : ℚ
  VLThSlope : ℚ
  KMP : ℚ
  alphaP : ℚ
  alphaM : ℚ
  IP3BasalPerm : ℚ
  KBasalPerm : ℚ
  FoRT : ℚ

/-- The functions and constants of the GSL library and the `HILL` macros, which are not
part of the sources: they are parameters of the embedding. -/
structure MathEnv where
  log : ℚ → ℚ
  exp : ℚ → ℚ
  sqrt : ℚ → ℚ
  pow : ℚ → ℚ → ℚ
  FARADAY : ℚ
  MOLAR_GAS : ℚ
  HILL1 : ℚ → ℚ → ℚ
  HILL2 : ℚ → ℚ → ℚ
  HILLn : ℚ → ℚ → ℚ → ℚ

/-- The methods of the base class `ChICell` that `KChICell` calls and that are not part
of the sources: load, save and `SetToEquilibrium` (on the buffer of dynamic values and the
offset of the cell in it). -/
structure ChICellEnv where
  LoadFromStream : ChICell → IStream → Bool × ChICell × IStream
  SaveToStream : ChICell → OStream → Bool × OStream
  SetToEquilibrium : ChICell → List ℚ → Nat → ChICell × List ℚ

/-- The method `KChICell::ComputeOtherParameters`. -/
def KChICell.ComputeOtherParameters (E : MathEnv) (d : KChIDefaults) (model : KChIModel)
    (c : KChICell) : KChICell :=
  let VolCyt := c.Va / (1 + c.c1)
  let VolER := c.c1 * VolCyt
  let VolExt := c.alphExt * c.Va
  let c0 : KChICell :=
    { c with
      VolCyt := VolCyt
      VolER := VolER
      VolExt := VolExt
      LogForECl := E.log (c.ClOut / c.ClIn)
      LogForENa := E.log (c.NaOut / c.NaIn)
      OCK := c.kpact * model.v3k
      OPK := c.kpinh * c.kP / c.kR }
  if c.ensureCaEq = true then
    let ECa := E.log (c.CaOut / d.DefaultCa) / (2 * model.FoRT)
    let mInf := 1 / (1 + E.exp ((d.DefaultVm - model.VLTmHalf) / model.VLTmSlope))
    let hInf := 1 / (1 + E.exp ((d.DefaultVm - model.VLThHalf) / model.VLThSlope))
    let IPMCA := 2 * E.FARADAY * c.OMP * E.HILL2 d.DefaultCa model.KMP
    let LTv := 2 * d.DefaultVm * model.FoRT
    let ILType := mInf * hInf * 2 * c.PCaLType * E.FARADAY * LTv *
      (d.DefaultCa - c.CaOut * E.exp (-LTv)) / (1 - E.exp (-LTv))
    let GCaLeak := - (IPMCA + ILType) / (d.DefaultVm - ECa)
    let Ek := E.log (d.DefaultKo / d.DefaultKi) / model.FoRT
    let GKir := c.GKirMax /
      E.sqrt (d.DefaultKo * (1 + E.exp ((d.DefaultVm - model.VKirH - Ek) / model.VKirS)))
    let JNaKATPaseMax := (c.GKLeak + GKir) * (d.DefaultVm - Ek) /
      (2 * E.FARADAY * E.HILLn c.NaIn c.KNa (3 / 2) * E.HILL1 d.DefaultKo c.KK)
    let ENa := E.log (d.DefaultNaOut / d.DefaultNaIn) / model.FoRT
    let GNaLeak := 3 * E.FARADAY * JNaKATPaseMax * E.HILLn c.NaIn c.KNa (3 / 2) *
      E.HILL1 d.DefaultKo c.KK / (ENa - d.DefaultVm)
    let mInf2 := E.HILL1 d.DefaultIP3 model.d1 * E.HILL1 d.DefaultCa model.d5
    let Jchan := VolER * c.rC * E.pow (mInf2 * d.Defaulth) 3 * (d.DefaultCer - d.DefaultCa)
    let Jleak := VolER * c.rL * (d.DefaultCer - d.DefaultCa)
    { c0 with
      GCaLeak := GCaLeak
      JNaKATPaseMax := JNaKATPaseMax
      GNaLeak := GNaLeak
      vER := (Jchan + Jleak) / (VolCyt * E.HILL2 d.DefaultCa c.Ker) }
  else c0

/-- The method `KChICell::SetToEquilibrium`, on the buffer `vals` of dynamic values, in
which the slice of the cell starts at `off`: returns the cell and the buffer. -/
def KChICell.SetToEquilibrium (env : ChICellEnv) (d : KChIDefaults) (c : KChICell)
    (vals : List ℚ) (off : Nat) : KChICell × List ℚ :=
  let r := env.SetToEquilibrium c.toChICell vals off
  let v1 := r.2.set (off + KChICell.Ko) d.DefaultKo
  let v2 := v1.set (off + KChICell.Ki) d.DefaultKi
  let v3 := v2.set (off + KChICell.Vm) d.DefaultVm
  let v4 := v3.set (off + KChICell.Cer) d.DefaultCer
  let v5 := v4.set (off + KChICell.Gp) d.DefaultGp
  let v6 := v5.set (off + KChICell.Gm) d.DefaultGm
  ({ c with toChICell := r.1, KFluxOut := 0, KFluxIn := 0 }, v6)

/-- The method `KChICell::LoadFromStream`: returns the status, the cell and the stream. -/
def KChICell.LoadFromStream (env : ChICellEnv) (E : MathEnv) (d : KChIDefaults)
    (model : KChIModel) (c : KChICell) (stream : IStream) : Bool × KChICell × IStream :=
  let r0 := env.LoadFromStream c.toChICell stream
  let ok := r0.1
  let r1 := r0.2.2.readDouble c.Va
  let r2 := r1.2.readDouble c.Sa
  let r3 := r2.2.readDouble c.alphExt
  let r4 := r3.2.readDouble c.KoBl
  let r5 := r4.2.readDouble c.CaOut
  let r6 := r5.2.readDouble c.ClOut
  let r7 := r6.2.readDouble c.ClIn
  let r8 := r7.2.readDouble c.NaOut
  let r9 := r8.2.readDouble c.NaIn
  let r10 := r9.2.readDouble c.Cap
  let r11 := r10.2.readDouble c.GClLeak
  let r12 := r11.2.readDouble c.GNaLeak
  let r13 := r12.2.readDouble c.OmegaK
  let r14 := r13.2.readDouble c.GKLeak
  let r15 := r14.2.readDouble c.GKirMax
  let r16 := r15.2.readDouble c.KNa
  let r17 := r16.2.readDouble c.KK
  let r18 := r17.2.readDouble c.JNaKATPaseMax
  let r19 := r18.2.readDouble c.GCaLeak
  let r20 := r19.2.readDouble c.PCaLType
  let r21 := r20.2.readDouble c.OMP
  let r22 := r21.2.readDouble c.kpact
  let r23 := r22.2.readDouble c.kpinh
  let r24 := r23.2.readDouble c.kPhos
  let r25 := r24.2.readBool c.ensureCaEq
  let c1 : KChICell :=
    { c with
      toChICell := r0.2.1
      Va := r1.1
      Sa := r2.1
      alphExt := r3.1
      KoBl := r4.1
      CaOut := r5.1
      ClOut := r6.1
      ClIn := r7.1
      NaOut := r8.1
      NaIn := r9.1
      Cap := r10.1
      GClLeak := r11.1
      GNaLeak := r12.1
      OmegaK := r13.1
      GKLeak := r14.1
      GKirMax := r15.1
      KNa := r16.1
      KK := r17.1
      JNaKATPaseMax := r18.1
      GCaLeak := r19.1
      PCaLType := r20.1
      OMP := r21.1
      kpact := r22.1
      kpinh := r23.1
      kPhos := r24.1
      ensureCaEq := r25.1 }
  (ok && r25.2.good, KChICell.ComputeOtherParameters E d model c1, r25.2)

/-- The method `KChICell::SaveToStream`: returns the status and the stream. -/
def KChICell.SaveToStream (env : ChICellEnv) (c : KChICell) (stream : OStream) :
    Bool × OStream :=
  let r0 := env.SaveToStream c.toChICell stream
  let ok := r0.1
  let s1 := r0.2.writeDouble c.Va
  let s2 := s1.writeDouble c.Sa
  let s3 := s2.writeDouble c.alphExt
  let s4 := s3.writeDouble c.KoBl
  let s5 := s4.writeDouble c.CaOut
  let s6 := s5.writeDouble c.ClOut
  let s7 := s6.writeDouble c.ClIn
  let s8 := s7.writeDouble c.NaOut
  let s9 := s8.writeDouble c.NaIn
  let s10 := s9.writeDouble c.Cap
  let s11 := s10.writeDouble c.GClLeak
  let s12 := s11.writeDouble c.GNaLeak
  let s13 := s12.writeDouble c.OmegaK
  let s14 := s13.writeDouble c.GKLeak
  let s15 := s14.writeDouble c.GKirMax
  let s16 := s15.writeDouble c.KNa
  let s17 := s16.writeDouble c.KK
  let s18 := s17.writeDouble c.JNaKATPaseMax
  let s19 := s18.writeDouble c.GCaLeak
  let s20 := s19.writeDouble c.PCaLType
  let s21 := s20.writeDouble c.OMP
  let s22 := s21.writeDouble c.kpact
  let s23 := s22.writeDouble c.kpinh
  let s24 := s23.writeDouble c.kPhos
  let s25 := s24.writeBool c.ensureCaEq
  (ok && s25.good, s25)

/-- A text cut before the end of what was saved: no state bit is set, every token is a
number, except that the last one may be the cut-off beginning of a number, with no white
space after it. -/
def IStream.cutOff (s : IStream) : Prop :=
  s.failbit = false ∧ s.eofbit = false ∧ (∀ t, t ∈ s.toks → t ≠ Tok.bad) ∧
  (∀ pre rest, s.toks = pre ++ Tok.cutNum :: rest → rest = [] ∧ s.trailing = false)

/-- The stream runs out before `n` more values are read: it is at its end already, or it
is a cut text with fewer than `n` tokens. -/
def IStream.runsOut (s : IStream) (n : Nat) : Prop :=
  s.eofbit = true ∨ (s.cutOff ∧ s.toks.length < n)

/-- A base class `ChICell` for the examples: it saves and loads the field `a2`, and its
`SetToEquilibrium` clears the flux accumulator. -/
def plainChICellEnv : ChICellEnv :=
  { LoadFromStream := fun b s => ((s.readDouble b.a2).2.good,
      { b with a2 := (s.readDouble b.a2).1 }, (s.readDouble b.a2).2)
    SaveToStream := fun b s => ((s.writeDouble b.a2).good, s.writeDouble b.a2)
    SetToEquilibrium := fun b v _ => ({ b with totFlux := 0 }, v) }

/-- A KChI cell for the examples: `ensureCaEq` is set, the pumping rate `OMP` and the
permeability `PCaLType` are 0 and the leak conductance `GCaLeak` is 1. -/
def leakCell : KChICell :=
  { a2 := 1, c1 := 1, rC := 1, rL := 1, vER := 1, Ker := 1, vd := 1, kd := 1, Kplcd := 1,
    k3 := 1, kP := 1, kR := 1, kpi := 1, totFlux := 0, gluIP3Prod := 0,
    caSpontLeak := false, defaultBiophysParams := false,
    Va := 2, Sa := 3, alphExt := 4, KoBl := 5, CaOut := 6, ClOut := 7, ClIn := 8,
    NaOut := 9, NaIn := 10, Cap := 11, GClLeak := 12, GNaLeak := 13, OmegaK := 14,
    GKLeak := 15, GKirMax := 16, KNa := 17, KK := 18, JNaKATPaseMax := 19, GCaLeak := 1,
    PCaLType := 0, OMP := 0, kpact := 20, kpinh := 21, kPhos := 22, ensureCaEq := true,
    VolCyt := 0, VolER := 0, VolExt := 0, LogForECl := 0, LogForENa := 0, OCK := 0,
    OPK := 0, KFluxOut := 0, KFluxIn := 0 }

/-- Rational stand-ins for the GSL functions and the `HILL` macros, for the examples. -/
def exampleMath : MathEnv :=
  { log := fun x => x - 1
    exp := fun x => 1 + x
    sqrt := fun x => x
    pow := fun x _ => x
    FARADAY := 96485
    MOLAR_GAS := 8
    HILL1 := fun x k => x / (x + k)
    HILL2 := fun x k => x * x / (x * x + k * k)
    HILLn := fun x k _ => x / (x + k) }

/-- Class-wide defaults of the KChI cell for the examples. -/
def exampleKDefaults : KChIDefaults :=
  { DefaultCa := 1, Defaulth := 1, DefaultIP3 := 1, DefaultKo := 3, DefaultKi := 100,
    DefaultVm := -1, DefaultCer := 1, DefaultGp := 1 / 2, DefaultGm := 0,
    DefaultNaOut := 130, DefaultNaIn := 30 }

/-- A KChI model for the examples: the parameter `d1` of the base class is 7 and the 15
network-level parameters are 1, 2, 0, 3, ..., 14. -/
def exampleKModel : KChIModel :=
  { d1 := 7, d2 := 1, d3 := 1, d5 := 1, C0 := 1, r5p := 1, v3k := 1, K3k := 1,
    Sij := 1, T := 2, GJCComp := 0, KDiffVoltThr := 3, VKirH := 4, VKirS := 5,
    VLTmHalf := 6, VLTmSlope := 7, VLThHalf := 8, VLThSlope := 9, KMP := 10,
    alphaP := 11, alphaM := 12, IP3BasalPerm := 13, KBasalPerm := 14, FoRT := 0 }

/-- Two coupled cells holding 3 and 1 whose edges carry the same coupling function
`x ↦ x * x` in both directions. -/
def squareModel : FireDiffuseModel ℚ :=
  { pairModel with
    network := { size := 2
                 GetNeighbors := fun i => if i = 0 then [1] else if i = 1 then [0] else []
                 coupling := fun _ _ x => x * x } }

/-- Three cells holding 3, 1 and 0, fully connected, with the coupling `x ↦ 2 x`; the
neighbours of cell 0 are listed as `[1, 2]`. -/
def triangleModel : FireDiffuseModel ℚ :=
  { pairModel with
    cells := [scenarioCell, scenarioCell, scenarioCell]
    vals := [3, 1, 0]
    network := { size := 3
                 GetNeighbors := fun i =>
                   if i = 0 then [1, 2] else if i = 1 then [0, 2] else [0, 1]
                 coupling := fun _ _ x => 2 * x } }

/-- The topology of `triangleModel` with the neighbours of cell 0 listed as `[2, 1]`. -/
def triangleNetworkSwapped : Network ℚ :=
  { size := 3
    GetNeighbors := fun i => if i = 0 then [2, 1] else if i = 1 then [0, 2] else [0, 1]
    coupling := fun _ _ x => 2 * x }

/-! ## Save and load of the KChI model -/

/-- The methods of the base class `ChIModel` that `KChIModel` calls for its load and save
and that are not part of the sources. -/
structure ChIModelEnv where
  LoadFromStream : KChIModel → IStream → Bool × KChIModel × IStream
  SaveToStream : KChIModel → OStream → Bool × OStream

/-- The method `KChIModel::ComputeOtherParameters`. -/
def KChIModel.ComputeOtherParameters (E : MathEnv) (m : KChIModel) : KChIModel :=
  { m with FoRT := E.FARADAY / (E.MOLAR_GAS * m.T) }

/-- The method `KChIModel::LoadFromStream`: returns the status, the model and the stream.
The local `int tmpVal` is not initialised by the code: its first value is a parameter. -/
def KChIModel.LoadFromStream (env : ChIModelEnv) (E : MathEnv) (tmpVal : Int)
    (m : KChIModel) (stream : IStream) : Bool × KChIModel × IStream :=
  let r1 := stream.readDouble m.Sij
  let r2 := r1.2.readDouble m.T
  let r3 := r2.2.readInt tmpVal
  let r4 := r3.2.readDouble m.KDiffVoltThr
  let r5 := r4.2.readDouble m.VKirH
  let r6 := r5.2.readDouble m.VKirS
  let r7 := r6.2.readDouble m.VLTmHalf
  let r8 := r7.2.readDouble m.VLTmSlope
  let r9 := r8.2.readDouble m.VLThHalf
  let r10 := r9.2.readDouble m.VLThSlope
  let r11 := r10.2.readDouble m.KMP
  let r12 := r11.2.readDouble m.alphaP
  let r13 := r12.2.readDouble m.alphaM
  let r14 := r13.2.readDouble m.IP3BasalPerm
  let r15 := r14.2.readDouble m.KBasalPerm
  let m1 : KChIModel :=
    { m with
      Sij := r1.1
      T := r2.1
      GJCComp := r3.1
      KDiffVoltThr := r4.1
      VKirH := r5.1
      VKirS := r6.1
      VLTmHalf := r7.1
      VLTmSlope := r8.1
      VLThHalf := r9.1
      VLThSlope := r10.1
      KMP := r11.1
      alphaP := r12.1
      alphaM := r13.1
      IP3BasalPerm := r14.1
      KBasalPerm := r15.1 }
  let m2 := m1.ComputeOtherParameters E
  let r := env.LoadFromStream m2 r15.2
  (r.1 && (r.2.2.good || r.2.2.eof), r.2.1, r.2.2)

/-- The method `KChIModel::SaveToStream`: returns the status and the stream. -/
def KChIModel.SaveToStream (env : ChIModelEnv) (m : KChIModel) (stream : OStream) :
    Bool × OStream :=
  let r0 := env.SaveToStream m stream
  let ok := r0.1
  let s1 := r0.2.writeDouble m.Sij
  let s2 := s1.writeDouble m.T
  let s3 := s2.writeDouble (m.GJCComp : ℚ)
  let s4 := s3.writeDouble m.KDiffVoltThr
  let s5 := s4.writeDouble m.VKirH
  let s6 := s5.writeDouble m.VKirS
  let s7 := s6.writeDouble m.VLTmHalf
  let s8 := s7.writeDouble m.VLTmSlope
  let s9 := s8.writeDouble m.VLThHalf
  let s10 := s9.writeDouble m.VLThSlope
  let s11 := s10.writeDouble m.KMP
  let s12 := s11.writeDouble m.alphaP
  let s13 := s12.writeDouble m.alphaM
  let s14 := s13.writeDouble m.IP3BasalPerm
  let s15 := s14.writeDouble m.KBasalPerm
  (ok, s15)

/-- The 15 network-level parameters of a KChI model, in the order of the declaration. -/
def KChIModel.netParams (m : KChIModel) : List ℚ :=
  [m.Sij, m.T, (m.GJCComp : ℚ), m.KDiffVoltThr, m.VKirH, m.VKirS, m.VLTmHalf, m.VLTmSlope,
   m.VLThHalf, m.VLThSlope, m.KMP, m.alphaP, m.alphaM, m.IP3BasalPerm, m.KBasalPerm]

/-- A base class `ChIModel` for the examples: its block is the one parameter `d1`. -/
def plainChIModelEnv : ChIModelEnv :=
  { LoadFromStream := fun m s => ((s.readDouble m.d1).2.good,
      { m with d1 := (s.readDouble m.d1).1 }, (s.readDouble m.d1).2)
    SaveToStream := fun m s => ((s.writeDouble m.d1).good, s.writeDouble m.d1) }

/-! ## Pending activations -/

/-- Whether `UpdateVals(t)` takes the arming `if` for cell `i`: the condition of the first
`if` of the loop, evaluated on the model as it is when the loop reaches the cell. -/
def armsAt (base : FireDiffuseModel ℚ → ℚ → FireDiffuseModel ℚ)
    (m : FireDiffuseModel ℚ) (t : ℚ) (i : Nat) : Bool :=
  if m.isPreRunning = false then
    match (loopState base m t i).cells[i]? with
    | some c =>
      decide (c.willActivate = false ∧ dynVal (loopState base m t i).vals i 0 ≥ c.thresh ∧
        (loopState base m t i).tCurr - c.refractTime > c.tauRefr)
    | none => false
  else false

/-- Whether `UpdateVals(t)` takes the firing `if` for cell `i` (the reset of the
quantity): the condition of the second `if` of the loop, evaluated on the model as the
arming `if` of the same pass leaves it. -/
def resetsAt (base : FireDiffuseModel ℚ → ℚ → FireDiffuseModel ℚ)
    (m : FireDiffuseModel ℚ) (t : ℚ) (i : Nat) : Bool :=
  if m.isPreRunning = false then
    match (UpdateVals_arm (loopState base m t i) i).cells[i]? with
    | some c =>
      decide (c.willActivate = true ∧
        (UpdateVals_arm (loopState base m t i) i).tCurr - c.actTime > c.activDelay)
    | none => false
  else false

/-- The number of `UpdateVals` calls of a run of the solver that arm cell `i`. -/
def armCount (base : FireDiffuseModel ℚ → ℚ → FireDiffuseModel ℚ) (i : Nat) :
    FireDiffuseModel ℚ → List SolverAction → Nat
  | _, [] => 0
  | m, SolverAction.update t :: rest =>
    (if armsAt base m t i then 1 else 0) +
      armCount base i (applyAction base m (SolverAction.update t)) rest
  | m, SolverAction.eval t v f :: rest =>
    armCount base i (applyAction base m (SolverAction.eval t v f)) rest
  | m, SolverAction.write vals :: rest =>
    armCount base i (applyAction base m (SolverAction.write vals)) rest

/-- The number of `UpdateVals` calls of a run of the solver that reset cell `i`. -/
def resetCount (base : FireDiffuseModel ℚ → ℚ → FireDiffuseModel ℚ) (i : Nat) :
    FireDiffuseModel ℚ → List SolverAction → Nat
  | _, [] => 0
  | m, SolverAction.update t :: rest =>
    (if resetsAt base m t i then 1 else 0) +
      resetCount base i (applyAction base m (SolverAction.update t)) rest
  | m, SolverAction.eval t v f :: rest =>
    resetCount base i (applyAction base m (SolverAction.eval t v f)) rest
  | m, SolverAction.write vals :: rest =>
    resetCount base i (applyAction base m (SolverAction.write vals)) rest

/-- The number of activations pending for cell `i`: 1 if the cell is scheduled, else 0. -/
def pendingAt (m : FireDiffuseModel ℚ) (i : Nat) : Nat :=
  match m.cells[i]? with
  | some c => if c.willActivate = true then 1 else 0
  | none => 0

/-! ## Constructors of the cell -/

/-- The pointer members of a `FireDiffuseCell`: the array that `dynVals` points at (its
contents from index 0 on), the flag `freeDynVals` and the size `nbDynVals`. -/
structure DynValsView where
  dynVals : List ℚ
  freeDynVals : Bool
  nbDynVals : Nat

/-- The default constructor `FireDiffuseCell(_model, _dv, _fv)`.  The argument `_dv` is
the array the pointer names, `none` for a null pointer; `fresh` is the value found in the
array that `new double[nbDynVals]` returns, which C++ does not initialise.  The
initialiser list runs first, then the body, which ends with `Initialize()`. -/
def FireDiffuseCell.DefaultConstructor (d : CellDefaults ℚ) (_dv : Option (List ℚ))
    (_fv : Bool) (fresh : ℚ) : FireDiffuseCell ℚ × DynValsView :=
  let c0 : FireDiffuseCell ℚ :=
    { thresh := d.DefaultThresh
      actQuant := d.DefaultActQuant
      tauRefr := d.DefaultTauRefr
      degrad := d.DefaultDegrad
      activDelay := d.DefaultActivDelay
      refractTime := -99999
      willActivate := false
      actTime := 0
      totFlux := 0 }
  let view0 : DynValsView :=
    match _dv with
    | some a =>
      { dynVals := a, freeDynVals := _fv, nbDynVals := FIREDIFFUSEMODEL_NBVALS_PER_CELL }
    | none =>
      { dynVals := List.replicate FIREDIFFUSEMODEL_NBVALS_PER_CELL fresh
        freeDynVals := true
        nbDynVals := FIREDIFFUSEMODEL_NBVALS_PER_CELL }
  let r := FireDiffuseCell.Initialize d c0
  (r.1, { view0 with dynVals := view0.dynVals.set 0 r.2 })

/-- The copy constructor `FireDiffuseCell(const FireDiffuseCell & c)`; `cv` holds the
pointer members of `c`.  A cell that owns its values gets a copy of them, a cell that does
not shares the array of `c` (the write of `Initialize()` then lands in that array). -/
def FireDiffuseCell.CopyConstructor (d : CellDefaults ℚ) (c : FireDiffuseCell ℚ)
    (cv : DynValsView) : FireDiffuseCell ℚ × DynValsView :=
  let c0 : FireDiffuseCell ℚ :=
    { thresh := c.thresh
      actQuant := c.actQuant
      tauRefr := c.tauRefr
      degrad := c.degrad
      activDelay := d.DefaultActivDelay
      refractTime := -99999
      willActivate := false
      actTime := 0
      totFlux := c.totFlux }
  let view0 : DynValsView :=
    if cv.freeDynVals = true then
      { cv with dynVals := (List.range cv.nbDynVals).map (fun i => cv.dynVals.getD i 0) }
    else cv
  let r := FireDiffuseCell.Initialize d c0
  (r.1, { view0 with dynVals := view0.dynVals.set 0 r.2 })

/-- A cell whose every field differs from the class-wide defaults of the scenario. -/
def oddCell : FireDiffuseCell ℚ :=
  { thresh := 40
    actQuant := 80
    tauRefr := 75
    degrad := 3
    activDelay := 50
    refractTime := 12
    willActivate := true
    actTime := 11
    totFlux := 6 }

/-! ## Derivative function of the KChI cell -/

/-- The method `KChICellFunct::CompFunc(t, v, f)`.  The function object holds a reference
to its cell and assigns the field `gluIP3Prod` of it, so that the cell after the call is
part of the result, next to the buffer of `f`; `v` and `f` are pointers, given as a
buffer and an offset.  The `static` locals are all assigned before they are read.  The
trace output and the assertion `not isnan(f[2])` are not modelled (rationals have no
NaN).  The values `SimpleEq` and `DoubleEq` of `GJCComp` are 0 and 1. -/
def KChICellFunct.CompFunc (E : MathEnv) (model : KChIModel) (cell : KChICell) (_t : ℚ)
    (v : List ℚ) (vOff : Nat) (f : List ℚ) (fOff : Nat) : KChICell × List ℚ :=
  let F := E.FARADAY
  let R := E.MOLAR_GAS
  let Ca := v.getD (vOff + 0) 0
  let h := v.getD (vOff + 1) 0
  let IP3 := v.getD (vOff + 2) 0
  let Ko := v.getD (vOff + 3) 0
  let Ki := v.getD (vOff + 4) 0
  let Vm := v.getD (vOff + 5) 0
  let Cer := v.getD (vOff + 6) 0
  let Gp := v.getD (vOff + 7) 0
  let Gm := v.getD (vOff + 8) 0
  let T := model.T
  let RToF := R * T / F
  let Q2 := model.d2 * (IP3 + model.d1) / (IP3 + model.d3)
  let hInf := Q2 / (Q2 + Ca)
  let OmegaH := cell.a2 * (Q2 + Ca)
  let mInf := E.HILL1 IP3 model.d1 * E.HILL1 Ca model.d5
  let Jchan := cell.VolER * cell.rC * E.pow (mInf * h) 3 * (Cer - Ca)
  let Jleak := cell.VolER * cell.rL * (Cer - Ca)
  let Jpump := cell.VolCyt * cell.vER * E.HILL2 Ca cell.Ker
  let Jspont := if cell.caSpontLeak = true then cell.rL else 0
  let ECa := RToF / 2 * E.log (cell.CaOut / Ca)
  let LTv := 2 * Vm / RToF
  let expLTv := E.exp (-LTv)
  let mLT := 1 / (1 + E.exp ((Vm - model.VLTmHalf) / model.VLTmSlope))
  let hLT := 1 / (1 + E.exp ((Vm - model.VLThHalf) / model.VLThSlope))
  let ICaLeak := cell.GCaLeak * (Vm - ECa)
  let ICaLType :=
    mLT * hLT * 2 * cell.PCaLType * F * LTv * (Ca - cell.CaOut * expLTv) / (1 - expLTv)
  let ICaPMCA := 2 * F * cell.OMP * E.HILL2 Ca model.KMP
  let ICa := cell.Sa * (ICaLeak + ICaLType + ICaPMCA)
  let Pplcd := cell.vd * cell.kd / (cell.kd + IP3) * E.HILL2 Ca cell.Kplcd
  let D5p := model.r5p * IP3
  let D3k := model.v3k * E.HILLn Ca model.K3k 4 * E.HILL1 IP3 cell.k3
  let Ek := RToF * E.log (Ko / Ki)
  let GKir :=
    cell.GKirMax / E.sqrt (Ko * (1 + E.exp ((Vm - model.VKirH - Ek) / model.VKirS)))
  let JNaKATPase :=
    cell.Sa * cell.JNaKATPaseMax * E.HILLn cell.NaIn cell.KNa (3 / 2) * E.HILL1 Ko cell.KK
  let Ik := cell.Sa * (cell.GKLeak + GKir) * (Vm - Ek)
  let ICl := cell.Sa * cell.GClLeak * (Vm + RToF * cell.LogForECl)
  let INa := cell.Sa * cell.GNaLeak * (Vm - RToF * cell.LogForENa)
  let kCamAct := cell.OCK * E.HILLn Ca cell.k3 4
  let kPKCAct := cell.OPK * E.HILL1 Ca cell.kpi
  let cell1 : KChICell := { cell with gluIP3Prod := 0 }
  let f0 := f.set (fOff + 0)
    ((Jchan + Jleak - Jpump + Jspont - ICa / (2 * F)) / cell1.VolCyt)
  let f1 := f0.set (fOff + 1) ((hInf - h) * OmegaH)
  let f2 := f1.set (fOff + 2) (Pplcd - D3k - D5p - cell1.totFlux + cell1.gluIP3Prod)
  let f3 := f2.set (fOff + 3)
    ((Ik / F - 2 * JNaKATPase + cell1.KFluxOut) / cell1.VolExt - cell1.OmegaK * (Ko - cell1.KoBl))
  let f4 := f3.set (fOff + 4) ((-Ik / F + 2 * JNaKATPase - cell1.KFluxIn) / cell1.VolCyt)
  let f5 := f4.set (fOff + 5)
    (-(Ik + ICa + ICl + INa + F * (cell1.KFluxIn + JNaKATPase)) / cell1.Cap)
  let f6 := f5.set (fOff + 6) ((-Jchan - Jleak + Jpump - Jspont) / cell1.VolER)
  let f8 :=
    if model.GJCComp = 0 then
      (f6.set (fOff + 7) (kCamAct * (1 - Gp) - kPKCAct * Gp)).set (fOff + 8) 0
    else if model.GJCComp = 1 then
      (f6.set (fOff + 7) (kCamAct * (1 - Gp - Gm) - cell1.kPhos * Gp)).set (fOff + 8)
        (kPKCAct * (1 - Gp - Gm) - cell1.kPhos * Gm)
    else (f6.set (fOff + 7) 0).set (fOff + 8) 0
  (cell1, f8)

/-- A KChI cell whose exogenous input term was set to 1 by a stimulation. -/
def stimulatedKCell : KChICell := { leakCell with gluIP3Prod := 1 }

/-! ## Fluxes of the KChI model and accesses to the cells -/

/-- The state of a `KChIModel` that `ComputeFluxes` works on: the parameters of the model,
the cells, the flat buffer of dynamic values (9 for each cell) and the topology. -/
structure KChIModelState where
  model : KChIModel
  cells : List KChICell
  vals : List ℚ
  network : Network ℚ

/-- The read of `cells[i]->dynVals[k]` in a KChI model: the slice of cell `i` starts at
offset `i * KCHIMODEL_NBVALS_PER_CELL` of the flat buffer (`KChIModel::SetVals`). -/
def kDynVal (vals : List ℚ) (i k : Nat) : ℚ :=
  vals.getD (i * KCHIMODEL_NBVALS_PER_CELL + k) 0

/-- Index of the IP3 concentration (`ChICell::IP3`; the derivative function reads it as
`v[2]`). -/
def ChICell.IP3 : Nat := 2

/-- The permeability `perm` that `KChIModel::ComputeFluxes` computes for the cell `i` and
its neighbour `nb` (the `switch` on `GJCComp`: `SimpleEq` is 0, `DoubleEq` is 1). -/
def KChIModel.perm (p : KChIModel) (vals : List ℚ) (i nb : Nat) : ℚ :=
  if p.GJCComp = 0 then
    min (kDynVal vals i KChICell.Gp) (kDynVal vals nb KChICell.Gp) * (p.alphaP - p.alphaM) +
      p.alphaM
  else if p.GJCComp = 1 then
    min (kDynVal vals i KChICell.Gp * (p.alphaP - 1) +
          kDynVal vals i KChICell.Gm * (p.alphaM - 1))
        (kDynVal vals nb KChICell.Gp * (p.alphaP - 1) +
          kDynVal vals nb KChICell.Gm * (p.alphaM - 1)) + 1
  else 1

/-- The condition of the `if` of `KChIModel::ComputeFluxes` that selects the exponential
branch of the potassium flux between the cell `i` and its neighbour `nb`. -/
def KChIModel.expBranch (p : KChIModel) (vals : List ℚ) (i nb : Nat) : Bool :=
  decide (|kDynVal vals i KChICell.Vm - kDynVal vals nb KChICell.Vm| > p.KDiffVoltThr)

/-- The term that `KChIModel::ComputeFluxes` adds to `KFluxIn` of the cell `i` for its
neighbour `nb`. -/
def KChIModel.KFluxTerm (E : MathEnv) (p : KChIModel) (vals : List ℚ) (i nb : Nat) : ℚ :=
  if KChIModel.expBranch p vals i nb = true then
    p.Sij * p.KBasalPerm * KChIModel.perm p vals i nb *
        (p.FoRT * (kDynVal vals i KChICell.Vm - kDynVal vals nb KChICell.Vm)) *
        (kDynVal vals i KChICell.Ki - kDynVal vals nb KChICell.Ki *
          E.exp (-(p.FoRT * (kDynVal vals i KChICell.Vm - kDynVal vals nb KChICell.Vm)))) /
      (1 - E.exp (-(p.FoRT * (kDynVal vals i KChICell.Vm - kDynVal vals nb KChICell.Vm))))
  else
    p.Sij * p.KBasalPerm * KChIModel.perm p vals i nb *
      (kDynVal vals i KChICell.Ki - kDynVal vals nb KChICell.Ki)

/-- The term that `KChIModel::ComputeFluxes` adds to `totFlux` of the cell `c`, of index
`i`, for its neighbour `nb`. -/
def KChIModel.IP3FluxTerm (s : KChIModelState) (c : KChICell) (i nb : Nat) : ℚ :=
  s.model.Sij / c.VolCyt * s.model.IP3BasalPerm * KChIModel.perm s.model s.vals i nb *
    s.network.coupling i nb (kDynVal s.vals i ChICell.IP3 - kDynVal s.vals nb ChICell.IP3)

/-- One pass of the inner loop of `KChIModel::ComputeFluxes`: the neighbour `nb` of the
cell `i`. -/
def KChIModel.ComputeFluxes_neighbor (E : MathEnv) (i : Nat) (s : KChIModelState)
    (nb : Nat) : KChIModelState :=
  { s with
    cells := s.cells.modify
               (fun c =>
                 { c with
                   totFlux := c.totFlux + KChIModel.IP3FluxTerm s c i nb
                   KFluxIn := c.KFluxIn + KChIModel.KFluxTerm E s.model s.vals i nb }) i }

/-- One pass of the outer loop of `KChIModel::ComputeFluxes`: the cell `i`. -/
def KChIModel.ComputeFluxes_cell (E : MathEnv) (s : KChIModelState) (i : Nat) :
    KChIModelState :=
  (s.network.GetNeighbors i).foldl (KChIModel.ComputeFluxes_neighbor E i)
    { s with
      cells := s.cells.modify
                 (fun c =>
                   { c with totFlux := 0, caSpontLeak := false, KFluxIn := 0, KFluxOut := 0 }) i }

/-- The method `KChIModel::ComputeFluxes`. -/
def KChIModel.ComputeFluxes (E : MathEnv) (s : KChIModelState) (_t : ℚ) : KChIModelState :=
  (List.range s.network.size).foldl (KChIModel.ComputeFluxes_cell E) s

/-- The method `KChIModel::ModifKoutFluxes`. -/
def KChIModel.ModifKoutFluxes (s : KChIModelState) (i : Nat) (flux : ℚ) : KChIModelState :=
  { s with cells := s.cells.modify (fun c => { c with KFluxOut := c.KFluxOut + flux }) i }

/-- The indices `k` of the expressions `cells[k]` that `FireDiffuseModel::ComputeFluxes`
evaluates for the topology `net`, in the order of the text: `cells[i]` for the reset of
the accumulator and, for each neighbour `nb` of `i`, `cells[i]` twice and `cells[nb]`.
No test on the indices stands before them. -/
def FireDiffuseModel.ComputeFluxes_accesses (net : Network ℚ) : List Nat :=
  (List.range net.size).flatMap
    (fun i => i :: (net.GetNeighbors i).flatMap (fun nb => [i, i, nb]))

/-- The indices `k` of the expressions `cells[k]` that `KChIModel::ComputeFluxes`
evaluates for the topology `net`, in the order of the text: for each `i` the cast of
`cells[i]` and the two resets through `cells[i]`, and for each neighbour `nb` of `i` the
reads of the permeability (by `GJCComp`), of the IP3 flux, of the voltage test and of the
branch taken (`expBranch i nb`).  No test on the indices stands before them. -/
def KChIModel.ComputeFluxes_accesses (p : KChIModel) (net : Network ℚ)
    (expBranch : Nat → Nat → Bool) : List Nat :=
  (List.range net.size).flatMap
    (fun i => [i, i, i] ++ (net.GetNeighbors i).flatMap
      (fun nb =>
        (if p.GJCComp = 0 then [i, nb] else if p.GJCComp = 1 then [i, i, nb, nb] else []) ++
        [i, i, nb] ++ [i, nb] ++
        (if expBranch i nb = true then [i, nb, i, nb] else [i, nb])))

/-- A topology of one node whose neighbour list names the node 5. -/
def strayNetwork : Network ℚ :=
  { size := 1
    GetNeighbors := fun _ => [5]
    coupling := fun _ _ x => x }

/-- A topology of three isolated nodes. -/
def wideNetwork : Network ℚ :=
  { size := 3
    GetNeighbors := fun _ => []
    coupling := fun _ _ x => x }

/-- The dynamic values of two KChI cells: membrane potentials -1 and 1 (a difference
below the threshold 3 of the example model), intracellular potassium 100 and 90,
phosphorylation ratios 1/2 and 1/4. -/
def twoKCellVals : List ℚ :=
  [1, 1, 1, 3, 100, -1, 1, 1 / 2, 0, 2, 1, 4, 3, 90, 1, 1, 1 / 4, 0]

/-! ## Buffer layout of the KChI model -/

/-- An address of a `double`: a memory block and an offset inside it, counted in values.
Block 0 at offset 0 is the null pointer. -/
structure Ptr where
  block : Nat
  off : Nat
deriving DecidableEq

/-- The null pointer. -/
def Ptr.null : Ptr := { block := 0, off := 0 }

/-- Pointer arithmetic `p + k`. -/
def Ptr.add (p : Ptr) (k : Nat) : Ptr := { p with off := p.off + k }

/-- Modelled from the spec: `ODEProblem` is not part of the sources; of its members the
pointer `vals` to the flat buffer and the count `nbVals` are kept. -/
structure ODEProblem where
  vals : Ptr
  nbVals : Nat

/-- The methods of `ODEProblem` that `KChIModel` calls and that are not part of the
sources: `AllocateMemory(n)`, `SetVals(_vals, _nbVals)` and `UseCurrentValsAsInitVals()`. -/
structure ODEProblemEnv where
  AllocateMemory : ODEProblem → Nat → ODEProblem
  SetVals : ODEProblem → Ptr → Nat → ODEProblem
  UseCurrentValsAsInitVals : ODEProblem → ODEProblem

/-- A KChI cell as an object in memory: its fields, the pointer `dynVals` and the flag
`freeDynVals`. -/
structure KChICellObj where
  cell : KChICell
  dynVals : Ptr
  freeDynVals : Bool

/-- The memory view of a `KChIModel`: its `ODEProblem` part and the vector `cells`. -/
structure KChIModelMem where
  ode : ODEProblem
  cells : List KChICellObj

/-- The constructor `KChICell(_model, _dv, _fv)`, as far as the pointer members go.
Modelled from the spec: the constructor of the base class `ChICell` is not part of the
sources; it is taken to store `_dv` and `_fv` (as the constructor of `FireDiffuseCell`
does).  For a null `_dv` the body allocates an array, at `fresh`, that the cell owns.
`newCell` holds the field values the constructor ends with. -/
def KChICell.Constructor (newCell : KChICell) (_dv : Ptr) (_fv : Bool) (fresh : Ptr) :
    KChICellObj :=
  if _dv = Ptr.null then { cell := newCell, dynVals := fresh, freeDynVals := true }
  else { cell := newCell, dynVals := _dv, freeDynVals := _fv }

/-- Modelled from the spec: `ChICell::SetDynVals(_dv, _fv)` is not part of the sources; it
is taken to store the pointer and the flag. -/
def KChICellObj.SetDynVals (c : KChICellObj) (_dv : Ptr) (_fv : Bool) : KChICellObj :=
  { c with dynVals := _dv, freeDynVals := _fv }

/-- The number of values of the type `unsigned int`, taken with 32 bits: its values are
the numbers below `2 ^ 32` and its arithmetic is modulo `2 ^ 32`. -/
def UINT_RANGE : Nat := 4294967296

/-- The extraction `stream >> n` of an `unsigned int`: the digits are read as for an
`int`; a number that is too large sets `failbit` and stores the largest value, a negative
number is negated in the unsigned type (it wraps modulo `2 ^ 32`). -/
def IStream.readUInt (s : IStream) (old : Nat) : Nat × IStream :=
  if (UINT_RANGE : Int) ≤ (s.readInt old).1 then
    (UINT_RANGE - 1, { (s.readInt old).2 with failbit := true })
  else (((s.readInt old).1 % (UINT_RANGE : Int)).toNat, (s.readInt old).2)

/-- The method `KChIModel::SetVals(_vals, _nbVals)`: the call of the base class, the loop
that points every cell into the buffer, and `UseCurrentValsAsInitVals()`.  The offset
`i * KCHIMODEL_NBVALS_PER_CELL` is a product of the type `unsigned int`.  The names of the
values (`SetValNamesPostfix`) are not modelled. -/
def KChIModel.SetVals (env : ODEProblemEnv) (s : KChIModelMem) (_vals : Ptr) (_nbVals : Nat) :
    KChIModelMem :=
  let ode1 := env.SetVals s.ode _vals _nbVals
  { ode := env.UseCurrentValsAsInitVals ode1
    cells := s.cells.mapIdx
      (fun i c =>
        c.SetDynVals (ode1.vals.add (i * KCHIMODEL_NBVALS_PER_CELL % UINT_RANGE)) false) }

/-- The method `KChIModel::SetUpCellsAndODEs(nbCells)`: the buffer is allocated, the old
cells are dropped, `nbCells` cells are built on the slices of the buffer, and `SetVals()`
is called with its default arguments (a null pointer and 0).  The argument is an
`unsigned int`, and so are the products `nbCells * KCHIMODEL_NBVALS_PER_CELL` and
`i * KCHIMODEL_NBVALS_PER_CELL`.  `fresh i` is the address of the array that the
constructor of cell `i` would allocate. -/
def KChIModel.SetUpCellsAndODEs (env : ODEProblemEnv) (newCell : KChICell)
    (fresh : Nat → Ptr) (s : KChIModelMem) (nbCells : Nat) : KChIModelMem :=
  let ode1 := env.AllocateMemory s.ode (nbCells * KCHIMODEL_NBVALS_PER_CELL % UINT_RANGE)
  let cells := (List.range nbCells).map
    (fun i => KChICell.Constructor newCell
      (ode1.vals.add (i * KCHIMODEL_NBVALS_PER_CELL % UINT_RANGE)) false (fresh i))
  KChIModel.SetVals env { ode := ode1, cells := cells } Ptr.null 0

/-- One pass of the loop of `LoadFunctAndCellsFromStream`: cell `i` is built on its slice
of the buffer `vals`, appended, and loaded from the stream. -/
def LoadFunctAndCellsFromStream_cell (cenv : ChICellEnv) (E : MathEnv) (d : KChIDefaults)
    (model : KChIModel) (newCell : KChICell) (fresh : Nat → Ptr) (vals : Ptr)
    (acc : Bool × List KChICellObj × IStream) (i : Nat) : Bool × List KChICellObj × IStream :=
  let obj := KChICell.Constructor newCell
    (vals.add (i * KCHIMODEL_NBVALS_PER_CELL % UINT_RANGE)) false (fresh i)
  let r := KChICell.LoadFromStream cenv E d model obj.cell acc.2.2
  (acc.1 && r.1, acc.2.1 ++ [{ obj with cell := r.2.1 }], r.2.2)

/-- The method `KChIModel::LoadFunctAndCellsFromStream`.  The count `nbCells` is an
`unsigned int` that is not initialised: `nbCells0` is the value it holds before the
extraction.  The products are of the type `unsigned int`. -/
def KChIModel.LoadFunctAndCellsFromStream (env : ODEProblemEnv) (cenv : ChICellEnv)
    (E : MathEnv) (d : KChIDefaults) (model : KChIModel) (newCell : KChICell)
    (fresh : Nat → Ptr) (nbCells0 : Nat) (s : KChIModelMem) (stream : IStream) :
    Bool × KChIModelMem × IStream :=
  let r := stream.readUInt nbCells0
  let nbCells := r.1
  let ode1 := env.AllocateMemory s.ode (nbCells * KCHIMODEL_NBVALS_PER_CELL % UINT_RANGE)
  let res := (List.range nbCells).foldl
    (LoadFunctAndCellsFromStream_cell cenv E d model newCell fresh ode1.vals) (true, [], r.2)
  (res.1, { ode := ode1, cells := res.2.1 }, res.2.2)

/-- The method `KChIModel::GetTotNbDynVals`: the product is returned as an
`unsigned int`. -/
def KChIModel.GetTotNbDynVals (s : KChIModelMem) : Nat :=
  s.cells.length * KCHIMODEL_NBVALS_PER_CELL % UINT_RANGE

/-- The layout of the buffer: cell `i` points at offset `9 * i` of the current buffer of
the model and does not own its values. -/
def BufferLayout (s : KChIModelMem) : Prop :=
  ∀ (i : Nat) (c : KChICellObj), s.cells[i]? = some c →
    c.dynVals = s.ode.vals.add (9 * i) ∧ c.freeDynVals = false

/-- An `ODEProblem` for the examples: `AllocateMemory` takes the block after the current
one, `SetVals` adopts a pointer that is not null and keeps the buffer otherwise. -/
def plainODEProblemEnv : ODEProblemEnv :=
  { AllocateMemory := fun o n => { vals := { block := o.vals.block + 1, off := 0 }, nbVals := n }
    SetVals := fun o p n => if p = Ptr.null then o else { vals := p, nbVals := n }
    UseCurrentValsAsInitVals := fun o => o }

/-- A model without cells whose buffer is at block 1. -/
def emptyKChIModelMem : KChIModelMem :=
  { ode := { vals := { block := 1, off := 0 }, nbVals := 0 }, cells := [] }

/-! ## Parameter descriptions (`utility/`) -/

/-- A `QString`, as the list of its characters. -/
abbrev QString : Type := List Char

/-- The test `QChar::isSpace`: the control characters 9 to 13, the space, and the other
separators of Unicode. -/
def QChar.isSpace (c : Char) : Bool :=
  (9 ≤ c.toNat && c.toNat ≤ 13) || c.toNat = 32 || c.toNat = 133 || c.toNat = 160 ||
  c.toNat = 5760 || (8192 ≤ c.toNat && c.toNat ≤ 8202) || c.toNat = 8232 ||
  c.toNat = 8233 || c.toNat = 8239 || c.toNat = 8287 || c.toNat = 12288

/-- The method `QString::indexOf(ch)`: the position of the first occurrence of `ch`, or
`-1` if there is none. -/
def QString.indexOf : QString → Char → Int
  | [], _ => -1
  | x :: xs, ch =>
    if x = ch then 0
    else if QString.indexOf xs ch = -1 then -1 else QString.indexOf xs ch + 1

/-- The method `QString::left(n)`: the `n` leftmost characters; the entire string if `n`
is negative or not below the size. -/
def QString.left (s : QString) (n : Int) : QString :=
  if n < 0 ∨ (s.length : Int) ≤ n then s else s.take n.toNat

/-- The method `QString::mid(position)`: the characters from `position` on; an empty
string if `position` exceeds the size. -/
def QString.mid (s : QString) (position : Int) : QString :=
  if (s.length : Int) < position then [] else s.drop position.toNat

/-- The method `QString::trimmed()`: the string without the white space at its two
ends. -/
def QString.trimmed (s : QString) : QString :=
  ((s.dropWhile QChar.isSpace).reverse.dropWhile QChar.isSpace).reverse

/-- The method `QString::split(sep)` for a separator of one character, with the default
behaviour `KeepEmptyParts`: an empty string gives one empty entry. -/
def QString.split : QString → Char → List QString
  | [], _ => [[]]
  | x :: xs, sep =>
    if x = sep then [] :: QString.split xs sep
    else
      match QString.split xs sep with
      | [] => [[x]]
      | e :: es => (x :: e) :: es

/-- The method `QString::split(sep, QString::SkipEmptyParts)`. -/
def QString.splitSkipEmptyParts (s : QString) (sep : Char) : List QString :=
  (QString.split s sep).filter (fun e => !e.isEmpty)

/-- The fields of the class `SingleParam`. -/
structure SingleParam where
  name : QString
  type : QString
  defaultVal : QString
  allowedVals : List QString
deriving DecidableEq

/-- The method `SingleParam::LoadFromString(str)`: the return value and the object after
the call (the fields written before a `return false` stay written). -/
def SingleParam.LoadFromString (p : SingleParam) (str : QString) : Bool × SingleParam :=
  let posTypeEnd := QString.indexOf str ' '
  let p1 := { p with type := QString.trimmed (QString.left str posTypeEnd) }
  let str1 := QString.mid str (posTypeEnd + 1)
  let posAllowStart := QString.indexOf str1 '['
  if posAllowStart ≠ -1 then
    let str2 := QString.mid str1 (posAllowStart + 1)
    let posAllowEnd := QString.indexOf str2 ']'
    if posAllowEnd = -1 then (false, p1)
    else
      let allow := QString.split (QString.left str2 posAllowEnd) ' '
      let p2 := { p1 with allowedVals := p1.allowedVals ++ allow.map QString.trimmed }
      let str3 := QString.mid str2 (posAllowEnd + 1)
      let posDefaultStart := QString.indexOf str3 '('
      if posDefaultStart ≠ -1 then
        let str4 := QString.mid str3 (posDefaultStart + 1)
        let posDefaultEnd := QString.indexOf str4 ')'
        if posDefaultEnd = -1 then (false, p2)
        else (true, { p2 with defaultVal := QString.trimmed (QString.left str4 posDefaultEnd) })
      else (true, p2)
  else
    let posDefaultStart := QString.indexOf str1 '('
    if posDefaultStart ≠ -1 then
      let str4 := QString.mid str1 (posDefaultStart + 1)
      let posDefaultEnd := QString.indexOf str4 ')'
      if posDefaultEnd = -1 then (false, p1)
      else (true, { p1 with defaultVal := QString.trimmed (QString.left str4 posDefaultEnd) })
    else (true, p1)

/-- The object that the constructor `SingleParam()` makes: empty strings, no allowed
value. -/
def SingleParam.empty : SingleParam :=
  { name := [], type := [], defaultVal := [], allowedVals := [] }

/-- The text of `s` before the first occurrence of `ch` (the whole text if there is
none). -/
def beforeFirst (ch : Char) (s : QString) : QString := s.takeWhile (fun x => x != ch)

/-- The text of `s` after the first occurrence of `ch` (empty if there is none). -/
def afterFirst (ch : Char) (s : QString) : QString := (s.dropWhile (fun x => x != ch)).drop 1

/-- The text after the type in a description: what follows the first space, and the whole
text when there is no space. -/
def textAfterType (str : QString) : QString :=
  if ' ' ∈ str then afterFirst ' ' str else str

/-- The text left after the allowed-values part: what follows the first `]` after the
first `[` when there is a `[`, the text itself when there is none. -/
def textAfterAllowed (s : QString) : QString :=
  if '[' ∈ s then afterFirst ']' (afterFirst '[' s) else s

/-- The Qt widget `QComboBox`, as far as the parameters use it: the texts of its items and
the index of the current item, `-1` when there is none. -/
structure QComboBox where
  items : List QString
  currentIndex : Int
deriving DecidableEq

/-- The method `QComboBox::findText(text)`: the index of the first item with this text,
or `-1`. -/
def QComboBox.findText (b : QComboBox) (text : QString) : Int :=
  if text ∈ b.items then (b.items.indexOf text : Int) else -1

/-- The method `QComboBox::setCurrentIndex(index)`; an index that names no item leaves the
box without a current item. -/
def QComboBox.setCurrentIndex (b : QComboBox) (index : Int) : QComboBox :=
  { b with currentIndex := if 0 ≤ index ∧ index < (b.items.length : Int) then index else -1 }

/-- The method `QComboBox::currentText()`: the text of the current item, empty when there
is none. -/
def QComboBox.currentText (b : QComboBox) : QString :=
  if 0 ≤ b.currentIndex then b.items.getD b.currentIndex.toNat [] else []

/-- The class `SingleValueParam`: the fields of `SingleParam` and the three widget
pointers, `none` for a null pointer; a check box is its checked state and a line edit is
its text. -/
structure SingleValueParam extends SingleParam where
  chkbox : Option Bool
  lineedt : Option QString
  combBox : Option QComboBox
deriving DecidableEq

/-- The method `SingleParam::IsBoolean`. -/
def SingleParam.IsBoolean (p : SingleParam) : Bool := decide (p.type = ['b'])

/-- The method `SingleValueParam::ParseValue(paramVal)`: the return value and the object
after the call.  The message box is not modelled. -/
def SingleValueParam.ParseValue (p : SingleValueParam) (paramVal : QString) :
    Bool × SingleValueParam :=
  if p.toSingleParam.IsBoolean = true then
    (true, { p with chkbox := p.chkbox.map (fun _ => true) })
  else if p.allowedVals.isEmpty = false then
    if paramVal ∈ p.allowedVals then
      (true, { p with combBox := p.combBox.map (fun b => b.setCurrentIndex (b.findText paramVal)) })
    else (false, p)
  else (true, { p with lineedt := p.lineedt.map (fun _ => paramVal) })

/-- The method `SingleValueParam::IsParamModified`. -/
def SingleValueParam.IsParamModified (p : SingleValueParam) : Bool :=
  if p.toSingleParam.IsBoolean = true then
    match p.chkbox with
    | some checked =>
      !((checked && decide (p.defaultVal = ['1'])) || (!checked && decide (p.defaultVal ≠ ['1'])))
    | none => false
  else if p.allowedVals.isEmpty = false then
    match p.combBox with
    | some b => decide (b.currentText ≠ p.defaultVal)
    | none => false
  else
    match p.lineedt with
    | some text => decide (text ≠ p.defaultVal)
    | none => false

/-- The method `SingleValueParam::SaveToString`. -/
def SingleValueParam.SaveToString (p : SingleValueParam) : QString :=
  if p.toSingleParam.IsBoolean = true then [' ']
  else if p.allowedVals.isEmpty = false then
    match p.combBox with
    | some b => b.currentText ++ [' ']
    | none => [' ']
  else
    match p.lineedt with
    | some text => text ++ [' ']
    | none => [' ']

/-- The virtual methods of `SingleParam` that `ParamGroup` calls, for a class `P` of
parameters. -/
structure SingleParamOps (P : Type) where
  IsBoolean : P → Bool
  ParseValue : P → QString → Bool × P
  IsParamModified : P → Bool
  SaveToString : P → QString

/-- The methods of `SingleValueParam`. -/
def SingleValueParam.ops : SingleParamOps SingleValueParam :=
  { IsBoolean := fun p => p.toSingleParam.IsBoolean
    ParseValue := SingleValueParam.ParseValue
    IsParamModified := SingleValueParam.IsParamModified
    SaveToString := SingleValueParam.SaveToString }

/-- The class `ParamGroup`: its name and the vector `parameters` of pointers, `none` for
a null pointer.  The widgets of the group are not modelled. -/
structure ParamGroup (P : Type) where
  name : QString
  parameters : List (Option P)

/-- One pass of the loop of `ParamGroup::SaveToString` on the pair of `res` and
`uncertain`. -/
def ParamGroup.SaveToString_step {P : Type} (ops : SingleParamOps P) (acc : QString × QString)
    (it : Option P) : QString × QString :=
  match it with
  | some p =>
    if ops.IsParamModified p = true then
      (acc.1 ++ (acc.2 ++ ops.SaveToString p ++ [' ']), [])
    else (acc.1, acc.2 ++ (ops.SaveToString p ++ [' ']))
  | none => acc

/-- The method `ParamGroup::SaveToString`. -/
def ParamGroup.SaveToString {P : Type} (ops : SingleParamOps P) (g : ParamGroup P) : QString :=
  (g.parameters.foldl (ParamGroup.SaveToString_step ops) (g.name ++ [' '], [])).1

/-- The saved strings of the parameters of a list, in order, each followed by a space; a
null pointer contributes nothing. -/
def savedStrings {P : Type} (ops : SingleParamOps P) (l : List (Option P)) : QString :=
  (l.map (fun it =>
    match it with
    | some p => ops.SaveToString p ++ [' ']
    | none => [])).flatten

/-- How a run of `ParamGroup::ParseParamValues` ends: it returns a value, or it indexes
the vector `parameters` outside its range, or it calls a method through a null pointer. -/
inductive ParseEnd where
  | returned (ok : Bool)
  | outOfRange (k : Nat)
  | nullPointer (k : Nat)
deriving DecidableEq

/-- A run of `ParamGroup::ParseParamValues`: how it ends (`returned ok` while it runs,
with the current value of `ok`), the indices `k` of the expressions `parameters[k]` it has
evaluated, the calls of `ParseValue` it has made, and the parameters. -/
structure ParseRun (P : Type) where
  status : ParseEnd
  accessed : List Nat
  parsed : List (Nat × QString)
  parameters : List (Option P)

/-- The statement `ok &= parameters[k]->ParseValue(val)`. -/
def ParamGroup.callParseValue {P : Type} (ops : SingleParamOps P) (k : Nat) (val : QString)
    (run : ParseRun P) : ParseRun P :=
  match run.status with
  | ParseEnd.returned ok =>
    match run.parameters[k]? with
    | none => { run with status := ParseEnd.outOfRange k, accessed := run.accessed ++ [k] }
    | some none => { run with status := ParseEnd.nullPointer k, accessed := run.accessed ++ [k] }
    | some (some p) =>
      { status := ParseEnd.returned (ok && (ops.ParseValue p val).1)
        accessed := run.accessed ++ [k]
        parsed := run.parsed ++ [(k, val)]
        parameters := run.parameters.set k (some (ops.ParseValue p val).2) }
  | _ => run

/-- One pass of the loop of `ParamGroup::ParseParamValues` over the tokens, on the run and
the counter `paramNum`. -/
def ParamGroup.ParseParamValues_token {P : Type} (ops : SingleParamOps P)
    (acc : ParseRun P × Nat) (tok : QString) : ParseRun P × Nat :=
  if (QString.trimmed tok).isEmpty = false then
    (ParamGroup.callParseValue ops acc.2 (QString.trimmed tok) acc.1, acc.2 + 1)
  else acc

/-- The method `ParamGroup::ParseParamValues(str)`.  The message box is not modelled. -/
def ParamGroup.ParseParamValues {P : Type} (ops : SingleParamOps P) (g : ParamGroup P)
    (str : QString) : ParseRun P :=
  let splitRes := QString.splitSkipEmptyParts str ' '
  let run0 : ParseRun P :=
    { status := ParseEnd.returned true, accessed := [], parsed := [], parameters := g.parameters }
  if splitRes.length > 0 then
    if splitRes.length ≤ g.parameters.length then
      match g.parameters[0]? with
      | none => { run0 with status := ParseEnd.outOfRange 0, accessed := [0] }
      | some none => { run0 with status := ParseEnd.nullPointer 0, accessed := [0] }
      | some (some p0) =>
        let run1 := { run0 with accessed := [0] }
        let start : ParseRun P × Nat :=
          if ops.IsBoolean p0 = true then (ParamGroup.callParseValue ops 0 [] run1, 1)
          else (run1, 0)
        (splitRes.foldl (ParamGroup.ParseParamValues_token ops) start).1
    else { run0 with status := ParseEnd.returned false }
  else
    if g.parameters.length > 0 then ParamGroup.callParseValue ops 0 [] run0
    else { run0 with status := ParseEnd.returned false }

/-- A boolean parameter with its check box, not checked. -/
def flagParam : SingleValueParam :=
  { name := [], type := ['b'], defaultVal := ['0'], allowedVals := []
    chkbox := some false, lineedt := none, combBox := none }

/-- A parameter of type `d` with the default value `1` whose line edit holds `text`. -/
def numberParam (text : QString) : SingleValueParam :=
  { name := [], type := ['d'], defaultVal := ['1'], allowedVals := []
    chkbox := none, lineedt := some text, combBox := none }

theorem modify_modify_same {β : Type} (f g : β → β) (i : Nat) (l : List β) :
    (l.modify f i).modify g i = l.modify (g ∘ f) i := by
  apply List.ext_getElem?
  intro k
  simp only [List.getElem?_modify]
  cases l[k]? with
  | none => rfl
  | some a => by_cases h : i = k <;> simp [h]

theorem modify_id_of {β : Type} (f : β → β) (hf : ∀ b, f b = b) (i : Nat) (l : List β) :
    l.modify f i = l := by
  apply List.ext_getElem?
  intro k
  simp only [List.getElem?_modify]
  cases l[k]? with
  | none => rfl
  | some a => by_cases h : i = k <;> simp [h, hf]

theorem addTotFlux_zero (c : FireDiffuseCell ℚ) : addTotFlux 0 c = c := by
  cases c
  simp [addTotFlux]

theorem addTotFlux_addTotFlux (x y : ℚ) :
    addTotFlux y ∘ addTotFlux x = addTotFlux (x + y) := by
  funext c
  simp [addTotFlux, add_assoc]

theorem addTotFlux_setTotFlux (x y : ℚ) :
    addTotFlux y ∘ setTotFlux x = setTotFlux (x + y) := by
  funext c
  simp [addTotFlux, setTotFlux]

theorem foldl_neighbor (i : Nat) (l : List Nat) (m : FireDiffuseModel ℚ) :
    l.foldl (ComputeFluxes_neighbor i) m =
      { m with cells := m.cells.modify
                          (addTotFlux ((l.map (edgeFlux m.network m.vals i)).sum)) i } := by
  induction l generalizing m with
  | nil =>
    simp only [List.foldl_nil, List.map_nil, List.sum_nil]
    rw [modify_id_of _ addTotFlux_zero]
  | cons j l ih =>
    rw [List.foldl_cons, ih]
    simp only [ComputeFluxes_neighbor, List.map_cons, List.sum_cons]
    rw [show (fun c : FireDiffuseCell ℚ =>
          { c with totFlux := c.totFlux + edgeFlux m.network m.vals i j }) =
        addTotFlux (edgeFlux m.network m.vals i j) from rfl,
      modify_modify_same, addTotFlux_addTotFlux]

theorem ComputeFluxes_cell_eq (m : FireDiffuseModel ℚ) (i : Nat) :
    ComputeFluxes_cell m i =
      { m with cells := m.cells.modify (setTotFlux (fluxSum m.network m.vals i)) i } := by
  unfold ComputeFluxes_cell
  rw [foldl_neighbor]
  simp only
  rw [show (fun c : FireDiffuseCell ℚ => { c with totFlux := 0 }) = setTotFlux 0 from rfl,
    modify_modify_same, addTotFlux_setTotFlux, zero_add]
  rfl

theorem foldl_ComputeFluxes_cell (n : Nat) (m : FireDiffuseModel ℚ) :
    (List.range n).foldl ComputeFluxes_cell m =
      { m with cells := fluxCells n m.network m.vals m.cells } := by
  induction n with
  | zero => simp [fluxCells]
  | succ n ih =>
    rw [List.range_succ, List.foldl_append, ih]
    simp only [List.foldl_cons, List.foldl_nil, ComputeFluxes_cell_eq, fluxCells,
      List.range_succ, List.foldl_append]

theorem getElem?_fluxCells (n : Nat) (net : Network ℚ) (vals : List ℚ)
    (cs : List (FireDiffuseCell ℚ)) (k : Nat) :
    (fluxCells n net vals cs)[k]? =
      (cs[k]?).map (fun c => if k < n then setTotFlux (fluxSum net vals k) c else c) := by
  induction n with
  | zero => simp [fluxCells]
  | succ n ih =>
    have hstep : fluxCells (n + 1) net vals cs =
        (fluxCells n net vals cs).modify (setTotFlux (fluxSum net vals n)) n := by
      simp [fluxCells, List.range_succ, List.foldl_append]
    rw [hstep, List.getElem?_modify, ih]
    cases cs[k]? with
    | none => rfl
    | some c =>
      by_cases h : n = k
      · subst h
        simp [setTotFlux]
      · have h1 : k < n + 1 ↔ k < n := by omega
        simp [h, h1]

theorem ComputeFluxes_eq (m : FireDiffuseModel ℚ) (t : ℚ) :
    FireDiffuseModel.ComputeFluxes m t =
      { m with cells := fluxCells m.network.size m.network m.vals m.cells } :=
  foldl_ComputeFluxes_cell m.network.size m

theorem fluxCells_idem (n : Nat) (net : Network ℚ) (vals : List ℚ)
    (cs : List (FireDiffuseCell ℚ)) :
    fluxCells n net vals (fluxCells n net vals cs) = fluxCells n net vals cs := by
  apply List.ext_getElem?
  intro k
  rw [getElem?_fluxCells, getElem?_fluxCells]
  cases cs[k]? with
  | none => rfl
  | some c => by_cases h : k < n <;> simp [h, setTotFlux]

/-- C1. After `ComputeFluxes`, the flux accumulator of every cell `i` is the sum, over the
neighbours `j` of `i`, of the coupling function of the edge applied to `C[i] - C[j]`,
whatever the accumulator held before; the dynamic values are not changed, and a second
call gives the same model as one call. -/
theorem ComputeFluxes_totFlux (m : FireDiffuseModel ℚ) (t : ℚ) (hwf : WellFormed m) :
    (∀ i, i < m.cells.length →
      ((FireDiffuseModel.ComputeFluxes m t).cells[i]?).map (fun c => c.totFlux) =
        some (((m.network.GetNeighbors i).map
          (fun j => m.network.coupling i j (dynVal m.vals i 0 - dynVal m.vals j 0))).sum)) ∧
    (FireDiffuseModel.ComputeFluxes m t).vals = m.vals ∧
    FireDiffuseModel.ComputeFluxes (FireDiffuseModel.ComputeFluxes m t) t = FireDiffuseModel.ComputeFluxes m t := by
  refine ⟨?_, ?_, ?_⟩
  · intro i hi
    rw [ComputeFluxes_eq]
    simp only [getElem?_fluxCells]
    have hs : i < m.network.size := by rw [hwf.1]; exact hi
    rw [List.getElem?_eq_getElem hi]
    simp [hs, setTotFlux, fluxSum, FireDiffuseCell.C]
  · rw [ComputeFluxes_eq]
  · rw [ComputeFluxes_eq, ComputeFluxes_eq]
    simp only [fluxCells_idem]

theorem pairModel_wellFormed : WellFormed pairModel := by
  refine ⟨rfl, rfl, ?_⟩
  intro i hi j hj
  have hi2 : i < 2 := hi
  interval_cases i
  · simp [pairModel, pairNetwork] at hj
    subst hj
    decide
  · simp [pairModel, pairNetwork] at hj
    subst hj
    decide

/-- Witness of C1: on two coupled cells holding 3 and 1, with the coupling `x ↦ 2 x`,
the accumulator of cell 0 is `2 (3 - 1) = 4`. -/
theorem ComputeFluxes_totFlux_witness :
    WellFormed pairModel ∧
    ((FireDiffuseModel.ComputeFluxes pairModel 0).cells[0]?).map (fun c => c.totFlux) = some 4 := by
  refine ⟨pairModel_wellFormed, ?_⟩
  have h := (ComputeFluxes_totFlux pairModel 0 pairModel_wellFormed).1 0 (by decide)
  rw [h]
  norm_num [pairModel, pairNetwork, dynVal, FIREDIFFUSEMODEL_NBVALS_PER_CELL]

/-- C2. `FireDiffuseCellFunct::CompFunc` writes `f[0] = -degrad * v[0] - totFlux` and no
other slot of `f`; right after `Initialize` the accumulator is 0 and the derivative is
`-degrad * v[0]`, which for the quantity set by `Initialize` is
`-DefaultDegrad * DefaultC`. -/
theorem CellFunct_CompFunc_formula (cell : FireDiffuseCell ℚ) (t : ℚ) (v f : List ℚ)
    (vOff fOff : Nat) (hf : fOff < f.length) :
    (FireDiffuseCellFunct.CompFunc cell t v vOff f fOff)[fOff]? =
      some (- cell.degrad * v.getD vOff 0 - cell.totFlux) ∧
    (∀ k, k ≠ fOff → (FireDiffuseCellFunct.CompFunc cell t v vOff f fOff)[k]? = f[k]?) ∧
    (∀ d : CellDefaults ℚ,
      (FireDiffuseCell.Initialize d cell).1.totFlux = 0 ∧
      (FireDiffuseCellFunct.CompFunc (FireDiffuseCell.Initialize d cell).1 t v vOff f fOff)[fOff]? =
        some (- (FireDiffuseCell.Initialize d cell).1.degrad * v.getD vOff 0) ∧
      (FireDiffuseCellFunct.CompFunc (FireDiffuseCell.Initialize d cell).1 t
          [(FireDiffuseCell.Initialize d cell).2] 0 f fOff)[fOff]? =
        some (- d.DefaultDegrad * d.DefaultC)) := by
  refine ⟨?_, ?_, ?_⟩
  · simp [FireDiffuseCellFunct.CompFunc, List.getElem?_set, hf]
  · intro k hk
    simp [FireDiffuseCellFunct.CompFunc, List.getElem?_set, Ne.symm hk]
  · intro d
    refine ⟨rfl, ?_, ?_⟩
    · simp [FireDiffuseCellFunct.CompFunc, FireDiffuseCell.Initialize, List.getElem?_set, hf]
    · simp [FireDiffuseCellFunct.CompFunc, FireDiffuseCell.Initialize, List.getElem?_set, hf]

/-- Witness of C2: the scenario cell with a flux of 0, at the value 10, has the
derivative `-0.3 * 10 = -3`. -/
theorem CellFunct_CompFunc_formula_witness :
    (FireDiffuseCellFunct.CompFunc scenarioCell 0 [10] 0 [0] 0)[0]? = some (-3 : ℚ) := by
  have h := (CellFunct_CompFunc_formula scenarioCell 0 [10] [0] 0 0 (by decide)).1
  rw [h]
  norm_num [scenarioCell]

/-! ## Lemmas on the stimulation hook and on the network derivative -/

theorem foldl_ModifFluxes (calls : List (Nat × ℚ)) (m : FireDiffuseModel ℚ) :
    calls.foldl (fun m p => FireDiffuseModel.ModifFluxes m p.1 p.2) m =
      { m with cells := stimCells calls m.cells } := by
  induction calls generalizing m with
  | nil => rfl
  | cons p calls ih =>
    rw [List.foldl_cons, ih]
    rfl

theorem Stimulate_eq (m : FireDiffuseModel ℚ) (t : ℚ) :
    FireDiffuseModel.Stimulate m t = { m with cells := stimCells (stimCalls m t) m.cells } :=
  foldl_ModifFluxes (stimCalls m t) m

theorem stimSum_cons (p : Nat × ℚ) (calls : List (Nat × ℚ)) (k : Nat) :
    stimSum (p :: calls) k = (if p.1 = k then p.2 else 0) + stimSum calls k := by
  by_cases h : p.1 = k <;> simp [stimSum, List.filter_cons, h]

theorem getElem?_stimCells (calls : List (Nat × ℚ)) (cs : List (FireDiffuseCell ℚ))
    (k : Nat) :
    (stimCells calls cs)[k]? = (cs[k]?).map (addTotFlux (stimSum calls k)) := by
  induction calls generalizing cs with
  | nil =>
    cases h : cs[k]? with
    | none => simp [stimCells, h]
    | some c => simp [stimCells, stimSum, h, addTotFlux_zero]
  | cons p calls ih =>
    have hstep : stimCells (p :: calls) cs =
        stimCells calls (cs.modify (addTotFlux p.2) p.1) := rfl
    rw [hstep, ih, List.getElem?_modify, stimSum_cons]
    cases cs[k]? with
    | none => rfl
    | some c =>
      by_cases h : p.1 = k
      · simp [h, addTotFlux, add_assoc]
      · simp [h, addTotFlux]

theorem length_cellLoop (m : FireDiffuseModel ℚ) (t : ℚ) (v f : List ℚ) (d n : Nat) :
    ((List.range n).foldl (CompFunc_cell m t v d) f).length = f.length := by
  induction n with
  | zero => rfl
  | succ n ih =>
    rw [List.range_succ, List.foldl_append]
    simp only [List.foldl_cons, List.foldl_nil, CompFunc_cell]
    cases m.cells[n]? with
    | none => exact ih
    | some c => simp [FireDiffuseCellFunct.CompFunc, ih]

theorem getElem?_cellLoop (m : FireDiffuseModel ℚ) (t : ℚ) (v f : List ℚ) (n k : Nat) :
    ((List.range n).foldl (CompFunc_cell m t v FIREDIFFUSEMODEL_NBVALS_PER_CELL) f)[k]? =
      if k < n ∧ k < f.length then
        (match m.cells[k]? with
          | some c => some (cellDeriv c (v.getD k 0))
          | none => f[k]?)
      else f[k]? := by
  induction n with
  | zero => simp
  | succ n ih =>
    rw [List.range_succ, List.foldl_append]
    simp only [List.foldl_cons, List.foldl_nil]
    have hlen := length_cellLoop m t v f FIREDIFFUSEMODEL_NBVALS_PER_CELL n
    generalize (List.range n).foldl (CompFunc_cell m t v FIREDIFFUSEMODEL_NBVALS_PER_CELL) f = g
      at ih hlen
    by_cases hk : n = k
    · subst hk
      have hprev : g[n]? = f[n]? := by
        rw [ih]; simp
      unfold CompFunc_cell
      cases hc : m.cells[n]? with
      | none => simp [hprev]
      | some c =>
        simp only [FireDiffuseCellFunct.CompFunc, FIREDIFFUSEMODEL_NBVALS_PER_CELL,
          Nat.mul_one, Nat.add_zero, List.getElem?_set, hlen]
        by_cases hf : n < f.length
        · simp [hf, cellDeriv]
        · simp only [hf, and_false, if_false, if_true]
          exact (List.getElem?_eq_none (by omega)).symm
    · have hstep : (CompFunc_cell m t v FIREDIFFUSEMODEL_NBVALS_PER_CELL g n)[k]? = g[k]? := by
        unfold CompFunc_cell
        cases m.cells[n]? with
        | none => rfl
        | some c =>
          simp [FireDiffuseCellFunct.CompFunc, FIREDIFFUSEMODEL_NBVALS_PER_CELL,
            List.getElem?_set, hk]
      rw [hstep, ih]
      have h1 : k < n + 1 ↔ k < n := by omega
      simp only [h1]

theorem CompFunc_model (m : FireDiffuseModel ℚ) (t : ℚ) (v f : List ℚ) :
    (FireDiffuseNetFunct.CompFunc m t v f).1 =
      { m with cells := stimCells (stimCalls m t)
                          (fluxCells m.network.size m.network m.vals m.cells) } := by
  simp only [FireDiffuseNetFunct.CompFunc]
  rw [Stimulate_eq, ComputeFluxes_eq]
  rfl

theorem length_stimCells (calls : List (Nat × ℚ)) (cs : List (FireDiffuseCell ℚ)) :
    (stimCells calls cs).length = cs.length := by
  induction calls generalizing cs with
  | nil => rfl
  | cons p calls ih =>
    have hstep : stimCells (p :: calls) cs =
        stimCells calls (cs.modify (addTotFlux p.2) p.1) := rfl
    rw [hstep, ih, List.length_modify]

theorem length_fluxCells (n : Nat) (net : Network ℚ) (vals : List ℚ)
    (cs : List (FireDiffuseCell ℚ)) : (fluxCells n net vals cs).length = cs.length := by
  induction n with
  | zero => rfl
  | succ n ih =>
    have hstep : fluxCells (n + 1) net vals cs =
        (fluxCells n net vals cs).modify (setTotFlux (fluxSum net vals n)) n := by
      simp [fluxCells, List.range_succ, List.foldl_append]
    rw [hstep, List.length_modify, ih]

theorem CompFunc_output (m : FireDiffuseModel ℚ) (t : ℚ) (v f : List ℚ) (k : Nat) :
    (FireDiffuseNetFunct.CompFunc m t v f).2[k]? =
      if k < m.cells.length ∧ k < f.length then
        (match (stimCells (stimCalls m t)
            (fluxCells m.network.size m.network m.vals m.cells))[k]? with
          | some c => some (cellDeriv c (v.getD k 0))
          | none => f[k]?)
      else f[k]? := by
  have h := getElem?_cellLoop (FireDiffuseNetFunct.CompFunc m t v f).1 t v f
    (FireDiffuseNetFunct.CompFunc m t v f).1.cells.length k
  rw [CompFunc_model] at h
  simp only [length_stimCells, length_fluxCells] at h
  rw [← h]
  simp only [FireDiffuseNetFunct.CompFunc, GetNbDynVal]
  rw [Stimulate_eq, ComputeFluxes_eq]
  simp only [length_stimCells, length_fluxCells]
  rfl

/-- C3. `FireDiffuseNetFunct::CompFunc` writes, for every cell `i`,
`f[i] = -degrad_i * v[i] - (topology flux of i + amounts added for i by the hook)`:
the fluxes are computed first, the hook runs next, the cell functions last.
`ModifFluxes(j, x)` adds `x` to the accumulator of cell `j` and changes no other cell and
no dynamic value. -/
theorem NetFunct_CompFunc_formula (m : FireDiffuseModel ℚ) (t : ℚ) (v f : List ℚ)
    (hwf : WellFormed m) (hf : f.length = m.cells.length * FIREDIFFUSEMODEL_NBVALS_PER_CELL)
    (i : Nat) (c : FireDiffuseCell ℚ) (hc : m.cells[i]? = some c) :
    (FireDiffuseNetFunct.CompFunc m t v f).2[i]? =
      some (- c.degrad * v.getD i 0 -
        (((m.network.GetNeighbors i).map
            (fun j => m.network.coupling i j (dynVal m.vals i 0 - dynVal m.vals j 0))).sum +
          stimSum (stimCalls m t) i)) ∧
    (FireDiffuseNetFunct.CompFunc m t v f).1 = FireDiffuseModel.Stimulate (FireDiffuseModel.ComputeFluxes m t) t ∧
    (∀ (m' : FireDiffuseModel ℚ) (j : Nat) (x : ℚ) (k : Nat),
      (FireDiffuseModel.ModifFluxes m' j x).cells[k]? =
        (m'.cells[k]?).map (fun c' => if j = k then { c' with totFlux := c'.totFlux + x } else c')) ∧
    (∀ (m' : FireDiffuseModel ℚ) (j : Nat) (x : ℚ), (FireDiffuseModel.ModifFluxes m' j x).vals = m'.vals) := by
  have hi : i < m.cells.length := by
    rcases Nat.lt_or_ge i m.cells.length with h | h
    · exact h
    · rw [List.getElem?_eq_none h] at hc
      cases hc
  refine ⟨?_, rfl, ?_, ?_⟩
  · rw [CompFunc_output, getElem?_stimCells, getElem?_fluxCells, hc]
    have hs : i < m.network.size := by rw [hwf.1]; exact hi
    have hfi : i < f.length := by
      rw [hf]; simpa [FIREDIFFUSEMODEL_NBVALS_PER_CELL] using hi
    simp [hi, hfi, hs, cellDeriv, addTotFlux, setTotFlux, fluxSum, FireDiffuseCell.C]
  · intro m' j x k
    simp only [FireDiffuseModel.ModifFluxes, List.getElem?_modify]
    rfl
  · intro m' j x
    rfl

/-- Witness of C3: on two coupled cells holding 3 and 1, without stimulation, the
derivative written for cell 0 at the input `[3, 1]` is `-0.3 * 3 - 4`. -/
theorem NetFunct_CompFunc_formula_witness :
    WellFormed pairModel ∧
    (FireDiffuseNetFunct.CompFunc pairModel 0 [3, 1] [0, 0]).2[0]? = some (-49 / 10 : ℚ) := by
  refine ⟨pairModel_wellFormed, ?_⟩
  have h := (NetFunct_CompFunc_formula pairModel 0 [3, 1] [0, 0] pairModel_wellFormed rfl
    0 scenarioCell rfl).1
  rw [h]
  norm_num [pairModel, pairNetwork, scenarioCell, dynVal, stimSum, stimCalls,
    FIREDIFFUSEMODEL_NBVALS_PER_CELL]

/-- C4, counterexample. Two models with the same cells, the same topology and no
stimulation, evaluated at the same time on the same input `v = [0, 0]`, give different
derivative vectors when their own buffers of dynamic values differ: `ComputeFluxes`
reads the concentrations from the buffer of the model, not from `v`. -/
theorem CompFunc_depends_on_model_buffer :
    pairModel.cells = pairModelZero.cells ∧
    pairModel.network = pairModelZero.network ∧
    pairModel.stimStrats = [] ∧ pairModelZero.stimStrats = [] ∧
    (FireDiffuseNetFunct.CompFunc pairModel 0 [0, 0] [0, 0]).2 = [-4, 4] ∧
    (FireDiffuseNetFunct.CompFunc pairModelZero 0 [0, 0] [0, 0]).2 = [0, 0] ∧
    (FireDiffuseNetFunct.CompFunc pairModel 0 [0, 0] [0, 0]).2 ≠
      (FireDiffuseNetFunct.CompFunc pairModelZero 0 [0, 0] [0, 0]).2 := by
  have hA : (FireDiffuseNetFunct.CompFunc pairModel 0 [0, 0] [0, 0]).2 = [-4, 4] := by
    norm_num [FireDiffuseNetFunct.CompFunc, FireDiffuseModel.ComputeFluxes, ComputeFluxes_cell,
      ComputeFluxes_neighbor, FireDiffuseModel.Stimulate, stimCalls, CompFunc_cell, GetNbDynVal,
      FireDiffuseCellFunct.CompFunc, edgeFlux, dynVal, pairModel, pairNetwork, scenarioCell,
      FIREDIFFUSEMODEL_NBVALS_PER_CELL, FireDiffuseCell.C, List.range_succ, List.modify]
  have hB : (FireDiffuseNetFunct.CompFunc pairModelZero 0 [0, 0] [0, 0]).2 = [0, 0] := by
    norm_num [FireDiffuseNetFunct.CompFunc, FireDiffuseModel.ComputeFluxes, ComputeFluxes_cell,
      ComputeFluxes_neighbor, FireDiffuseModel.Stimulate, stimCalls, CompFunc_cell, GetNbDynVal,
      FireDiffuseCellFunct.CompFunc, edgeFlux, dynVal, pairModelZero, pairModel, pairNetwork,
      scenarioCell, FIREDIFFUSEMODEL_NBVALS_PER_CELL, FireDiffuseCell.C, List.range_succ,
      List.modify]
  refine ⟨rfl, rfl, rfl, rfl, hA, hB, ?_⟩
  rw [hA, hB]
  norm_num

/-- C4, amended. Two evaluations at the same time and on the same input `v`, by models
with the same topology, the same decay rates, no stimulation and the same contents of
their own buffer of dynamic values, give the same derivative vector, whatever the flux
accumulators and the discrete state of the cells are before the evaluations. -/
theorem CompFunc_deterministic (m1 m2 : FireDiffuseModel ℚ) (t : ℚ) (v f : List ℚ)
    (hwf : WellFormed m1) (hnet : m1.network = m2.network) (hvals : m1.vals = m2.vals)
    (hpar : m1.cells.map (fun c => c.degrad) = m2.cells.map (fun c => c.degrad))
    (hs1 : m1.stimStrats = []) (hs2 : m2.stimStrats = []) :
    (FireDiffuseNetFunct.CompFunc m1 t v f).2 = (FireDiffuseNetFunct.CompFunc m2 t v f).2 := by
  have hlen : m1.cells.length = m2.cells.length := by
    have h := congrArg List.length hpar
    simpa using h
  have hc1 : stimCalls m1 t = [] := by simp [stimCalls, hs1]
  have hc2 : stimCalls m2 t = [] := by simp [stimCalls, hs2]
  apply List.ext_getElem?
  intro k
  rw [CompFunc_output, CompFunc_output, hc1, hc2, ← hnet, ← hvals, ← hlen]
  by_cases hk : k < m1.cells.length ∧ k < f.length
  · have hs : k < m1.network.size := by rw [hwf.1]; exact hk.1
    have hd : (m1.cells[k]?).map (fun c => c.degrad) = (m2.cells[k]?).map (fun c => c.degrad) := by
      have h := congrArg (fun l => l[k]?) hpar
      simpa using h
    have h1 : k < m2.cells.length := hlen ▸ hk.1
    rw [List.getElem?_eq_getElem hk.1, List.getElem?_eq_getElem h1] at hd
    simp only [Option.map_some', Option.some.injEq] at hd
    simp only [hk, and_self, if_true, stimCells, List.foldl_nil, getElem?_fluxCells, hs,
      List.getElem?_eq_getElem hk.1, List.getElem?_eq_getElem h1, Option.map_some']
    simp [cellDeriv, setTotFlux, hd]
  · simp only [hk, if_false]

/-- Witness of C4 (amended): `pairModel` and a copy of it whose accumulators hold other
values give the same derivatives. -/
theorem CompFunc_deterministic_witness :
    (FireDiffuseNetFunct.CompFunc pairModel 0 [0, 0] [0, 0]).2 =
      (FireDiffuseNetFunct.CompFunc
        { pairModel with cells := [{ scenarioCell with totFlux := 7 }, scenarioCell] }
        0 [0, 0] [0, 0]).2 :=
  CompFunc_deterministic pairModel
    { pairModel with cells := [{ scenarioCell with totFlux := 7 }, scenarioCell] }
    0 [0, 0] [0, 0] pairModel_wellFormed rfl rfl rfl rfl rfl

/-! ## Lemmas on the discrete-state update -/

theorem modify_eq_self_of_none {β : Type} (f : β → β) (i : Nat) (l : List β)
    (h : l[i]? = none) : l.modify f i = l := by
  apply List.ext_getElem?
  intro k
  rw [List.getElem?_modify]
  by_cases hk : i = k
  · subst hk
    rw [h]; rfl
  · cases l[k]? with
    | none => rfl
    | some a => simp [hk]

theorem set_eq_modify {β : Type} (f : β → β) (i : Nat) (l : List β) (a : β)
    (h : l[i]? = some a) : l.set i (f a) = l.modify f i := by
  apply List.ext_getElem?
  intro k
  rw [List.getElem?_modify, List.getElem?_set]
  have hi : i < l.length := by
    rcases Nat.lt_or_ge i l.length with h' | h'
    · exact h'
    · rw [List.getElem?_eq_none h'] at h
      cases h
  by_cases hk : i = k
  · subst hk
    simp [h, hi]
  · cases l[k]? with
    | none => simp [hk]
    | some b => simp [hk]

theorem modify_eq_self {β : Type} (f : β → β) (i : Nat) (l : List β)
    (h : ∀ a, l[i]? = some a → f a = a) : l.modify f i = l := by
  apply List.ext_getElem?
  intro k
  rw [List.getElem?_modify]
  cases hk : l[k]? with
  | none => rfl
  | some a =>
    by_cases hik : i = k
    · subst hik
      simp [h a hk]
    · simp [hik]

theorem UpdateVals_arm_eq (m : FireDiffuseModel ℚ) (i : Nat) :
    UpdateVals_arm m i =
      { m with cells := m.cells.modify (armCell m.tCurr (dynVal m.vals i 0)) i } := by
  unfold UpdateVals_arm
  cases hc : m.cells[i]? with
  | none =>
    simp only
    rw [modify_eq_self_of_none _ _ _ hc]
  | some c =>
    simp only
    by_cases hcond : c.willActivate = false ∧ dynVal m.vals i 0 ≥ c.thresh ∧
        m.tCurr - c.refractTime > c.tauRefr
    · rw [if_pos hcond, ← set_eq_modify _ _ _ _ hc]
      simp [armCell, hcond]
    · rw [if_neg hcond, modify_eq_self]
      intro a ha
      rw [hc] at ha
      cases ha
      simp [armCell, hcond]

theorem UpdateVals_fire_eq (m : FireDiffuseModel ℚ) (i : Nat) :
    UpdateVals_fire m i =
      { m with
        cells := m.cells.modify (fireCell m.tCurr) i
        vals := match m.cells[i]? with
          | some c =>
            if c.willActivate = true ∧ m.tCurr - c.actTime > c.activDelay then
              m.vals.set i c.actQuant
            else m.vals
          | none => m.vals } := by
  unfold UpdateVals_fire
  cases hc : m.cells[i]? with
  | none =>
    simp only
    rw [modify_eq_self_of_none _ _ _ hc]
  | some c =>
    simp only
    by_cases hcond : c.willActivate = true ∧ m.tCurr - c.actTime > c.activDelay
    · rw [if_pos hcond, if_pos hcond, ← set_eq_modify _ _ _ _ hc]
      simp [fireCell, hcond, FIREDIFFUSEMODEL_NBVALS_PER_CELL]
    · rw [if_neg hcond, if_neg hcond, modify_eq_self]
      intro a ha
      rw [hc] at ha
      cases ha
      simp [fireCell, hcond]

theorem UpdateVals_cell_eq (m : FireDiffuseModel ℚ) (i : Nat) :
    UpdateVals_cell m i =
      { m with
        cells := (passPair m.tCurr (m.cells, m.vals) i).1
        vals := (passPair m.tCurr (m.cells, m.vals) i).2 } := by
  unfold UpdateVals_cell
  rw [UpdateVals_arm_eq, UpdateVals_fire_eq]
  simp only [passPair, modify_modify_same, List.getElem?_modify]
  cases hc : m.cells[i]? with
  | none => rfl
  | some c => simp [Function.comp_def]

theorem foldl_UpdateVals_cell (l : List Nat) (m : FireDiffuseModel ℚ) :
    l.foldl UpdateVals_cell m =
      { m with
        cells := (l.foldl (passPair m.tCurr) (m.cells, m.vals)).1
        vals := (l.foldl (passPair m.tCurr) (m.cells, m.vals)).2 } := by
  induction l generalizing m with
  | nil => rfl
  | cons i l ih =>
    rw [List.foldl_cons, ih, UpdateVals_cell_eq]
    rfl

theorem passPair_cells_ne (t : ℚ) (s : List (FireDiffuseCell ℚ) × List ℚ) (i k : Nat)
    (hk : i ≠ k) : (passPair t s i).1[k]? = s.1[k]? := by
  simp only [passPair, List.getElem?_modify]
  cases s.1[k]? with
  | none => rfl
  | some c => simp [hk]

theorem passPair_vals_ne (t : ℚ) (s : List (FireDiffuseCell ℚ) × List ℚ) (i k : Nat)
    (hk : i ≠ k) : (passPair t s i).2[k]? = s.2[k]? := by
  simp only [passPair]
  cases s.1[i]? with
  | none => rfl
  | some c =>
    simp only
    split
    · simp [List.getElem?_set, hk]
    · rfl

theorem passPair_cells_eq (t : ℚ) (s : List (FireDiffuseCell ℚ) × List ℚ) (i : Nat) :
    (passPair t s i).1[i]? =
      (s.1[i]?).map (fun c => fireCell t (armCell t (dynVal s.2 i 0) c)) := by
  simp only [passPair, List.getElem?_modify]
  cases s.1[i]? with
  | none => rfl
  | some c => simp

theorem passPair_vals_eq (t : ℚ) (s : List (FireDiffuseCell ℚ) × List ℚ) (i : Nat)
    (c : FireDiffuseCell ℚ) (hc : s.1[i]? = some c) :
    (passPair t s i).2[i]? =
      (s.2[i]?).map (fun q => fireVal t q (armCell t (dynVal s.2 i 0) c)) := by
  simp only [passPair, hc, fireVal]
  split
  · rw [List.getElem?_set]
    by_cases hi : i < s.2.length
    · simp [hi, List.getElem?_eq_getElem hi]
    · simp [hi, List.getElem?_eq_none (Nat.le_of_not_lt hi)]
  · cases s.2[i]? with
    | none => rfl
    | some q => simp

theorem foldl_passPair_not_mem (t : ℚ) (l : List Nat) (s : List (FireDiffuseCell ℚ) × List ℚ)
    (i : Nat) (hi : i ∉ l) :
    (l.foldl (passPair t) s).1[i]? = s.1[i]? ∧ (l.foldl (passPair t) s).2[i]? = s.2[i]? := by
  induction l generalizing s with
  | nil => exact ⟨rfl, rfl⟩
  | cons j l ih =>
    have hj : j ≠ i := fun h => hi (by simp [h])
    have hl : i ∉ l := fun h => hi (by simp [h])
    rw [List.foldl_cons]
    obtain ⟨h1, h2⟩ := ih (passPair t s j) hl
    exact ⟨by rw [h1, passPair_cells_ne t s j i hj], by rw [h2, passPair_vals_ne t s j i hj]⟩

theorem range_split (n i : Nat) (hi : i < n) :
    ∃ l, List.range n = List.range i ++ i :: l ∧ i ∉ l := by
  induction n with
  | zero => omega
  | succ n ih =>
    rcases Nat.lt_or_ge i n with h | h
    · obtain ⟨l, hl, hmem⟩ := ih h
      refine ⟨l ++ [n], ?_, ?_⟩
      · rw [List.range_succ, hl]; simp
      · simp only [List.mem_append, List.mem_singleton, not_or]
        exact ⟨hmem, by omega⟩
    · have : i = n := by omega
      subst this
      exact ⟨[], by rw [List.range_succ], by simp⟩

theorem dynVal_eq_of_getElem? (vs ws : List ℚ) (i : Nat) (h : vs[i]? = ws[i]?) :
    dynVal vs i 0 = dynVal ws i 0 := by
  simp [dynVal, FIREDIFFUSEMODEL_NBVALS_PER_CELL, List.getD_eq_getElem?_getD, h]

/-- The state of cell `i` when the loop of `UpdateVals` reaches it: the passes on the
cells before `i` have not touched it. -/
theorem loop_prefix (m : FireDiffuseModel ℚ) (i : Nat) :
    ((List.range i).foldl UpdateVals_cell m).cells[i]? = m.cells[i]? ∧
    ((List.range i).foldl UpdateVals_cell m).vals[i]? = m.vals[i]? ∧
    ((List.range i).foldl UpdateVals_cell m).tCurr = m.tCurr := by
  rw [foldl_UpdateVals_cell]
  have h := foldl_passPair_not_mem m.tCurr (List.range i) (m.cells, m.vals) i (by simp)
  exact ⟨h.1, h.2, rfl⟩

/-- The state of cell `i` after the whole loop of `UpdateVals`: the arming `if` and then
the firing `if`, applied to the cell and to its quantity as they were before the loop. -/
theorem loop_cell (m : FireDiffuseModel ℚ) (n i : Nat) (hi : i < n)
    (c : FireDiffuseCell ℚ) (hc : m.cells[i]? = some c) :
    ((List.range n).foldl UpdateVals_cell m).cells[i]? =
        some (fireCell m.tCurr (armCell m.tCurr (dynVal m.vals i 0) c)) ∧
    ((List.range n).foldl UpdateVals_cell m).vals[i]? =
        (m.vals[i]?).map (fun q => fireVal m.tCurr q (armCell m.tCurr (dynVal m.vals i 0) c)) := by
  obtain ⟨l, hl, hmem⟩ := range_split n i hi
  rw [foldl_UpdateVals_cell, hl, List.foldl_append, List.foldl_cons]
  have hpre := foldl_passPair_not_mem m.tCurr (List.range i) (m.cells, m.vals) i (by simp)
  generalize (List.range i).foldl (passPair m.tCurr) (m.cells, m.vals) = s at hpre
  have hpost := foldl_passPair_not_mem m.tCurr l (passPair m.tCurr s i) i hmem
  simp only at hpre
  have hd : dynVal s.2 i 0 = dynVal m.vals i 0 := dynVal_eq_of_getElem? _ _ _ hpre.2
  have hsc : s.1[i]? = some c := by rw [hpre.1]; exact hc
  refine ⟨?_, ?_⟩
  · show (l.foldl (passPair m.tCurr) (passPair m.tCurr s i)).1[i]? = _
    rw [hpost.1, passPair_cells_eq, hsc, hd]
    rfl
  · show (l.foldl (passPair m.tCurr) (passPair m.tCurr s i)).2[i]? = _
    rw [hpost.2, passPair_vals_eq _ _ _ c hsc, hd, hpre.2]

theorem idBase_frame : BaseFrame idBase := fun _ _ => ⟨rfl, rfl, rfl, rfl⟩

theorem lt_length_of_getElem? {β : Type} (l : List β) (i : Nat) (a : β)
    (h : l[i]? = some a) : i < l.length := by
  rcases Nat.lt_or_ge i l.length with h' | h'
  · exact h'
  · rw [List.getElem?_eq_none h'] at h
    cases h

theorem UpdateVals_eq_loop (base : FireDiffuseModel ℚ → ℚ → FireDiffuseModel ℚ)
    (m : FireDiffuseModel ℚ) (t : ℚ) (hpre : m.isPreRunning = false) :
    FireDiffuseModel.UpdateVals base m t =
      (List.range (base { m with tCurr := t } t).cells.length).foldl UpdateVals_cell
        (base { m with tCurr := t } t) := by
  simp [FireDiffuseModel.UpdateVals, hpre]

/-- The state of cell `i` after `UpdateVals(t)` outside pre-running. -/
theorem UpdateVals_cell_state (base : FireDiffuseModel ℚ → ℚ → FireDiffuseModel ℚ)
    (hbase : BaseFrame base) (m : FireDiffuseModel ℚ) (t : ℚ)
    (hpre : m.isPreRunning = false) (i : Nat) (c : FireDiffuseCell ℚ)
    (hc : m.cells[i]? = some c) :
    (FireDiffuseModel.UpdateVals base m t).cells[i]? = some (fireCell t (armCell t (dynVal m.vals i 0) c)) ∧
    (FireDiffuseModel.UpdateVals base m t).vals[i]? =
      (m.vals[i]?).map (fun q => fireVal t q (armCell t (dynVal m.vals i 0) c)) := by
  obtain ⟨h1, h2, h3, _⟩ := hbase { m with tCurr := t } t
  have hc' : (base { m with tCurr := t } t).cells[i]? = some c := by rw [h1]; exact hc
  have hi : i < (base { m with tCurr := t } t).cells.length := lt_length_of_getElem? _ _ _ hc'
  have h := loop_cell (base { m with tCurr := t } t) _ i hi c hc'
  rw [h2, h3] at h
  rw [UpdateVals_eq_loop base m t hpre]
  exact h

/-- The state of cell `i` when the loop of `UpdateVals(t)` reaches it. -/
theorem loopState_cell (base : FireDiffuseModel ℚ → ℚ → FireDiffuseModel ℚ)
    (hbase : BaseFrame base) (m : FireDiffuseModel ℚ) (t : ℚ) (i : Nat) :
    (loopState base m t i).cells[i]? = m.cells[i]? ∧
    (loopState base m t i).vals[i]? = m.vals[i]? ∧
    (loopState base m t i).tCurr = t := by
  obtain ⟨h1, h2, h3, _⟩ := hbase { m with tCurr := t } t
  obtain ⟨g1, g2, g3⟩ := loop_prefix (base { m with tCurr := t } t) i
  unfold loopState
  refine ⟨?_, ?_, ?_⟩
  · rw [g1, h1]
  · rw [g2, h2]
  · rw [g3, h3]

/-- The cell `i` after the arming `if`, at the point where the loop reaches it. -/
theorem arm_loopState_cell (base : FireDiffuseModel ℚ → ℚ → FireDiffuseModel ℚ)
    (hbase : BaseFrame base) (m : FireDiffuseModel ℚ) (t : ℚ) (i : Nat)
    (c : FireDiffuseCell ℚ) (hc : m.cells[i]? = some c) :
    (UpdateVals_arm (loopState base m t i) i).cells[i]? =
      some (armCell t (dynVal m.vals i 0) c) := by
  obtain ⟨g1, g2, g3⟩ := loopState_cell base hbase m t i
  rw [UpdateVals_arm_eq]
  simp only [List.getElem?_modify, g1, hc, g3, dynVal_eq_of_getElem? _ _ _ g2]
  simp

/-! ## The discrete-state update: arming and firing -/

/-- C5. Arming transition of `UpdateVals(t)` outside pre-running, for a cell `i` that is
not scheduled when the call starts: when the loop reaches the cell it is as it was before
the call; the arming step sets `willActivate` and `actTime = t` if and only if the
quantity is `>= thresh` and `t - refractTime > tauRefr`; otherwise the arming step changes
nothing.  The cell at the end of the call is the one the firing step makes of it. -/
theorem UpdateVals_arming (base : FireDiffuseModel ℚ → ℚ → FireDiffuseModel ℚ)
    (hbase : BaseFrame base) (m : FireDiffuseModel ℚ) (t : ℚ)
    (hpre : m.isPreRunning = false) (i : Nat) (c : FireDiffuseCell ℚ)
    (hc : m.cells[i]? = some c) (hnot : c.willActivate = false) :
    (loopState base m t i).cells[i]? = some c ∧
    (dynVal m.vals i 0 ≥ c.thresh ∧ t - c.refractTime > c.tauRefr →
      (UpdateVals_arm (loopState base m t i) i).cells[i]? =
        some { c with willActivate := true, actTime := t }) ∧
    (¬ (dynVal m.vals i 0 ≥ c.thresh ∧ t - c.refractTime > c.tauRefr) →
      UpdateVals_arm (loopState base m t i) i = loopState base m t i) ∧
    ((∃ c', (UpdateVals_arm (loopState base m t i) i).cells[i]? = some c' ∧
        c'.willActivate = true ∧ c'.actTime = t) ↔
      (dynVal m.vals i 0 ≥ c.thresh ∧ t - c.refractTime > c.tauRefr)) ∧
    (FireDiffuseModel.UpdateVals base m t).cells[i]? =
      (UpdateVals_fire (UpdateVals_arm (loopState base m t i) i) i).cells[i]? := by
  obtain ⟨g1, g2, g3⟩ := loopState_cell base hbase m t i
  have harm := arm_loopState_cell base hbase m t i c hc
  refine ⟨by rw [g1, hc], ?_, ?_, ?_, ?_⟩
  · intro hcond
    rw [harm]
    simp [armCell, hnot, hcond]
  · intro hcond
    rw [UpdateVals_arm_eq, modify_eq_self]
    intro a ha
    rw [g1, hc] at ha
    cases ha
    have hcond' : ¬ (dynVal (loopState base m t i).vals i 0 ≥ c.thresh ∧
        (loopState base m t i).tCurr - c.refractTime > c.tauRefr) := by
      rw [g3, dynVal_eq_of_getElem? _ _ _ g2]; exact hcond
    simp only [armCell]
    rw [if_neg (fun h => hcond' h.2)]
  · rw [harm]
    constructor
    · rintro ⟨c', hc', hw, _⟩
      simp only [Option.some.injEq] at hc'
      subst hc'
      by_contra hcond
      have : armCell t (dynVal m.vals i 0) c = c := by
        simp only [armCell]
        rw [if_neg (fun h => hcond h.2)]
      rw [this, hnot] at hw
      cases hw
    · intro hcond
      exact ⟨_, rfl, by simp [armCell, hnot, hcond], by simp [armCell, hnot, hcond]⟩
  · rw [(UpdateVals_cell_state base hbase m t hpre i c hc).1, UpdateVals_fire_eq]
    simp only [List.getElem?_modify, harm]
    have ht : (UpdateVals_arm (loopState base m t i) i).tCurr = t := by
      rw [UpdateVals_arm_eq]; exact g3
    simp [ht]

/-- Witness of C5: the isolated never-fired cell of the scenario, holding 5 at time 0, is
armed with `actTime = 0`. -/
theorem UpdateVals_arming_witness :
    (UpdateVals_arm (loopState idBase (soloModel 5) 0 0) 0).cells[0]? =
      some { scenarioCell with willActivate := true, actTime := 0 } :=
  (UpdateVals_arming idBase idBase_frame (soloModel 5) 0 rfl 0 scenarioCell rfl rfl).2.1
    (by norm_num [soloModel, scenarioCell, dynVal, FIREDIFFUSEMODEL_NBVALS_PER_CELL])

/-- C6. Firing transition of `UpdateVals(t)` outside pre-running.  Let `c1` be cell `i` at
the firing check (for a cell scheduled before the call, `c1` is the cell as it was; the
arming step never changes the parameters nor `refractTime`).  If `c1` is scheduled and
`t - actTime > activDelay`, the call sets the quantity to `actQuant`, `refractTime` to `t`
and clears `willActivate`; otherwise the cell and its quantity are left as they are. -/
theorem UpdateVals_firing (base : FireDiffuseModel ℚ → ℚ → FireDiffuseModel ℚ)
    (hbase : BaseFrame base) (m : FireDiffuseModel ℚ) (t : ℚ)
    (hpre : m.isPreRunning = false) (i : Nat) (c : FireDiffuseCell ℚ)
    (hc : m.cells[i]? = some c) (q : ℚ) (hq : m.vals[i]? = some q) :
    ∃ c1, (UpdateVals_arm (loopState base m t i) i).cells[i]? = some c1 ∧
      (c.willActivate = true → c1 = c) ∧
      (c1.thresh = c.thresh ∧ c1.actQuant = c.actQuant ∧ c1.tauRefr = c.tauRefr ∧
        c1.degrad = c.degrad ∧ c1.activDelay = c.activDelay ∧
        c1.refractTime = c.refractTime) ∧
      (c1.willActivate = true ∧ t - c1.actTime > c1.activDelay →
        (FireDiffuseModel.UpdateVals base m t).cells[i]? =
            some { c1 with refractTime := t, willActivate := false } ∧
        (FireDiffuseModel.UpdateVals base m t).vals[i]? = some c1.actQuant) ∧
      (¬ (c1.willActivate = true ∧ t - c1.actTime > c1.activDelay) →
        (FireDiffuseModel.UpdateVals base m t).cells[i]? = some c1 ∧
        (FireDiffuseModel.UpdateVals base m t).vals[i]? = some q) := by
  have harm := arm_loopState_cell base hbase m t i c hc
  obtain ⟨hcell, hval⟩ := UpdateVals_cell_state base hbase m t hpre i c hc
  refine ⟨armCell t (dynVal m.vals i 0) c, harm, ?_, ?_, ?_, ?_⟩
  · intro hw
    simp [armCell, hw]
  · unfold armCell
    split <;> simp
  · intro hcond
    rw [hcell, hval, hq]
    simp [fireCell, fireVal, hcond]
  · intro hcond
    rw [hcell, hval, hq]
    simp only [fireCell, fireVal, Option.map_some']
    rw [if_neg hcond, if_neg hcond]
    exact ⟨rfl, rfl⟩

/-- Witness of C6: a cell scheduled at time 0 with a delay of 5 fires at the update of
time 6: its quantity, 5 before the call, is 8 after it. -/
theorem UpdateVals_firing_witness :
    (FireDiffuseModel.UpdateVals idBase
      { soloModel 5 with cells := [{ scenarioCell with willActivate := true }] } 6).vals[0]? =
        some (8 : ℚ) := by
  obtain ⟨c1, _, h2, _, h4, _⟩ := UpdateVals_firing idBase idBase_frame
    { soloModel 5 with cells := [{ scenarioCell with willActivate := true }] } 6 rfl 0
    { scenarioCell with willActivate := true } rfl 5 rfl
  have hc1 := h2 rfl
  subst hc1
  exact (h4 (by norm_num [scenarioCell])).2

/-! ## Runs of the solver -/

theorem CompFunc_cell_state (m : FireDiffuseModel ℚ) (t : ℚ) (v f : List ℚ) (i : Nat)
    (c : FireDiffuseCell ℚ) (hc : m.cells[i]? = some c) :
    ∃ x, (FireDiffuseNetFunct.CompFunc m t v f).1.cells[i]? = some (setTotFlux x c) := by
  rw [CompFunc_model]
  simp only [getElem?_stimCells, getElem?_fluxCells, hc, Option.map_some']
  by_cases h : i < m.network.size
  · exact ⟨fluxSum m.network m.vals i + stimSum (stimCalls m t) i,
      by simp [h, addTotFlux, setTotFlux]⟩
  · exact ⟨c.totFlux + stimSum (stimCalls m t) i, by simp [h, addTotFlux, setTotFlux]⟩

theorem UpdateVals_isPreRunning (base : FireDiffuseModel ℚ → ℚ → FireDiffuseModel ℚ)
    (hbase : BaseFrame base) (m : FireDiffuseModel ℚ) (t : ℚ) :
    (FireDiffuseModel.UpdateVals base m t).isPreRunning = m.isPreRunning := by
  unfold FireDiffuseModel.UpdateVals
  simp only
  split
  · rw [foldl_UpdateVals_cell]
    exact (hbase _ t).2.2.2
  · rfl

theorem applyAction_isPreRunning (base : FireDiffuseModel ℚ → ℚ → FireDiffuseModel ℚ)
    (hbase : BaseFrame base) (m : FireDiffuseModel ℚ) (a : SolverAction) :
    (applyAction base m a).isPreRunning = m.isPreRunning := by
  cases a with
  | eval t v f =>
    show (FireDiffuseNetFunct.CompFunc m t v f).1.isPreRunning = _
    rw [CompFunc_model]
  | write vals => rfl
  | update t => exact UpdateVals_isPreRunning base hbase m t

/-- An invariant of one cell that is insensitive to the flux accumulator and is kept by
the arming and firing steps at the update times of a run is kept by the run. -/
theorem runSolver_invariant (base : FireDiffuseModel ℚ → ℚ → FireDiffuseModel ℚ)
    (hbase : BaseFrame base) (Inv : FireDiffuseCell ℚ → Prop) (okT : ℚ → Prop)
    (hflux : ∀ c x, Inv c → Inv (setTotFlux x c))
    (hstep : ∀ c t q, okT t → Inv c → Inv (fireCell t (armCell t q c)))
    (i : Nat) (actions : List SolverAction) :
    ∀ m : FireDiffuseModel ℚ, m.isPreRunning = false →
      (∀ t, SolverAction.update t ∈ actions → okT t) →
      (∃ c, m.cells[i]? = some c ∧ Inv c) →
      (runSolver base m actions).isPreRunning = false ∧
      ∃ c', (runSolver base m actions).cells[i]? = some c' ∧ Inv c' := by
  induction actions with
  | nil =>
    intro m hpre _ hc
    exact ⟨hpre, hc⟩
  | cons a actions ih =>
    intro m hpre hok hc
    obtain ⟨c, hc, hinv⟩ := hc
    have hrun : runSolver base m (a :: actions) =
        runSolver base (applyAction base m a) actions := rfl
    rw [hrun]
    apply ih
    · rw [applyAction_isPreRunning base hbase]; exact hpre
    · intro t ht
      exact hok t (List.mem_cons_of_mem _ ht)
    · cases a with
      | eval t v f =>
        obtain ⟨x, hx⟩ := CompFunc_cell_state m t v f i c hc
        exact ⟨_, hx, hflux c x hinv⟩
      | write vals => exact ⟨c, hc, hinv⟩
      | update t =>
        have h := (UpdateVals_cell_state base hbase m t hpre i c hc).1
        exact ⟨_, h, hstep c t _ (hok t (List.mem_cons_self _ _)) hinv⟩

/-! ## The firing scenario -/

/-- C7, counterexample. In the scenario (threshold 4, refractory period 7.5, delay 5,
quantum 8), the update at `T = 0` sees the quantity 5 and schedules the cell with
`actTime = 0`; the update at `T + 5 = 5` does not reset it: the quantity is still 5,
`refractTime` is still `-999999` and the cell is still scheduled, because the firing
test `t - actTime > activDelay` is strict. -/
theorem scenario_no_reset_at_delay :
    (FireDiffuseModel.UpdateVals idBase (soloModel 5) 0).cells =
      [{ scenarioCell with willActivate := true, actTime := 0 }] ∧
    (FireDiffuseModel.UpdateVals idBase (FireDiffuseModel.UpdateVals idBase (soloModel 5) 0) 5).vals = [5] ∧
    (FireDiffuseModel.UpdateVals idBase (FireDiffuseModel.UpdateVals idBase (soloModel 5) 0) 5).cells =
      [{ scenarioCell with willActivate := true, actTime := 0 }] := by
  have h1 : FireDiffuseModel.UpdateVals idBase (soloModel 5) 0 =
      { soloModel 5 with cells := [{ scenarioCell with willActivate := true, actTime := 0 }] } := by
    norm_num [FireDiffuseModel.UpdateVals, idBase, soloModel, scenarioCell, UpdateVals_cell, UpdateVals_arm,
      UpdateVals_fire, dynVal, FIREDIFFUSEMODEL_NBVALS_PER_CELL, List.range_succ]
  have h2 : FireDiffuseModel.UpdateVals idBase
      { soloModel 5 with cells := [{ scenarioCell with willActivate := true, actTime := 0 }] } 5 =
      { soloModel 5 with
        cells := [{ scenarioCell with willActivate := true, actTime := 0 }]
        tCurr := 5 } := by
    norm_num [FireDiffuseModel.UpdateVals, idBase, soloModel, scenarioCell, UpdateVals_cell, UpdateVals_arm,
      UpdateVals_fire, dynVal, FIREDIFFUSEMODEL_NBVALS_PER_CELL, List.range_succ]
  rw [h1, h2]
  exact ⟨rfl, rfl, rfl⟩

theorem armCell_of_scheduled (t q : ℚ) (c : FireDiffuseCell ℚ) (h : c.willActivate = true) :
    armCell t q c = c := by
  simp [armCell, h]

theorem fireCell_of_not (t : ℚ) (c : FireDiffuseCell ℚ)
    (h : ¬ (c.willActivate = true ∧ t - c.actTime > c.activDelay)) : fireCell t c = c := by
  simp only [fireCell]
  rw [if_neg h]

theorem fireVal_of_not (t q : ℚ) (c : FireDiffuseCell ℚ)
    (h : ¬ (c.willActivate = true ∧ t - c.actTime > c.activDelay)) : fireVal t q c = q := by
  simp only [fireVal]
  rw [if_neg h]

theorem map_id_of {β : Type} (g : β → β) (o : Option β) (h : ∀ b, g b = b) : o.map g = o := by
  cases o with
  | none => rfl
  | some b => simp [h]

/-- C7, amended. In the scenario (threshold 4, refractory period 7.5, delay 5, quantum 8,
one isolated never-fired cell, `T > -999991.5`): if the update at time `T` sees a quantity
above 4, the cell is scheduled with `actTime = T`; after any run of the solver whose
updates are at times `<= T + 5` it is still scheduled with `actTime = T` and has not been
reset (`refractTime` is still `-999999`, and a further update at a time `<= T + 5` leaves
the quantity as the solver wrote it); the next update at a time `t' > T + 5` resets the
quantity to 8, sets `refractTime` to `t'` and clears `willActivate`. -/
theorem scenario_firing (base : FireDiffuseModel ℚ → ℚ → FireDiffuseModel ℚ)
    (hbase : BaseFrame base) (T q : ℚ) (hq : q > 4) (hT : T - (-999999) > 15 / 2)
    (mid : List SolverAction) (hmid : ∀ t, SolverAction.update t ∈ mid → t ≤ T + 5)
    (t' : ℚ) (ht' : t' > T + 5) :
    (FireDiffuseModel.UpdateVals base (soloModel q) T).cells[0]? =
      some { scenarioCell with willActivate := true, actTime := T } ∧
    (FireDiffuseModel.UpdateVals base (soloModel q) T).vals[0]? = some q ∧
    ∃ c2 : FireDiffuseCell ℚ,
      (runSolver base (FireDiffuseModel.UpdateVals base (soloModel q) T) mid).cells[0]? = some c2 ∧
      c2.willActivate = true ∧ c2.actTime = T ∧ c2.refractTime = -999999 ∧
      (∀ t, t ≤ T + 5 →
        (FireDiffuseModel.UpdateVals base (runSolver base (FireDiffuseModel.UpdateVals base (soloModel q) T) mid) t).vals[0]? =
          (runSolver base (FireDiffuseModel.UpdateVals base (soloModel q) T) mid).vals[0]? ∧
        (FireDiffuseModel.UpdateVals base (runSolver base (FireDiffuseModel.UpdateVals base (soloModel q) T) mid) t).cells[0]? =
          some c2) ∧
      (∀ q2, (runSolver base (FireDiffuseModel.UpdateVals base (soloModel q) T) mid).vals[0]? = some q2 →
        (FireDiffuseModel.UpdateVals base (runSolver base (FireDiffuseModel.UpdateVals base (soloModel q) T) mid) t').vals[0]? =
          some 8 ∧
        (FireDiffuseModel.UpdateVals base (runSolver base (FireDiffuseModel.UpdateVals base (soloModel q) T) mid) t').cells[0]? =
          some { c2 with refractTime := t', willActivate := false }) := by
  have hcond : scenarioCell.willActivate = false ∧ q ≥ scenarioCell.thresh ∧
      T - scenarioCell.refractTime > scenarioCell.tauRefr := ⟨rfl, le_of_lt hq, hT⟩
  have hdv : dynVal (soloModel q).vals 0 0 = q := by
    simp [dynVal, soloModel, FIREDIFFUSEMODEL_NBVALS_PER_CELL]
  have harm : armCell T q scenarioCell =
      { scenarioCell with willActivate := true, actTime := T } := by
    simp only [armCell]
    rw [if_pos hcond]
  have hnofire : ¬ (({ scenarioCell with willActivate := true, actTime := T } :
      FireDiffuseCell ℚ).willActivate = true ∧
      T - ({ scenarioCell with willActivate := true, actTime := T } :
        FireDiffuseCell ℚ).actTime >
      ({ scenarioCell with willActivate := true, actTime := T } :
        FireDiffuseCell ℚ).activDelay) := by
    simp [scenarioCell]
  obtain ⟨hcell1, hval1⟩ :=
    UpdateVals_cell_state base hbase (soloModel q) T rfl 0 scenarioCell rfl
  rw [hdv, harm] at hcell1 hval1
  rw [fireCell_of_not _ _ hnofire] at hcell1
  have hval1' : (FireDiffuseModel.UpdateVals base (soloModel q) T).vals[0]? = some q := by
    rw [hval1]
    show some (fireVal T q _) = some q
    rw [fireVal_of_not _ _ _ hnofire]
  have hpre1 : (FireDiffuseModel.UpdateVals base (soloModel q) T).isPreRunning = false := by
    rw [UpdateVals_isPreRunning base hbase]; rfl
  obtain ⟨hpre2, c2, hc2, hw, ha, hr, hdl, haq⟩ :=
    runSolver_invariant base hbase
      (fun c => c.willActivate = true ∧ c.actTime = T ∧ c.refractTime = -999999 ∧
        c.activDelay = 5 ∧ c.actQuant = 8)
      (fun t => t ≤ T + 5)
      (fun c x h => h)
      (fun c t q' ht h => by
        have hno : ¬ (c.willActivate = true ∧ t - c.actTime > c.activDelay) := by
          rw [h.2.1, h.2.2.2.1]
          intro hh
          linarith [hh.2]
        rw [armCell_of_scheduled _ _ _ h.1, fireCell_of_not _ _ hno]
        exact h)
      0 mid (FireDiffuseModel.UpdateVals base (soloModel q) T) hpre1 hmid
      ⟨_, hcell1, rfl, rfl, rfl, rfl, rfl⟩
  refine ⟨hcell1, hval1', c2, hc2, hw, ha, hr, ?_, ?_⟩
  · intro t ht
    obtain ⟨hc, hv⟩ := UpdateVals_cell_state base hbase _ t hpre2 0 c2 hc2
    have hno : ¬ (c2.willActivate = true ∧ t - c2.actTime > c2.activDelay) := by
      rw [ha, hdl]
      intro hh
      linarith [hh.2]
    rw [armCell_of_scheduled _ _ _ hw] at hc hv
    rw [fireCell_of_not _ _ hno] at hc
    refine ⟨?_, hc⟩
    rw [hv]
    exact map_id_of _ _ (fun b => fireVal_of_not _ _ _ hno)
  · intro q2 hq2
    obtain ⟨hc, hv⟩ := UpdateVals_cell_state base hbase _ t' hpre2 0 c2 hc2
    have hyes : c2.willActivate = true ∧ t' - c2.actTime > c2.activDelay := by
      rw [ha, hdl]
      exact ⟨hw, by linarith⟩
    rw [armCell_of_scheduled _ _ _ hw] at hc hv
    refine ⟨?_, ?_⟩
    · rw [hv, hq2]
      simp [fireVal, hyes, haq]
    · rw [hc]
      simp [fireCell, hyes]

/-- Witness of C7 (amended): scheduled at `T = 0` with the quantity 5, the cell is reset
to 8 by the update at time 6, after the solver wrote the quantity 9 and notified an
update at time 5. -/
theorem scenario_firing_witness :
    (FireDiffuseModel.UpdateVals idBase
      (runSolver idBase (FireDiffuseModel.UpdateVals idBase (soloModel 5) 0)
        [SolverAction.write [9], SolverAction.update 5]) 6).vals[0]? = some (8 : ℚ) := by
  obtain ⟨_, _, c2, _, _, _, _, hkeep, hreset⟩ :=
    scenario_firing idBase idBase_frame 0 5 (by norm_num) (by norm_num)
      [SolverAction.write [9], SolverAction.update 5]
      (by
        intro t ht
        simp at ht
        subst ht
        norm_num)
      6 (by norm_num)
  have h9 : (runSolver idBase (FireDiffuseModel.UpdateVals idBase (soloModel 5) 0)
      [SolverAction.write [9], SolverAction.update 5]).vals[0]? = some 9 := by
    have h := (scenario_firing idBase idBase_frame 0 5 (by norm_num) (by norm_num)
      [SolverAction.write [9]] (by intro t ht; simp at ht) 6 (by norm_num)).2.2
    obtain ⟨c, _, _, _, _, hk, _⟩ := h
    exact (hk 5 (by norm_num)).1
  exact (hreset 9 h9).1

/-! ## The refractory period and the pre-run -/

/-- C8. Refractory guarantee, for `tauRefr >= 0` and `activDelay >= 0`.  Take a cell right
after it fired at time `F` (`refractTime = F`, not scheduled), then any run of the solver,
then an update at time `t`.  If `t <= F + tauRefr` the update does not arm the cell: a
cell that is not scheduled is left as it is.  If `t <= F + tauRefr + activDelay` the
update does not reset the cell: its quantity and its `refractTime` are left as they are. -/
theorem refractory_guarantee (base : FireDiffuseModel ℚ → ℚ → FireDiffuseModel ℚ)
    (hbase : BaseFrame base) (m : FireDiffuseModel ℚ) (hpre : m.isPreRunning = false)
    (i : Nat) (c : FireDiffuseCell ℚ) (hc : m.cells[i]? = some c)
    (hnot : c.willActivate = false) (htau : 0 ≤ c.tauRefr) (hdelay : 0 ≤ c.activDelay)
    (pre : List SolverAction) (t : ℚ) :
    ∃ cp : FireDiffuseCell ℚ, (runSolver base m pre).cells[i]? = some cp ∧
      (t ≤ c.refractTime + c.tauRefr → cp.willActivate = false →
        (FireDiffuseModel.UpdateVals base (runSolver base m pre) t).cells[i]? = some cp) ∧
      (t ≤ c.refractTime + c.tauRefr + c.activDelay →
        (FireDiffuseModel.UpdateVals base (runSolver base m pre) t).vals[i]? =
          (runSolver base m pre).vals[i]? ∧
        ∃ c' : FireDiffuseCell ℚ,
          (FireDiffuseModel.UpdateVals base (runSolver base m pre) t).cells[i]? = some c' ∧
          c'.refractTime = cp.refractTime) := by
  obtain ⟨hpre2, cp, hcp, h1, h2, h3, h4⟩ :=
    runSolver_invariant base hbase
      (fun c' => c'.tauRefr = c.tauRefr ∧ c'.activDelay = c.activDelay ∧
        c.refractTime ≤ c'.refractTime ∧
        (c'.willActivate = true → c.refractTime + c.tauRefr < c'.actTime))
      (fun _ => True)
      (fun c' x h => h)
      (fun c' t' q' _ h => by
        obtain ⟨g1, g2, g3, g4⟩ := h
        by_cases harm : c'.willActivate = false ∧ q' ≥ c'.thresh ∧
            t' - c'.refractTime > c'.tauRefr
        · have hno : ¬ (({ c' with willActivate := true, actTime := t' } :
              FireDiffuseCell ℚ).willActivate = true ∧
              t' - ({ c' with willActivate := true, actTime := t' } :
                FireDiffuseCell ℚ).actTime >
              ({ c' with willActivate := true, actTime := t' } :
                FireDiffuseCell ℚ).activDelay) := by
            simp only [sub_self, gt_iff_lt, not_and, not_lt]
            intro _
            rw [g2]; exact hdelay
          simp only [armCell]
          rw [if_pos harm, fireCell_of_not _ _ hno]
          refine ⟨g1, g2, g3, fun _ => ?_⟩
          show c.refractTime + c.tauRefr < t'
          have := harm.2.2
          rw [g1] at this
          linarith
        · have ha : armCell t' q' c' = c' := by
            simp only [armCell]
            rw [if_neg harm]
          rw [ha]
          by_cases hfire : c'.willActivate = true ∧ t' - c'.actTime > c'.activDelay
          · simp only [fireCell]
            rw [if_pos hfire]
            refine ⟨g1, g2, ?_, fun hw => by cases hw⟩
            show c.refractTime ≤ t'
            have h5 := g4 hfire.1
            have h6 := hfire.2
            rw [g2] at h6
            linarith
          · rw [fireCell_of_not _ _ hfire]
            exact ⟨g1, g2, g3, g4⟩)
      i pre m hpre (fun _ _ => trivial)
      ⟨c, hc, rfl, rfl, le_refl _, fun hw => by rw [hnot] at hw; cases hw⟩
  obtain ⟨hcell, hval⟩ := UpdateVals_cell_state base hbase _ t hpre2 i cp hcp
  refine ⟨cp, hcp, ?_, ?_⟩
  · intro ht hw
    have harm : ¬ (cp.willActivate = false ∧
        dynVal (runSolver base m pre).vals i 0 ≥ cp.thresh ∧
        t - cp.refractTime > cp.tauRefr) := by
      intro hh
      have := hh.2.2
      rw [h1] at this
      linarith
    have ha : armCell t (dynVal (runSolver base m pre).vals i 0) cp = cp := by
      simp only [armCell]
      rw [if_neg harm]
    have hno : ¬ (cp.willActivate = true ∧ t - cp.actTime > cp.activDelay) := by
      rw [hw]
      intro hh
      cases hh.1
    rw [hcell, ha, fireCell_of_not _ _ hno]
  · intro ht
    have hno : ¬ ((armCell t (dynVal (runSolver base m pre).vals i 0) cp).willActivate = true ∧
        t - (armCell t (dynVal (runSolver base m pre).vals i 0) cp).actTime >
          (armCell t (dynVal (runSolver base m pre).vals i 0) cp).activDelay) := by
      by_cases harm : cp.willActivate = false ∧
          dynVal (runSolver base m pre).vals i 0 ≥ cp.thresh ∧
          t - cp.refractTime > cp.tauRefr
      · simp only [armCell]
        rw [if_pos harm]
        simp only [sub_self, gt_iff_lt, not_and, not_lt]
        intro _
        rw [h2]; exact hdelay
      · have ha : armCell t (dynVal (runSolver base m pre).vals i 0) cp = cp := by
          simp only [armCell]
          rw [if_neg harm]
        rw [ha]
        intro hh
        have h5 := h4 hh.1
        have h6 := hh.2
        rw [h2] at h6
        linarith
    refine ⟨?_, _, hcell, ?_⟩
    · rw [hval]
      exact map_id_of _ _ (fun b => fireVal_of_not _ _ _ hno)
    · rw [fireCell_of_not _ _ hno]
      unfold armCell
      split <;> rfl

/-- Witness of C8: in the scenario, after a firing at `T + 5 = 5` (refractory period 7.5,
delay 5), the solver writes the quantity 9 and the update at time 12, before
`T + 12.5`, does not reset it. -/
theorem refractory_guarantee_witness :
    (FireDiffuseModel.UpdateVals idBase
      (runSolver idBase { soloModel 8 with cells := [{ scenarioCell with refractTime := 5 }] }
        [SolverAction.write [9]]) 12).vals[0]? = some (9 : ℚ) := by
  obtain ⟨cp, _, _, h2⟩ := refractory_guarantee idBase idBase_frame
    { soloModel 8 with cells := [{ scenarioCell with refractTime := 5 }] } rfl 0
    { scenarioCell with refractTime := 5 } rfl rfl
    (by norm_num [scenarioCell]) (by norm_num [scenarioCell])
    [SolverAction.write [9]] 12
  exact (h2 (by norm_num [scenarioCell])).1

theorem CompFunc_discrete {β : Type} (d : FireDiffuseCell ℚ → β)
    (hd : ∀ c x, d (setTotFlux x c) = d c) (m : FireDiffuseModel ℚ) (t : ℚ)
    (v f : List ℚ) :
    (FireDiffuseNetFunct.CompFunc m t v f).1.cells.map d = m.cells.map d := by
  have hadd : ∀ (y : ℚ) (c' : FireDiffuseCell ℚ), d (addTotFlux y c') = d c' :=
    fun y c' => hd c' (c'.totFlux + y)
  apply List.ext_getElem?
  intro k
  rw [List.getElem?_map, List.getElem?_map, CompFunc_model]
  simp only [getElem?_stimCells, getElem?_fluxCells]
  cases m.cells[k]? with
  | none => rfl
  | some c =>
    simp only [Option.map_some', Option.some.injEq]
    rw [hadd]
    split
    · exact hd c _
    · rfl

theorem UpdateVals_of_preRunning (base : FireDiffuseModel ℚ → ℚ → FireDiffuseModel ℚ)
    (m : FireDiffuseModel ℚ) (hpre : m.isPreRunning = true) (t : ℚ) :
    FireDiffuseModel.UpdateVals base m t = { m with tCurr := t } := by
  simp [FireDiffuseModel.UpdateVals, hpre]

theorem runSolver_preRunning (base : FireDiffuseModel ℚ → ℚ → FireDiffuseModel ℚ)
    (actions : List SolverAction) :
    ∀ m : FireDiffuseModel ℚ, m.isPreRunning = true →
      (runSolver base m actions).isPreRunning = true ∧
      (runSolver base m actions).cells.map
          (fun c => (c.willActivate, c.actTime, c.refractTime)) =
        m.cells.map (fun c => (c.willActivate, c.actTime, c.refractTime)) := by
  induction actions with
  | nil =>
    intro m hpre
    exact ⟨hpre, rfl⟩
  | cons a actions ih =>
    intro m hpre
    have hrun : runSolver base m (a :: actions) =
        runSolver base (applyAction base m a) actions := rfl
    rw [hrun]
    cases a with
    | eval t v f =>
      have h := ih (applyAction base m (SolverAction.eval t v f))
        (by show (FireDiffuseNetFunct.CompFunc m t v f).1.isPreRunning = true
            rw [CompFunc_model]; exact hpre)
      refine ⟨h.1, ?_⟩
      rw [h.2]
      exact CompFunc_discrete (fun c => (c.willActivate, c.actTime, c.refractTime))
        (fun c x => rfl) m t v f
    | write vals =>
      exact ih (applyAction base m (SolverAction.write vals)) hpre
    | update t =>
      have heq : applyAction base m (SolverAction.update t) = { m with tCurr := t } :=
        UpdateVals_of_preRunning base m hpre t
      rw [heq]
      exact ih { m with tCurr := t } hpre

/-- C9. While `isPreRunning` is true, `UpdateVals(t)` changes the current time only:
cells and dynamic values are left as they are, whatever the quantities.  Hence during a
run of the solver under the flag (derivative evaluations, writes of any values, updates)
`willActivate`, `actTime` and `refractTime` of every cell keep their values; and the
warm-up of `PreSimulationCall`, which sets the flag around the solve, hands back cells
with the discrete state they had before it, with the flag cleared. -/
theorem UpdateVals_preRunning (base : FireDiffuseModel ℚ → ℚ → FireDiffuseModel ℚ)
    (m : FireDiffuseModel ℚ) (hpre : m.isPreRunning = true) :
    (∀ t, FireDiffuseModel.UpdateVals base m t = { m with tCurr := t }) ∧
    (∀ actions : List SolverAction,
      (runSolver base m actions).isPreRunning = true ∧
      (runSolver base m actions).cells.map
          (fun c => (c.willActivate, c.actTime, c.refractTime)) =
        m.cells.map (fun c => (c.willActivate, c.actTime, c.refractTime))) ∧
    (∀ (env : PreSimEnv ℚ) (actions : List SolverAction) (m0 : FireDiffuseModel ℚ),
      (∀ m' a b, env.Solve m' a b = runSolver base m' actions) →
      (PreSimulationCall_warmUp env m0).cells.map
          (fun c => (c.willActivate, c.actTime, c.refractTime)) =
        m0.cells.map (fun c => (c.willActivate, c.actTime, c.refractTime))) := by
  refine ⟨UpdateVals_of_preRunning base m hpre, fun actions =>
    runSolver_preRunning base actions m hpre, ?_⟩
  intro env actions m0 hsolve
  unfold PreSimulationCall_warmUp
  split
  · simp only [hsolve]
    exact (runSolver_preRunning base actions
      { m0 with stimStrats := [], isPreRunning := true } rfl).2
  · rfl

/-- Witness of C9: during a warm-up the quantity of the scenario cell is driven to 9,
above the threshold 4; after updates at times 1 and 100 the cell is still not scheduled
and has no recorded fire time. -/
theorem UpdateVals_preRunning_witness :
    (runSolver idBase { soloModel 0 with isPreRunning := true }
      [SolverAction.write [9], SolverAction.update 1, SolverAction.eval 1 [9] [0],
        SolverAction.update 100]).cells.map
        (fun c => (c.willActivate, c.actTime, c.refractTime)) =
      [(false, 0, -999999)] :=
  ((UpdateVals_preRunning idBase { soloModel 0 with isPreRunning := true } rfl).2.1
    [SolverAction.write [9], SolverAction.update 1, SolverAction.eval 1 [9] [0],
      SolverAction.update 100]).2

/-! ## Pre-simulation call -/

/-- C10, counterexample. A warm-up solve that leaves NaN in the dynamic values of the
model does not make `PreSimulationCall` fail: with a base class and metrics that report
success, the call returns true and hands over a model whose state is not finite. -/
theorem PreSimulationCall_nonFinite_returns_true :
    hasNonFinite (PreSimulationCall_warmUp divergingEnv warmUpModel).vals = true ∧
    (FireDiffuseModel.PreSimulationCall divergingEnv warmUpModel).1 = true ∧
    hasNonFinite (FireDiffuseModel.PreSimulationCall divergingEnv warmUpModel).2.vals = true := by
  refine ⟨rfl, rfl, rfl⟩

/-- C10, amended. `PreSimulationCall` returns false if and only if the base-class call
reports a failure or the metric computation that follows the warm-up reports one; the
values left by the warm-up solve are not tested, and the model handed over is the one the
metric computation returns. -/
theorem PreSimulationCall_status {α : Type} [Add α] (env : PreSimEnv α)
    (m : FireDiffuseModel α) :
    ((FireDiffuseModel.PreSimulationCall env m).1 = false ↔
      ((env.basePreSimulationCall m).1 = false ∨
        (env.ComputeMetrics (env.UseCurrentValsAsInitVals
          (PreSimulationCall_warmUp env (env.basePreSimulationCall m).2))).1 = false)) ∧
    (FireDiffuseModel.PreSimulationCall env m).2 =
      (env.ComputeMetrics (env.UseCurrentValsAsInitVals
        (PreSimulationCall_warmUp env (env.basePreSimulationCall m).2))).2 := by
  refine ⟨?_, rfl⟩
  show ((env.basePreSimulationCall m).1 &&
      (env.ComputeMetrics (env.UseCurrentValsAsInitVals
        (PreSimulationCall_warmUp env (env.basePreSimulationCall m).2))).1) = false ↔ _
  cases (env.basePreSimulationCall m).1 <;>
    cases (env.ComputeMetrics (env.UseCurrentValsAsInitVals
      (PreSimulationCall_warmUp env (env.basePreSimulationCall m).2))).1 <;> simp

/-! ## Pre-simulation call: the warm-up -/

/-- C11. With `preRunToEqu` set, `PreSimulationCall` runs the solver on the model with
an empty list of stimulation strategies and `isPreRunning` true, over
`[tStart, tStart + preRunTime]`, and hands back the result of the solve with the list of
strategies held before the warm-up and `isPreRunning` false; with `preRunToEqu` unset the
warm-up block leaves the model as it is (no solve).  When the base-class call, the
capture of the initial values and the metric computation leave the list, the flag and
`preRunToEqu` alone, the list after the whole call is the list before the call. -/
theorem PreSimulationCall_warmUp_frame {α : Type} [Add α] (env : PreSimEnv α)
    (m : FireDiffuseModel α) :
    (m.preRunToEqu = true →
      PreSimulationCall_warmUp env m =
        { env.Solve { m with stimStrats := [], isPreRunning := true } m.tStart
            (m.tStart + m.preRunTime) with
          stimStrats := m.stimStrats, isPreRunning := false } ∧
      (PreSimulationCall_warmUp env m).stimStrats = m.stimStrats ∧
      (PreSimulationCall_warmUp env m).isPreRunning = false) ∧
    (m.preRunToEqu = false → PreSimulationCall_warmUp env m = m) ∧
    ((∀ m', (env.basePreSimulationCall m').2.stimStrats = m'.stimStrats ∧
        (env.basePreSimulationCall m').2.isPreRunning = m'.isPreRunning ∧
        (env.basePreSimulationCall m').2.preRunToEqu = m'.preRunToEqu) →
      (∀ m', (env.UseCurrentValsAsInitVals m').stimStrats = m'.stimStrats ∧
        (env.UseCurrentValsAsInitVals m').isPreRunning = m'.isPreRunning) →
      (∀ m', (env.ComputeMetrics m').2.stimStrats = m'.stimStrats ∧
        (env.ComputeMetrics m').2.isPreRunning = m'.isPreRunning) →
      (FireDiffuseModel.PreSimulationCall env m).2.stimStrats = m.stimStrats ∧
      (FireDiffuseModel.PreSimulationCall env m).2.isPreRunning =
        (if m.preRunToEqu = true then false else m.isPreRunning)) := by
  have hblock : ∀ m0 : FireDiffuseModel α,
      (PreSimulationCall_warmUp env m0).stimStrats = m0.stimStrats ∧
      (PreSimulationCall_warmUp env m0).isPreRunning =
        (if m0.preRunToEqu = true then false else m0.isPreRunning) := by
    intro m0
    unfold PreSimulationCall_warmUp
    split <;> exact ⟨rfl, rfl⟩
  refine ⟨?_, ?_, ?_⟩
  · intro h
    have h1 : PreSimulationCall_warmUp env m =
        { env.Solve { m with stimStrats := [], isPreRunning := true } m.tStart
            (m.tStart + m.preRunTime) with
          stimStrats := m.stimStrats, isPreRunning := false } := by
      unfold PreSimulationCall_warmUp
      rw [if_pos h]
    refine ⟨h1, ?_, ?_⟩
    · rw [h1]
    · rw [h1]
  · intro h
    unfold PreSimulationCall_warmUp
    rw [if_neg (by rw [h]; exact Bool.false_ne_true)]
  · intro hb hu hm
    obtain ⟨b1, b2, b3⟩ := hb m
    obtain ⟨w1, w2⟩ := hblock (env.basePreSimulationCall m).2
    obtain ⟨u1, u2⟩ := hu (PreSimulationCall_warmUp env (env.basePreSimulationCall m).2)
    obtain ⟨c1, c2⟩ := hm (env.UseCurrentValsAsInitVals
      (PreSimulationCall_warmUp env (env.basePreSimulationCall m).2))
    refine ⟨?_, ?_⟩
    · show (env.ComputeMetrics (env.UseCurrentValsAsInitVals
        (PreSimulationCall_warmUp env (env.basePreSimulationCall m).2))).2.stimStrats = _
      rw [c1, u1, w1, b1]
    · show (env.ComputeMetrics (env.UseCurrentValsAsInitVals
        (PreSimulationCall_warmUp env (env.basePreSimulationCall m).2))).2.isPreRunning = _
      rw [c2, u2, w2, b2, b3]

/-- Witness of C11: the recording solver is run from `tStart = 2` to `2 + 10 = 12` on a
model without strategies that is pre-running (it writes 1); after the call the one
strategy of the model is back and `isPreRunning` is false. -/
theorem PreSimulationCall_warmUp_frame_witness :
    (FireDiffuseModel.PreSimulationCall recordingEnv stimulatedModel).2.stimStrats =
      stimulatedModel.stimStrats ∧
    (FireDiffuseModel.PreSimulationCall recordingEnv stimulatedModel).2.isPreRunning = false ∧
    (FireDiffuseModel.PreSimulationCall recordingEnv stimulatedModel).2.vals = [2, 1] ∧
    (FireDiffuseModel.PreSimulationCall recordingEnv stimulatedModel).2.tCurr = 12 := by
  have h := (PreSimulationCall_warmUp_frame recordingEnv stimulatedModel).2.2
    (fun _ => ⟨rfl, rfl, rfl⟩) (fun _ => ⟨rfl, rfl⟩) (fun _ => ⟨rfl, rfl⟩)
  have hw := ((PreSimulationCall_warmUp_frame recordingEnv stimulatedModel).1 rfl).1
  refine ⟨h.1, h.2, ?_, ?_⟩
  · show (PreSimulationCall_warmUp recordingEnv stimulatedModel).vals = [2, 1]
    rw [hw]
    rfl
  · show (PreSimulationCall_warmUp recordingEnv stimulatedModel).tCurr = 12
    rw [hw]
    norm_num [recordingEnv, stimulatedModel, soloModel]

/-! ## Streams: lemmas -/

theorem readDouble_num (s : IStream) (old q : ℚ) (rest : List Tok)
    (hf : s.failbit = false) (he : s.eofbit = false) (ht : s.toks = Tok.num q :: rest)
    (hmore : rest ≠ [] ∨ s.trailing = true) :
    s.readDouble old =
      (q, { toks := rest, trailing := s.trailing, failbit := false, eofbit := false }) := by
  have hg : s.good = true := by simp [IStream.good, hf, he]
  have hb : (rest.isEmpty && !s.trailing) = false := by
    rcases hmore with h | h
    · cases rest with
      | nil => exact absurd rfl h
      | cons a l => rfl
    · simp [h]
  simp only [IStream.readDouble, hg, ht, hb, hf]
  rfl

theorem readDouble_ofLines (q old : ℚ) (rest : List Tok) :
    (IStream.ofLines (Tok.num q :: rest)).readDouble old = (q, IStream.ofLines rest) :=
  readDouble_num _ old q rest rfl rfl rfl (Or.inr rfl)

theorem writeDouble_good (s : OStream) (q : ℚ) (hb : s.badbit = false) (hr : 0 < s.room) :
    s.writeDouble q = { out := s.out ++ [Tok.num q], room := s.room - 1, badbit := false } := by
  have hg : s.good = true := by simp [OStream.good, hb]
  have hr' : s.room ≠ 0 := by omega
  simp [OStream.writeDouble, hg, hr', hb]

theorem writeDouble_mk (out : List Tok) (room : Nat) (q : ℚ) (hr : 0 < room) :
    ({ out := out, room := room, badbit := false } : OStream).writeDouble q =
      { out := out ++ [Tok.num q], room := room - 1, badbit := false } :=
  writeDouble_good _ q rfl hr

/-- Saving a cell on a good stream whose sink accepts five more items writes the five
parameters, in the order thresh, actQuant, tauRefr, degrad, activDelay, and succeeds. -/
theorem FireDiffuseCell_save (c : FireDiffuseCell ℚ) (s : OStream) (hb : s.badbit = false)
    (hr : 5 ≤ s.room) :
    c.SaveToStream s =
      (true, { out := s.out ++ [Tok.num c.thresh, Tok.num c.actQuant, Tok.num c.tauRefr,
                 Tok.num c.degrad, Tok.num c.activDelay],
               room := s.room - 5, badbit := false }) := by
  simp only [FireDiffuseCell.SaveToStream]
  rw [writeDouble_good s c.thresh hb (by omega)]
  rw [writeDouble_mk _ _ c.actQuant (by omega)]
  rw [writeDouble_mk _ _ c.tauRefr (by omega)]
  rw [writeDouble_mk _ _ c.degrad (by omega)]
  rw [writeDouble_mk _ _ c.activDelay (by omega)]
  simp [OStream.good, Nat.sub_sub]

/-- Loading a cell from a text that starts with five numbers, each followed by a newline,
stores them in the order thresh, actQuant, tauRefr, degrad, activDelay, leaves the other
fields of the cell as they are and succeeds. -/
theorem FireDiffuseCell_load (c0 : FireDiffuseCell ℚ) (a b c d e : ℚ) (rest : List Tok) :
    c0.LoadFromStream
        (IStream.ofLines (Tok.num a :: Tok.num b :: Tok.num c :: Tok.num d :: Tok.num e :: rest)) =
      (true,
       { c0 with thresh := a, actQuant := b, tauRefr := c, degrad := d, activDelay := e },
       IStream.ofLines rest) := by
  simp only [FireDiffuseCell.LoadFromStream, readDouble_ofLines]
  rfl

/-! ## Discrete state and malformed input in the load of a fire-diffuse cell -/

/-- C13, counterexample. A cell that is scheduled to fire (`willActivate` true,
`actTime = 3`, `refractTime = 1`) is saved and the text is loaded into a fresh cell:
both calls succeed, the five parameters are those of the original, and the loaded cell is
not scheduled, with `actTime = 0` and `refractTime = -999999`. -/
theorem FireDiffuseCell_discrete_state_not_saved :
    (scheduledCell.SaveToStream (OStream.fresh 5)).1 = true ∧
    ((FireDiffuseCell.Initialize scenarioDefaults scenarioCell).1.LoadFromStream
        (IStream.ofLines (scheduledCell.SaveToStream (OStream.fresh 5)).2.out)).1 = true ∧
    ((FireDiffuseCell.Initialize scenarioDefaults scenarioCell).1.LoadFromStream
        (IStream.ofLines (scheduledCell.SaveToStream (OStream.fresh 5)).2.out)).2.1 =
      { scheduledCell with refractTime := -999999, willActivate := false, actTime := 0 } ∧
    scheduledCell.willActivate = true ∧ scheduledCell.actTime = 3 ∧
    scheduledCell.refractTime = 1 := by
  have hs := FireDiffuseCell_save scheduledCell (OStream.fresh 5) rfl (le_refl _)
  have hl := FireDiffuseCell_load (FireDiffuseCell.Initialize scenarioDefaults scenarioCell).1
    scheduledCell.thresh scheduledCell.actQuant scheduledCell.tauRefr scheduledCell.degrad
    scheduledCell.activDelay []
  rw [hs]
  simp only [OStream.fresh, List.nil_append]
  rw [hl]
  exact ⟨trivial, rfl, rfl, rfl, rfl, rfl⟩

/-- C13, amended. The discrete state is neither saved nor loaded.  `SaveToStream` gives
the same result for two cells that differ in `refractTime`, `willActivate` and `actTime`
only, and `LoadFromStream` leaves these three fields of the cell it loads into as they
are, whatever the stream holds.  A fresh cell that loads any text, the one saved from a
cell `c` included, has the discrete state of a fresh cell (`-999999`, false, 0): it equals
the discrete state of `c` if and only if `c` is in that state (it never fired and is not
scheduled). -/
theorem FireDiffuseCell_load_keeps_discrete_state (c c0 : FireDiffuseCell ℚ)
    (d : CellDefaults ℚ) (s : OStream) (stream : IStream) :
    (∀ (rt at2 : ℚ) (w : Bool),
      ({ c with refractTime := rt, willActivate := w, actTime := at2 } :
        FireDiffuseCell ℚ).SaveToStream s = c.SaveToStream s) ∧
    ((c0.LoadFromStream stream).2.1.refractTime = c0.refractTime ∧
      (c0.LoadFromStream stream).2.1.willActivate = c0.willActivate ∧
      (c0.LoadFromStream stream).2.1.actTime = c0.actTime) ∧
    (((FireDiffuseCell.Initialize d c0).1.LoadFromStream stream).2.1.refractTime = -999999 ∧
      ((FireDiffuseCell.Initialize d c0).1.LoadFromStream stream).2.1.willActivate = false ∧
      ((FireDiffuseCell.Initialize d c0).1.LoadFromStream stream).2.1.actTime = 0) ∧
    ((((FireDiffuseCell.Initialize d c0).1.LoadFromStream
          (IStream.ofLines (c.SaveToStream s).2.out)).2.1.refractTime = c.refractTime ∧
        ((FireDiffuseCell.Initialize d c0).1.LoadFromStream
          (IStream.ofLines (c.SaveToStream s).2.out)).2.1.willActivate = c.willActivate ∧
        ((FireDiffuseCell.Initialize d c0).1.LoadFromStream
          (IStream.ofLines (c.SaveToStream s).2.out)).2.1.actTime = c.actTime) ↔
      (c.refractTime = -999999 ∧ c.willActivate = false ∧ c.actTime = 0)) := by
  have hload : ∀ (x : FireDiffuseCell ℚ) (st : IStream),
      (x.LoadFromStream st).2.1.refractTime = x.refractTime ∧
      (x.LoadFromStream st).2.1.willActivate = x.willActivate ∧
      (x.LoadFromStream st).2.1.actTime = x.actTime :=
    fun _ _ => ⟨rfl, rfl, rfl⟩
  refine ⟨fun _ _ _ => rfl, hload c0 stream, ?_, ?_⟩
  · obtain ⟨h1, h2, h3⟩ := hload (FireDiffuseCell.Initialize d c0).1 stream
    rw [h1, h2, h3]
    exact ⟨rfl, rfl, rfl⟩
  · obtain ⟨h1, h2, h3⟩ := hload (FireDiffuseCell.Initialize d c0).1
      (IStream.ofLines (c.SaveToStream s).2.out)
    rw [h1, h2, h3]
    constructor
    · rintro ⟨g1, g2, g3⟩
      exact ⟨g1.symm, g2.symm, g3.symm⟩
    · rintro ⟨g1, g2, g3⟩
      rw [g1, g2, g3]
      exact ⟨rfl, rfl, rfl⟩

/-- C16, failing input. The text `abc 1 2 3 4 5` starts with a token that is not a number:
the first extraction fails and stores 0, the other four do nothing, the end of the stream
is not reached, and `LoadFromStream`, which tests `eof()` only, returns true with
`thresh = 0` and the other four parameters at their previous values. -/
theorem FireDiffuseCell_LoadFromStream_accepts_bad_token :
    scenarioCell.LoadFromStream
        (IStream.ofLines [Tok.bad, Tok.num 1, Tok.num 2, Tok.num 3, Tok.num 4, Tok.num 5]) =
      (true, { scenarioCell with thresh := 0 },
       { toks := [Tok.bad, Tok.num 1, Tok.num 2, Tok.num 3, Tok.num 4, Tok.num 5],
         trailing := true, failbit := true, eofbit := false }) := by
  simp [FireDiffuseCell.LoadFromStream, IStream.readDouble, IStream.ofLines, IStream.good,
    IStream.eof, scenarioCell]

/-! ## Save and load of a KChI cell -/

theorem plainChICellEnv_load (b : ChICell) (q : ℚ) (rest : List Tok) :
    plainChICellEnv.LoadFromStream b (IStream.ofLines (Tok.num q :: rest)) =
      (true, { b with a2 := q }, IStream.ofLines rest) := by
  simp only [plainChICellEnv, readDouble_ofLines]
  rfl

theorem runsOut_zero (s : IStream) (h : s.runsOut 0) : s.eofbit = true := by
  rcases h with h | ⟨_, h⟩
  · exact h
  · exact absurd h (Nat.not_lt_zero _)

theorem cutOff_tail (s s' : IStream) (t : Tok) (rest : List Tok) (h : s.cutOff)
    (ht : s.toks = t :: rest) (hf : s'.failbit = false) (he : s'.eofbit = false)
    (hts : s'.toks = rest) (htr : s'.trailing = s.trailing) : s'.cutOff := by
  obtain ⟨_, _, h3, h4⟩ := h
  refine ⟨hf, he, ?_, ?_⟩
  · intro u hu
    rw [hts] at hu
    exact h3 u (by rw [ht]; exact List.mem_cons_of_mem _ hu)
  · intro pre r hr
    rw [hts] at hr
    rw [htr]
    exact h4 (t :: pre) r (by rw [ht, hr]; rfl)

theorem runsOut_readDouble (s : IStream) (old : ℚ) (n : Nat) (h : s.runsOut (n + 1)) :
    (s.readDouble old).2.runsOut n := by
  rcases h with h | ⟨hc, hlen⟩
  · left
    have hg : s.good = false := by simp [IStream.good, h]
    simp [IStream.readDouble, hg, h]
  · have hg : s.good = true := by simp [IStream.good, hc.1, hc.2.1]
    cases ht : s.toks with
    | nil =>
      left
      simp [IStream.readDouble, hg, ht]
    | cons t rest =>
      cases t with
      | num q =>
        by_cases hb : (rest.isEmpty && !s.trailing) = true
        · left
          simp only [IStream.readDouble, hg, ht]
          exact hb
        · right
          have hb' : (rest.isEmpty && !s.trailing) = false := by
            cases hx : (rest.isEmpty && !s.trailing)
            · rfl
            · exact absurd hx hb
          have hs : (s.readDouble old).2 =
              { toks := rest, trailing := s.trailing, failbit := s.failbit,
                eofbit := false } := by
            simp only [IStream.readDouble, hg, ht, hb']
            rfl
          rw [hs]
          refine ⟨cutOff_tail s _ _ rest hc ht hc.1 rfl rfl rfl, ?_⟩
          have : s.toks.length = rest.length + 1 := by rw [ht]; rfl
          show rest.length < n
          omega
      | cutNum =>
        left
        obtain ⟨hr, htr⟩ := hc.2.2.2 [] rest (by rw [ht]; rfl)
        simp [IStream.readDouble, hg, ht, hr, htr]
      | bad =>
        exact absurd rfl (hc.2.2.1 Tok.bad (by rw [ht]; exact List.mem_cons_self _ _))

theorem readBool_not_good (s : IStream) (old : Bool) (h : s.runsOut 1) :
    (s.readBool old).2.good = false := by
  rcases h with h | ⟨hc, hlen⟩
  · have hg : s.good = false := by simp [IStream.good, h]
    simp [IStream.readBool, hg, IStream.good, h]
  · have hg : s.good = true := by simp [IStream.good, hc.1, hc.2.1]
    have ht : s.toks = [] := by
      cases hx : s.toks with
      | nil => rfl
      | cons a l =>
        rw [hx] at hlen
        simp at hlen
    simp only [IStream.readBool, hg, ht]
    simp [IStream.good]

theorem cutOff_of_nums (s : IStream) (hf : s.failbit = false) (he : s.eofbit = false)
    (h : ∀ t, t ∈ s.toks → ∃ q, t = Tok.num q) : s.cutOff := by
  refine ⟨hf, he, ?_, ?_⟩
  · intro t ht hbad
    obtain ⟨q, hq⟩ := h t ht
    rw [hq] at hbad
    cases hbad
  · intro pre rest hpr
    obtain ⟨q, hq⟩ := h Tok.cutNum (by rw [hpr]; simp)
    cases hq

theorem FireDiffuseCell_load_runsOut (c : FireDiffuseCell ℚ) (s : IStream)
    (h : s.runsOut 5) : (c.LoadFromStream s).1 = false := by
  have h1 := runsOut_readDouble s c.thresh 4 h
  have h2 := runsOut_readDouble _ c.actQuant 3 h1
  have h3 := runsOut_readDouble _ c.tauRefr 2 h2
  have h4 := runsOut_readDouble _ c.degrad 1 h3
  have h5 := runsOut_zero _ (runsOut_readDouble _ c.activDelay 0 h4)
  simp only [FireDiffuseCell.LoadFromStream, IStream.eof]
  rw [h5]
  rfl

theorem KChICell_load_runsOut (env : ChICellEnv) (E : MathEnv) (d : KChIDefaults)
    (model : KChIModel) (c : KChICell) (s : IStream)
    (h0 : (env.LoadFromStream c.toChICell s).2.2.runsOut 25) :
    (c.LoadFromStream env E d model s).1 = false := by
  have h1 := runsOut_readDouble _ c.Va 24 h0
  have h2 := runsOut_readDouble _ c.Sa 23 h1
  have h3 := runsOut_readDouble _ c.alphExt 22 h2
  have h4 := runsOut_readDouble _ c.KoBl 21 h3
  have h5 := runsOut_readDouble _ c.CaOut 20 h4
  have h6 := runsOut_readDouble _ c.ClOut 19 h5
  have h7 := runsOut_readDouble _ c.ClIn 18 h6
  have h8 := runsOut_readDouble _ c.NaOut 17 h7
  have h9 := runsOut_readDouble _ c.NaIn 16 h8
  have h10 := runsOut_readDouble _ c.Cap 15 h9
  have h11 := runsOut_readDouble _ c.GClLeak 14 h10
  have h12 := runsOut_readDouble _ c.GNaLeak 13 h11
  have h13 := runsOut_readDouble _ c.OmegaK 12 h12
  have h14 := runsOut_readDouble _ c.GKLeak 11 h13
  have h15 := runsOut_readDouble _ c.GKirMax 10 h14
  have h16 := runsOut_readDouble _ c.KNa 9 h15
  have h17 := runsOut_readDouble _ c.KK 8 h16
  have h18 := runsOut_readDouble _ c.JNaKATPaseMax 7 h17
  have h19 := runsOut_readDouble _ c.GCaLeak 6 h18
  have h20 := runsOut_readDouble _ c.PCaLType 5 h19
  have h21 := runsOut_readDouble _ c.OMP 4 h20
  have h22 := runsOut_readDouble _ c.kpact 3 h21
  have h23 := runsOut_readDouble _ c.kpinh 2 h22
  have h24 := runsOut_readDouble _ c.kPhos 1 h23
  have h25 := readBool_not_good _ c.ensureCaEq h24
  simp only [KChICell.LoadFromStream]
  rw [h25]
  simp

/-- C15. A fire-diffuse cell loaded from a cut text with fewer than five tokens (in
particular from the first `k < 5` items of a saved cell, followed by white space or not)
is reported as a failure; so is a KChI cell when, after the base class has read its
block, the text is cut with fewer than 25 tokens left (or the end of the stream has
been reached). -/
theorem truncated_load_fails :
    (∀ (c : FireDiffuseCell ℚ) (s : IStream), s.cutOff → s.toks.length < 5 →
      (c.LoadFromStream s).1 = false) ∧
    (∀ (c c0 : FireDiffuseCell ℚ) (k : Nat) (trailing : Bool), k < 5 →
      (c0.LoadFromStream
        { toks := (c.SaveToStream (OStream.fresh 5)).2.out.take k, trailing := trailing,
          failbit := false, eofbit := false }).1 = false) ∧
    (∀ (env : ChICellEnv) (E : MathEnv) (d : KChIDefaults) (model : KChIModel)
        (c : KChICell) (s : IStream),
      (env.LoadFromStream c.toChICell s).2.2.eofbit = true ∨
        ((env.LoadFromStream c.toChICell s).2.2.cutOff ∧
          (env.LoadFromStream c.toChICell s).2.2.toks.length < 25) →
      (c.LoadFromStream env E d model s).1 = false) := by
  refine ⟨?_, ?_, ?_⟩
  · intro c s hc hlen
    exact FireDiffuseCell_load_runsOut c s (Or.inr ⟨hc, hlen⟩)
  · intro c c0 k trailing hk
    apply FireDiffuseCell_load_runsOut
    right
    have hs := FireDiffuseCell_save c (OStream.fresh 5) rfl (le_refl _)
    rw [hs]
    refine ⟨cutOff_of_nums _ rfl rfl ?_, ?_⟩
    · intro t ht
      have hmem := List.mem_of_mem_take ht
      simp only [OStream.fresh, List.nil_append, List.mem_cons, List.mem_singleton,
        List.not_mem_nil, or_false] at hmem
      rcases hmem with h | h | h | h | h <;> exact ⟨_, h⟩
    · show (List.take k _).length < 5
      rw [List.length_take]
      omega
  · intro env E d model c s h
    exact KChICell_load_runsOut env E d model c s h

/-- Witness of C15: the text of a saved scenario cell cut after its fourth item. -/
theorem truncated_load_fails_witness :
    (scenarioCell.LoadFromStream
      { toks := [Tok.num 4, Tok.num 8, Tok.num (15 / 2), Tok.num (3 / 10)],
        trailing := true, failbit := false, eofbit := false }).1 = false ∧
    (leakCell.LoadFromStream plainChICellEnv exampleMath exampleKDefaults exampleKModel
      (IStream.ofLines [Tok.num 1, Tok.num 2, Tok.num 3])).1 = false := by
  refine ⟨?_, ?_⟩
  · exact truncated_load_fails.1 scenarioCell _
      (cutOff_of_nums _ rfl rfl (by
        intro t ht
        simp only [List.mem_cons, List.mem_singleton, List.not_mem_nil, or_false] at ht
        rcases ht with h | h | h | h <;> exact ⟨_, h⟩))
      (by decide)
  · apply truncated_load_fails.2.2
    right
    rw [plainChICellEnv_load]
    refine ⟨cutOff_of_nums _ rfl rfl (by
        intro t ht
        simp only [IStream.ofLines, List.mem_cons, List.mem_singleton, List.not_mem_nil,
          or_false] at ht
        rcases ht with h | h <;> exact ⟨_, h⟩), by decide⟩

/-! ## Equilibrium, flux symmetry and neighbour order -/

theorem getElem?_set_set_six (v : List ℚ) (off : Nat) (a b c d e f : ℚ)
    (h : off + 9 ≤ v.length) :
    ((((((v.set (off + 3) a).set (off + 4) b).set (off + 5) c).set (off + 6) d).set
        (off + 7) e).set (off + 8) f)[off + 3]? = some a ∧
    ((((((v.set (off + 3) a).set (off + 4) b).set (off + 5) c).set (off + 6) d).set
        (off + 7) e).set (off + 8) f)[off + 4]? = some b ∧
    ((((((v.set (off + 3) a).set (off + 4) b).set (off + 5) c).set (off + 6) d).set
        (off + 7) e).set (off + 8) f)[off + 5]? = some c ∧
    ((((((v.set (off + 3) a).set (off + 4) b).set (off + 5) c).set (off + 6) d).set
        (off + 7) e).set (off + 8) f)[off + 6]? = some d ∧
    ((((((v.set (off + 3) a).set (off + 4) b).set (off + 5) c).set (off + 6) d).set
        (off + 7) e).set (off + 8) f)[off + 7]? = some e ∧
    ((((((v.set (off + 3) a).set (off + 4) b).set (off + 5) c).set (off + 6) d).set
        (off + 7) e).set (off + 8) f)[off + 8]? = some f := by
  have h3 : off + 3 < v.length := by omega
  have h4 : off + 4 < v.length := by omega
  have h5 : off + 5 < v.length := by omega
  have h6 : off + 6 < v.length := by omega
  have h7 : off + 7 < v.length := by omega
  have h8 : off + 8 < v.length := by omega
  simp [List.getElem?_set, h3, h4, h5, h6, h7, h8]

/-- What one call of `KChICell::SetToEquilibrium` leaves in the fields it sets. -/
theorem KChICell_SetToEquilibrium_sets (env : ChICellEnv) (d : KChIDefaults) (c : KChICell)
    (vals : List ℚ) (off : Nat)
    (hlen : (env.SetToEquilibrium c.toChICell vals off).2.length = vals.length)
    (hoff : off + KCHIMODEL_NBVALS_PER_CELL ≤ vals.length) :
    (c.SetToEquilibrium env d vals off).1.KFluxOut = 0 ∧
    (c.SetToEquilibrium env d vals off).1.KFluxIn = 0 ∧
    (c.SetToEquilibrium env d vals off).2.length = vals.length ∧
    (c.SetToEquilibrium env d vals off).2[off + KChICell.Ko]? = some d.DefaultKo ∧
    (c.SetToEquilibrium env d vals off).2[off + KChICell.Ki]? = some d.DefaultKi ∧
    (c.SetToEquilibrium env d vals off).2[off + KChICell.Vm]? = some d.DefaultVm ∧
    (c.SetToEquilibrium env d vals off).2[off + KChICell.Cer]? = some d.DefaultCer ∧
    (c.SetToEquilibrium env d vals off).2[off + KChICell.Gp]? = some d.DefaultGp ∧
    (c.SetToEquilibrium env d vals off).2[off + KChICell.Gm]? = some d.DefaultGm := by
  have h9 : off + 9 ≤ (env.SetToEquilibrium c.toChICell vals off).2.length := by
    rw [hlen]; exact hoff
  have h := getElem?_set_set_six (env.SetToEquilibrium c.toChICell vals off).2 off
    d.DefaultKo d.DefaultKi d.DefaultVm d.DefaultCer d.DefaultGp d.DefaultGm h9
  refine ⟨rfl, rfl, ?_, h.1, h.2.1, h.2.2.1, h.2.2.2.1, h.2.2.2.2.1, h.2.2.2.2.2⟩
  simp [KChICell.SetToEquilibrium, hlen]

/-- C18. `SetToEquilibrium` is idempotent.  For a fire-diffuse cell, a second call gives
the cell and the quantity of the first call.  For a KChI cell whose slice lies in the
buffer (the base-class call keeping the size of the buffer), the fields that
`KChICell::SetToEquilibrium` sets, the two potassium fluxes and the six dynamic values
`Ko` to `Gm`, are after a second call what they are after the first. -/
theorem SetToEquilibrium_idempotent :
    (∀ (d : CellDefaults ℚ) (c : FireDiffuseCell ℚ),
      FireDiffuseCell.SetToEquilibrium d (FireDiffuseCell.SetToEquilibrium d c).1 =
        FireDiffuseCell.SetToEquilibrium d c) ∧
    (∀ (env : ChICellEnv) (d : KChIDefaults) (c : KChICell) (vals : List ℚ) (off : Nat),
      (∀ b v o, (env.SetToEquilibrium b v o).2.length = v.length) →
      off + KCHIMODEL_NBVALS_PER_CELL ≤ vals.length →
      ((c.SetToEquilibrium env d vals off).1.SetToEquilibrium env d
          (c.SetToEquilibrium env d vals off).2 off).1.KFluxOut =
        (c.SetToEquilibrium env d vals off).1.KFluxOut ∧
      ((c.SetToEquilibrium env d vals off).1.SetToEquilibrium env d
          (c.SetToEquilibrium env d vals off).2 off).1.KFluxIn =
        (c.SetToEquilibrium env d vals off).1.KFluxIn ∧
      ∀ k, k ∈ [KChICell.Ko, KChICell.Ki, KChICell.Vm, KChICell.Cer, KChICell.Gp,
          KChICell.Gm] →
        ((c.SetToEquilibrium env d vals off).1.SetToEquilibrium env d
            (c.SetToEquilibrium env d vals off).2 off).2[off + k]? =
          (c.SetToEquilibrium env d vals off).2[off + k]?) := by
  refine ⟨fun d c => rfl, ?_⟩
  intro env d c vals off hlen hoff
  have h1 := KChICell_SetToEquilibrium_sets env d c vals off (hlen _ _ _) hoff
  have h2 := KChICell_SetToEquilibrium_sets env d (c.SetToEquilibrium env d vals off).1
    (c.SetToEquilibrium env d vals off).2 off (hlen _ _ _) (by rw [h1.2.2.1]; exact hoff)
  refine ⟨by rw [h2.1, h1.1], by rw [h2.2.1, h1.2.1], ?_⟩
  intro k hk
  simp only [List.mem_cons, List.mem_singleton, List.not_mem_nil, or_false] at hk
  rcases hk with h | h | h | h | h | h <;> subst h
  · rw [h2.2.2.2.1, h1.2.2.2.1]
  · rw [h2.2.2.2.2.1, h1.2.2.2.2.1]
  · rw [h2.2.2.2.2.2.1, h1.2.2.2.2.2.1]
  · rw [h2.2.2.2.2.2.2.1, h1.2.2.2.2.2.2.1]
  · rw [h2.2.2.2.2.2.2.2.1, h1.2.2.2.2.2.2.2.1]
  · rw [h2.2.2.2.2.2.2.2.2, h1.2.2.2.2.2.2.2.2]

/-- Witness of C18: on a buffer of nine values, a second call leaves the potassium
concentration `Ko` of the example cell as the first call set it. -/
theorem SetToEquilibrium_idempotent_witness :
    ((leakCell.SetToEquilibrium plainChICellEnv exampleKDefaults
        [0, 0, 0, 0, 0, 0, 0, 0, 0] 0).1.SetToEquilibrium plainChICellEnv exampleKDefaults
      (leakCell.SetToEquilibrium plainChICellEnv exampleKDefaults
        [0, 0, 0, 0, 0, 0, 0, 0, 0] 0).2 0).2[0 + KChICell.Ko]? =
      (leakCell.SetToEquilibrium plainChICellEnv exampleKDefaults
        [0, 0, 0, 0, 0, 0, 0, 0, 0] 0).2[0 + KChICell.Ko]? :=
  (SetToEquilibrium_idempotent.2 plainChICellEnv exampleKDefaults leakCell
    [0, 0, 0, 0, 0, 0, 0, 0, 0] 0 (fun _ _ _ => rfl) (by decide)).2.2 KChICell.Ko
    (by simp)

/-- C19, counterexample. Two coupled cells hold 3 and 1 and both edges carry the same
coupling function `x ↦ x * x`: cell 1 adds `(3 - 1)² = 4` to the accumulator of cell 0,
cell 0 adds `(1 - 3)² = 4` to the accumulator of cell 1, and 4 is not the negation
of 4. -/
theorem flux_not_antisymmetric_for_even_coupling :
    squareModel.network.coupling 0 1 = squareModel.network.coupling 1 0 ∧
    edgeFlux squareModel.network squareModel.vals 0 1 = 4 ∧
    edgeFlux squareModel.network squareModel.vals 1 0 = 4 ∧
    (FireDiffuseModel.ComputeFluxes squareModel 0).cells.map (fun c => c.totFlux) = [4, 4] ∧
    edgeFlux squareModel.network squareModel.vals 0 1 ≠
      - edgeFlux squareModel.network squareModel.vals 1 0 := by
  have h01 : edgeFlux squareModel.network squareModel.vals 0 1 = 4 := by
    norm_num [edgeFlux, squareModel, pairModel, dynVal, FIREDIFFUSEMODEL_NBVALS_PER_CELL,
      FireDiffuseCell.C]
  have h10 : edgeFlux squareModel.network squareModel.vals 1 0 = 4 := by
    norm_num [edgeFlux, squareModel, pairModel, dynVal, FIREDIFFUSEMODEL_NBVALS_PER_CELL,
      FireDiffuseCell.C]
  refine ⟨rfl, h01, h10, ?_, ?_⟩
  · norm_num [FireDiffuseModel.ComputeFluxes, ComputeFluxes_cell, ComputeFluxes_neighbor,
      edgeFlux, dynVal, squareModel, pairModel, scenarioCell,
      FIREDIFFUSEMODEL_NBVALS_PER_CELL, FireDiffuseCell.C, List.range_succ, List.modify]
  · rw [h01, h10]
    norm_num

/-- C19, amended. When the coupling function of the edge `(i, j)` equals that of the
edge `(j, i)` and is odd (`f (-x) = - f x`), the term that `ComputeFluxes` adds to the
accumulator of cell `i` for its neighbour `j` is the negation of the term it adds to the
accumulator of cell `j` for its neighbour `i`. -/
theorem flux_antisymmetric_for_odd_coupling (m : FireDiffuseModel ℚ) (i j : Nat)
    (hsym : m.network.coupling i j = m.network.coupling j i)
    (hodd : ∀ x, m.network.coupling i j (-x) = - m.network.coupling i j x) :
    edgeFlux m.network m.vals i j = - edgeFlux m.network m.vals j i ∧
    (ComputeFluxes_neighbor i m j).cells =
      m.cells.modify (addTotFlux (edgeFlux m.network m.vals i j)) i ∧
    (ComputeFluxes_neighbor j m i).cells =
      m.cells.modify (addTotFlux (- edgeFlux m.network m.vals i j)) j := by
  have h : edgeFlux m.network m.vals i j = - edgeFlux m.network m.vals j i := by
    simp only [edgeFlux]
    rw [← hsym, ← hodd, neg_sub]
  refine ⟨h, rfl, ?_⟩
  show m.cells.modify (addTotFlux (edgeFlux m.network m.vals j i)) j = _
  rw [h, neg_neg]

/-- Witness of C19 (amended): with the odd coupling `x ↦ 2 x` of `pairModel`, the terms
are 4 and -4. -/
theorem flux_antisymmetric_for_odd_coupling_witness :
    edgeFlux pairModel.network pairModel.vals 0 1 =
      - edgeFlux pairModel.network pairModel.vals 1 0 :=
  (flux_antisymmetric_for_odd_coupling pairModel 0 1 rfl
    (by intro x; simp [pairModel, pairNetwork])).1

theorem fluxSum_perm (net net' : Network ℚ) (vals : List ℚ) (i : Nat)
    (hc : net'.coupling = net.coupling)
    (hp : (net'.GetNeighbors i).Perm (net.GetNeighbors i)) :
    fluxSum net' vals i = fluxSum net vals i := by
  simp only [fluxSum, hc]
  exact (hp.map _).sum_eq

/-- C20. Over exact arithmetic, replacing the neighbour list of every cell by a
permutation of it leaves all the accumulators that `ComputeFluxes` computes as they
are. -/
theorem ComputeFluxes_neighbor_order (m : FireDiffuseModel ℚ) (net' : Network ℚ) (t : ℚ)
    (hsize : net'.size = m.network.size) (hc : net'.coupling = m.network.coupling)
    (hp : ∀ i, (net'.GetNeighbors i).Perm (m.network.GetNeighbors i)) :
    (FireDiffuseModel.ComputeFluxes { m with network := net' } t).cells =
      (FireDiffuseModel.ComputeFluxes m t).cells := by
  rw [ComputeFluxes_eq, ComputeFluxes_eq]
  apply List.ext_getElem?
  intro k
  simp only [getElem?_fluxCells, hsize, fluxSum_perm m.network net' m.vals k hc (hp k)]

/-- Witness of C20: in the triangle of cells holding 3, 1 and 0, listing the neighbours
of cell 0 as `[2, 1]` instead of `[1, 2]` gives the same accumulators. -/
theorem ComputeFluxes_neighbor_order_witness :
    (FireDiffuseModel.ComputeFluxes { triangleModel with network := triangleNetworkSwapped }
        0).cells =
      (FireDiffuseModel.ComputeFluxes triangleModel 0).cells :=
  ComputeFluxes_neighbor_order triangleModel triangleNetworkSwapped 0 rfl rfl
    (by
      intro i
      by_cases h0 : i = 0
      · subst h0
        exact List.Perm.swap 1 2 []
      · simp [triangleNetworkSwapped, triangleModel, h0])

/-! ## Save and load of the KChI model -/

/-- C14, failing input. The example model (base-class block `7`, network-level parameters
1, 2, 0, 3, ..., 14) is saved and the text is loaded: `SaveToStream` writes the block of
the base class first and the 15 parameters after it, `LoadFromStream` extracts the 15
parameters first and hands the rest to the base class.  Both calls return true, and
every loaded parameter holds the item saved one place before its own: `Sij = 7`,
`T = 1`, `GJCComp = 2`, ..., `KBasalPerm = 13`. -/
theorem KChIModel_load_order_differs_from_save_order :
    (exampleKModel.SaveToStream plainChIModelEnv (OStream.fresh 16)).1 = true ∧
    (exampleKModel.SaveToStream plainChIModelEnv (OStream.fresh 16)).2.out =
      (Tok.num 7 :: exampleKModel.netParams.map Tok.num) ∧
    (exampleKModel.LoadFromStream plainChIModelEnv exampleMath 0
      (IStream.ofLines
        (exampleKModel.SaveToStream plainChIModelEnv (OStream.fresh 16)).2.out)).1 = true ∧
    (exampleKModel.LoadFromStream plainChIModelEnv exampleMath 0
      (IStream.ofLines
        (exampleKModel.SaveToStream plainChIModelEnv (OStream.fresh 16)).2.out)).2.1.netParams =
      [7, 1, 2, 0, 3, 4, 5, 6, 7, 8, 9, 10, 11, 12, 13] ∧
    exampleKModel.netParams = [1, 2, 0, 3, 4, 5, 6, 7, 8, 9, 10, 11, 12, 13, 14] := by
  have hs : exampleKModel.SaveToStream plainChIModelEnv (OStream.fresh 16) =
      (true, { out := [Tok.num 7, Tok.num 1, Tok.num 2, Tok.num 0, Tok.num 3, Tok.num 4,
                 Tok.num 5, Tok.num 6, Tok.num 7, Tok.num 8, Tok.num 9, Tok.num 10,
                 Tok.num 11, Tok.num 12, Tok.num 13, Tok.num 14],
               room := 0, badbit := false }) := by
    simp [KChIModel.SaveToStream, plainChIModelEnv, exampleKModel, OStream.fresh,
      OStream.writeDouble, OStream.good]
  have hint : (IStream.ofLines [Tok.num 2, Tok.num 0, Tok.num 3, Tok.num 4, Tok.num 5,
      Tok.num 6, Tok.num 7, Tok.num 8, Tok.num 9, Tok.num 10, Tok.num 11, Tok.num 12,
      Tok.num 13, Tok.num 14]).readInt 0 =
      (2, IStream.ofLines [Tok.num 0, Tok.num 3, Tok.num 4, Tok.num 5,
      Tok.num 6, Tok.num 7, Tok.num 8, Tok.num 9, Tok.num 10, Tok.num 11, Tok.num 12,
      Tok.num 13, Tok.num 14]) := by
    simp [IStream.readInt, IStream.ofLines, IStream.good]
  rw [hs]
  refine ⟨rfl, ?_, ?_, ?_, ?_⟩
  · simp [KChIModel.netParams, exampleKModel]
  · simp only [KChIModel.LoadFromStream, plainChIModelEnv, readDouble_ofLines, hint]
    simp [IStream.ofLines, IStream.good]
  · simp only [KChIModel.LoadFromStream, plainChIModelEnv, readDouble_ofLines, hint]
    simp [KChIModel.netParams, KChIModel.ComputeOtherParameters]
  · simp [KChIModel.netParams, exampleKModel]

/-- C17, failing input. The sink accepts one item, the block of the base class, and then
fails: the base class returns true, none of the 15 parameters is written, the stream is
bad, and `KChIModel::SaveToStream` returns true.  On a sink that fails in the same way
`KChICell::SaveToStream`, which tests `stream.good()` after its insertions, returns
false. -/
theorem KChIModel_SaveToStream_ignores_stream_failure :
    exampleKModel.SaveToStream plainChIModelEnv (OStream.fresh 1) =
      (true, { out := [Tok.num 7], room := 0, badbit := true }) ∧
    (exampleKModel.SaveToStream plainChIModelEnv (OStream.fresh 1)).2.good = false ∧
    (leakCell.SaveToStream plainChICellEnv (OStream.fresh 1)).1 = false := by
  refine ⟨?_, ?_, ?_⟩
  · simp [KChIModel.SaveToStream, plainChIModelEnv, exampleKModel, OStream.fresh,
      OStream.writeDouble, OStream.good]
  · simp [KChIModel.SaveToStream, plainChIModelEnv, exampleKModel, OStream.fresh,
      OStream.writeDouble, OStream.good]
  · simp [KChICell.SaveToStream, plainChICellEnv, leakCell, OStream.fresh,
      OStream.writeDouble, OStream.writeBool, OStream.good]

/-! ## Pending activations: one reset for each scheduled activation -/

theorem armsAt_eq (base : FireDiffuseModel ℚ → ℚ → FireDiffuseModel ℚ)
    (hbase : BaseFrame base) (m : FireDiffuseModel ℚ) (hpre : m.isPreRunning = false)
    (t : ℚ) (i : Nat) (c : FireDiffuseCell ℚ) (hc : m.cells[i]? = some c) :
    armsAt base m t i = decide (c.willActivate = false ∧ dynVal m.vals i 0 ≥ c.thresh ∧
      t - c.refractTime > c.tauRefr) := by
  obtain ⟨g1, g2, g3⟩ := loopState_cell base hbase m t i
  unfold armsAt
  rw [if_pos hpre, g1, hc, g3, dynVal_eq_of_getElem? _ _ _ g2]

theorem resetsAt_eq (base : FireDiffuseModel ℚ → ℚ → FireDiffuseModel ℚ)
    (hbase : BaseFrame base) (m : FireDiffuseModel ℚ) (hpre : m.isPreRunning = false)
    (t : ℚ) (i : Nat) (c : FireDiffuseCell ℚ) (hc : m.cells[i]? = some c) :
    resetsAt base m t i =
      decide ((armCell t (dynVal m.vals i 0) c).willActivate = true ∧
        t - (armCell t (dynVal m.vals i 0) c).actTime >
          (armCell t (dynVal m.vals i 0) c).activDelay) := by
  obtain ⟨_, _, g3⟩ := loopState_cell base hbase m t i
  have ht : (UpdateVals_arm (loopState base m t i) i).tCurr = t := by
    rw [UpdateVals_arm_eq]; exact g3
  unfold resetsAt
  rw [if_pos hpre, arm_loopState_cell base hbase m t i c hc, ht]

theorem pending_step (t q : ℚ) (c : FireDiffuseCell ℚ) :
    (if decide ((armCell t q c).willActivate = true ∧
        t - (armCell t q c).actTime > (armCell t q c).activDelay) = true then 1 else 0) +
      (if (fireCell t (armCell t q c)).willActivate = true then 1 else 0) =
    (if decide (c.willActivate = false ∧ q ≥ c.thresh ∧ t - c.refractTime > c.tauRefr) = true
      then 1 else 0) + (if c.willActivate = true then 1 else 0) := by
  by_cases harm : c.willActivate = false ∧ q ≥ c.thresh ∧ t - c.refractTime > c.tauRefr
  · have ha : armCell t q c = { c with willActivate := true, actTime := t } := by
      simp only [armCell]; rw [if_pos harm]
    rw [ha]
    by_cases hf : (0 : ℚ) > c.activDelay
    · simp [fireCell, harm, hf]
    · simp [fireCell, harm, hf]
  · have ha : armCell t q c = c := by
      simp only [armCell]; rw [if_neg harm]
    rw [ha]
    by_cases hf : c.willActivate = true ∧ t - c.actTime > c.activDelay
    · have hw := hf.1
      simp [fireCell, hf, hw]
    · rw [fireCell_of_not _ _ hf]
      simp [harm, hf]

theorem count_balance (base : FireDiffuseModel ℚ → ℚ → FireDiffuseModel ℚ)
    (hbase : BaseFrame base) (i : Nat) (actions : List SolverAction) :
    ∀ m : FireDiffuseModel ℚ, (∃ c, m.cells[i]? = some c) →
      resetCount base i m actions + pendingAt (runSolver base m actions) i =
        armCount base i m actions + pendingAt m i := by
  induction actions with
  | nil =>
    intro m _
    simp [resetCount, armCount, runSolver]
  | cons a actions ih =>
    intro m hex
    obtain ⟨c, hc⟩ := hex
    have hrun : runSolver base m (a :: actions) =
        runSolver base (applyAction base m a) actions := rfl
    rw [hrun]
    cases a with
    | eval t v f =>
      obtain ⟨x, hx⟩ := CompFunc_cell_state m t v f i c hc
      have hx' : (applyAction base m (SolverAction.eval t v f)).cells[i]? =
          some (setTotFlux x c) := hx
      have h := ih (applyAction base m (SolverAction.eval t v f)) ⟨_, hx'⟩
      have hp : pendingAt (applyAction base m (SolverAction.eval t v f)) i = pendingAt m i := by
        simp [pendingAt, hx', hc, setTotFlux]
      simp only [resetCount, armCount]
      rw [h, hp]
    | write vals =>
      have hx' : (applyAction base m (SolverAction.write vals)).cells[i]? = some c := hc
      have h := ih (applyAction base m (SolverAction.write vals)) ⟨_, hx'⟩
      have hp : pendingAt (applyAction base m (SolverAction.write vals)) i = pendingAt m i := by
        simp [pendingAt, hx', hc]
      simp only [resetCount, armCount]
      rw [h, hp]
    | update t =>
      by_cases hpre : m.isPreRunning = false
      · have hcell := (UpdateVals_cell_state base hbase m t hpre i c hc).1
        have hx' : (applyAction base m (SolverAction.update t)).cells[i]? =
            some (fireCell t (armCell t (dynVal m.vals i 0) c)) := hcell
        have h := ih (applyAction base m (SolverAction.update t)) ⟨_, hx'⟩
        have hstep := pending_step t (dynVal m.vals i 0) c
        have hp1 : pendingAt (applyAction base m (SolverAction.update t)) i =
            (if (fireCell t (armCell t (dynVal m.vals i 0) c)).willActivate = true
              then 1 else 0) := by
          simp [pendingAt, hx']
        have hp2 : pendingAt m i = (if c.willActivate = true then 1 else 0) := by
          simp [pendingAt, hc]
        simp only [resetCount, armCount]
        rw [armsAt_eq base hbase m hpre t i c hc, resetsAt_eq base hbase m hpre t i c hc]
        rw [hp1] at h
        rw [hp2]
        omega
      · have hpre' : m.isPreRunning = true := by
          cases hb : m.isPreRunning with
          | true => rfl
          | false => exact absurd hb hpre
        have hup : applyAction base m (SolverAction.update t) = { m with tCurr := t } :=
          UpdateVals_of_preRunning base m hpre' t
        have hx' : (applyAction base m (SolverAction.update t)).cells[i]? = some c := by
          rw [hup]; exact hc
        have h := ih (applyAction base m (SolverAction.update t)) ⟨_, hx'⟩
        have hp : pendingAt (applyAction base m (SolverAction.update t)) i = pendingAt m i := by
          simp [pendingAt, hx', hc]
        have h1 : armsAt base m t i = false := by simp [armsAt, hpre']
        have h2 : resetsAt base m t i = false := by simp [resetsAt, hpre']
        simp only [resetCount, armCount]
        rw [h1, h2]
        rw [hp] at h
        simp only [Bool.false_eq_true, if_false]
        omega
/-- C24. At most one activation is pending for a cell.  For a cell `i` that is scheduled
(`willActivate` true) when `UpdateVals(t)` is called, whatever its quantity is: the call
does not take the arming `if` and leaves `actTime` as it is; if it takes the firing `if`
the quantity is reset to `actQuant`, `refractTime` is `t` and the cell is no longer
scheduled; if it does not, cell and quantity are unchanged.  Over any run of the solver
that starts there, the number of resets plus the number of activations still pending at
the end (0 or 1) equals the number of armings plus one, the activation pending at the
start: each scheduled activation is matched by exactly one reset, or is still pending. -/
theorem one_pending_activation (base : FireDiffuseModel ℚ → ℚ → FireDiffuseModel ℚ)
    (hbase : BaseFrame base) (m : FireDiffuseModel ℚ) (i : Nat) (c : FireDiffuseCell ℚ)
    (hc : m.cells[i]? = some c) (hw : c.willActivate = true) :
    (∀ t : ℚ, armsAt base m t i = false ∧
      ∃ c2 : FireDiffuseCell ℚ,
        (FireDiffuseModel.UpdateVals base m t).cells[i]? = some c2 ∧ c2.actTime = c.actTime) ∧
    (∀ t : ℚ, resetsAt base m t i = true →
      (FireDiffuseModel.UpdateVals base m t).cells[i]? =
        some { c with refractTime := t, willActivate := false } ∧
      (FireDiffuseModel.UpdateVals base m t).vals[i]? =
        (m.vals[i]?).map (fun _ => c.actQuant)) ∧
    (∀ t : ℚ, resetsAt base m t i = false →
      (FireDiffuseModel.UpdateVals base m t).cells[i]? = some c ∧
      (FireDiffuseModel.UpdateVals base m t).vals[i]? = m.vals[i]?) ∧
    (∀ actions : List SolverAction,
      resetCount base i m actions + pendingAt (runSolver base m actions) i =
        armCount base i m actions + 1) := by
  have hpend : pendingAt m i = 1 := by simp [pendingAt, hc, hw]
  refine ⟨?_, ?_, ?_, ?_⟩
  · intro t
    by_cases hpre : m.isPreRunning = false
    · have hcell := (UpdateVals_cell_state base hbase m t hpre i c hc).1
      rw [armCell_of_scheduled _ _ _ hw] at hcell
      refine ⟨?_, fireCell t c, hcell, ?_⟩
      · rw [armsAt_eq base hbase m hpre t i c hc]
        simp [hw]
      · unfold fireCell
        split <;> rfl
    · have hpre2 : m.isPreRunning = true := by
        cases hb : m.isPreRunning with
        | true => rfl
        | false => exact absurd hb hpre
      refine ⟨by simp [armsAt, hpre2], c, ?_, rfl⟩
      rw [UpdateVals_of_preRunning base m hpre2 t]
      exact hc
  · intro t hr
    have hpre : m.isPreRunning = false := by
      cases hb : m.isPreRunning with
      | false => rfl
      | true => simp [resetsAt, hb] at hr
    obtain ⟨hcell, hval⟩ := UpdateVals_cell_state base hbase m t hpre i c hc
    rw [resetsAt_eq base hbase m hpre t i c hc] at hr
    rw [armCell_of_scheduled _ _ _ hw] at hr hcell hval
    have hcond : c.willActivate = true ∧ t - c.actTime > c.activDelay := by simpa using hr
    rw [hcell, hval]
    constructor
    · simp only [fireCell]
      rw [if_pos hcond]
    · congr 1
      funext q
      simp only [fireVal]
      rw [if_pos hcond]
  · intro t hr
    by_cases hpre : m.isPreRunning = false
    · obtain ⟨hcell, hval⟩ := UpdateVals_cell_state base hbase m t hpre i c hc
      rw [resetsAt_eq base hbase m hpre t i c hc] at hr
      rw [armCell_of_scheduled _ _ _ hw] at hr hcell hval
      have hcond : ¬ (c.willActivate = true ∧ t - c.actTime > c.activDelay) := by
        simpa using hr
      rw [hcell, hval, fireCell_of_not _ _ hcond]
      exact ⟨rfl, map_id_of _ _ (fun b => fireVal_of_not _ _ _ hcond)⟩
    · have hpre2 : m.isPreRunning = true := by
        cases hb : m.isPreRunning with
        | true => rfl
        | false => exact absurd hb hpre
      rw [UpdateVals_of_preRunning base m hpre2 t]
      exact ⟨hc, rfl⟩
  · intro actions
    rw [count_balance base hbase i actions m ⟨c, hc⟩, hpend]

/-- Witness of C24: a cell scheduled at time 0 with a delay of 5, then updates at times
3 and 6 (the second one resets it) and an update at time 7. -/
theorem one_pending_activation_witness :
    resetCount idBase 0
        { soloModel 5 with cells := [{ scenarioCell with willActivate := true }] }
        [SolverAction.update 3, SolverAction.update 6, SolverAction.update 7] +
      pendingAt (runSolver idBase
        { soloModel 5 with cells := [{ scenarioCell with willActivate := true }] }
        [SolverAction.update 3, SolverAction.update 6, SolverAction.update 7]) 0 =
    armCount idBase 0
        { soloModel 5 with cells := [{ scenarioCell with willActivate := true }] }
        [SolverAction.update 3, SolverAction.update 6, SolverAction.update 7] + 1 :=
  (one_pending_activation idBase idBase_frame
    { soloModel 5 with cells := [{ scenarioCell with willActivate := true }] } 0
    { scenarioCell with willActivate := true } rfl rfl).2.2.2 _

/-- C25. For `activDelay >= 0`, a cell is not armed and fired by the same call.  Outside
pre-running, let cell `i` be not scheduled, with a quantity `q >= thresh` and
`t - refractTime > tauRefr` when `UpdateVals(t)` is called.  The call takes the arming
`if` and not the firing `if`: when it returns the cell is scheduled with `actTime = t`,
its other fields (among them `refractTime`) and its quantity are as they were.  The
update that resets a cell scheduled with `actTime = t` has a time strictly after `t`. -/
theorem armed_not_fired_by_same_call (base : FireDiffuseModel ℚ → ℚ → FireDiffuseModel ℚ)
    (hbase : BaseFrame base) (m : FireDiffuseModel ℚ) (t : ℚ)
    (hpre : m.isPreRunning = false) (i : Nat) (c : FireDiffuseCell ℚ)
    (hc : m.cells[i]? = some c) (q : ℚ) (hq : m.vals[i]? = some q)
    (hdelay : 0 ≤ c.activDelay) (hnot : c.willActivate = false) (hthr : q ≥ c.thresh)
    (href : t - c.refractTime > c.tauRefr) :
    armsAt base m t i = true ∧ resetsAt base m t i = false ∧
    (FireDiffuseModel.UpdateVals base m t).cells[i]? =
      some { c with willActivate := true, actTime := t } ∧
    (FireDiffuseModel.UpdateVals base m t).vals[i]? = some q ∧
    ∀ (m2 : FireDiffuseModel ℚ) (c2 : FireDiffuseCell ℚ) (t2 : ℚ),
      m2.cells[i]? = some c2 → c2.willActivate = true → c2.actTime = t →
      c2.activDelay = c.activDelay → resetsAt base m2 t2 i = true → t < t2 := by
  have hd : dynVal m.vals i 0 = q := by
    simp [dynVal, FIREDIFFUSEMODEL_NBVALS_PER_CELL, List.getD, hq]
  have harm : c.willActivate = false ∧ dynVal m.vals i 0 ≥ c.thresh ∧
      t - c.refractTime > c.tauRefr := by
    rw [hd]; exact ⟨hnot, hthr, href⟩
  have ha : armCell t (dynVal m.vals i 0) c = { c with willActivate := true, actTime := t } := by
    simp only [armCell]; rw [if_pos harm]
  have hno : ¬ (({ c with willActivate := true, actTime := t } :
      FireDiffuseCell ℚ).willActivate = true ∧
      t - ({ c with willActivate := true, actTime := t } : FireDiffuseCell ℚ).actTime >
      ({ c with willActivate := true, actTime := t } : FireDiffuseCell ℚ).activDelay) := by
    simp only [sub_self, gt_iff_lt, not_and, not_lt]
    intro _
    exact hdelay
  obtain ⟨hcell, hval⟩ := UpdateVals_cell_state base hbase m t hpre i c hc
  refine ⟨?_, ?_, ?_, ?_, ?_⟩
  · rw [armsAt_eq base hbase m hpre t i c hc]
    exact decide_eq_true harm
  · rw [resetsAt_eq base hbase m hpre t i c hc, ha]
    exact decide_eq_false hno
  · rw [hcell, ha, fireCell_of_not _ _ hno]
  · rw [hval, ha, hq]
    simp only [Option.map_some']
    rw [fireVal_of_not _ _ _ hno]
  · intro m2 c2 t2 hc2 hw2 hact hdel hr
    have hpre2 : m2.isPreRunning = false := by
      cases hb : m2.isPreRunning with
      | false => rfl
      | true => simp [resetsAt, hb] at hr
    rw [resetsAt_eq base hbase m2 hpre2 t2 i c2 hc2, armCell_of_scheduled _ _ _ hw2] at hr
    have hcond : c2.willActivate = true ∧ t2 - c2.actTime > c2.activDelay := by simpa using hr
    have h2 := hcond.2
    rw [hact, hdel] at h2
    linarith

/-- Witness of C25: the never-fired cell of the scenario, holding 5 (threshold 4, delay
5), is armed by the update at time 0 and keeps its quantity. -/
theorem armed_not_fired_by_same_call_witness :
    (FireDiffuseModel.UpdateVals idBase (soloModel 5) 0).cells[0]? =
      some { scenarioCell with willActivate := true, actTime := 0 } ∧
    (FireDiffuseModel.UpdateVals idBase (soloModel 5) 0).vals[0]? = some (5 : ℚ) :=
  have h := armed_not_fired_by_same_call idBase idBase_frame (soloModel 5) 0 rfl 0
    scenarioCell rfl 5 rfl (by norm_num [scenarioCell]) rfl (by norm_num [scenarioCell])
    (by norm_num [scenarioCell])
  ⟨h.2.2.1, h.2.2.2.1⟩

/-! ## Constructors of the cell -/

/-- C26. A cell made by the default constructor or by the copy constructor holds the
class-wide defaults: `thresh`, `actQuant`, `tauRefr`, `degrad` and `activDelay` are the
current default values, `totFlux` is 0, `willActivate` is false, `actTime` is 0,
`refractTime` is `-999999` and the quantity `dynVals[0]` is `DefaultC`, whatever the
fields of the copied cell are (the array that `dynVals` names has at least one value). -/
theorem constructors_give_defaults (d : CellDefaults ℚ) :
    (∀ (_dv : Option (List ℚ)) (_fv : Bool) (fresh : ℚ), _dv ≠ some [] →
      (FireDiffuseCell.DefaultConstructor d _dv _fv fresh).1 =
        { thresh := d.DefaultThresh
          actQuant := d.DefaultActQuant
          tauRefr := d.DefaultTauRefr
          degrad := d.DefaultDegrad
          activDelay := d.DefaultActivDelay
          refractTime := -999999
          willActivate := false
          actTime := 0
          totFlux := 0 } ∧
      (FireDiffuseCell.DefaultConstructor d _dv _fv fresh).2.dynVals[0]? = some d.DefaultC) ∧
    (∀ (c : FireDiffuseCell ℚ) (cv : DynValsView), cv.dynVals ≠ [] → 0 < cv.nbDynVals →
      (FireDiffuseCell.CopyConstructor d c cv).1 =
        { thresh := d.DefaultThresh
          actQuant := d.DefaultActQuant
          tauRefr := d.DefaultTauRefr
          degrad := d.DefaultDegrad
          activDelay := d.DefaultActivDelay
          refractTime := -999999
          willActivate := false
          actTime := 0
          totFlux := 0 } ∧
      (FireDiffuseCell.CopyConstructor d c cv).2.dynVals[0]? = some d.DefaultC) := by
  constructor
  · intro _dv _fv fresh hdv
    refine ⟨rfl, ?_⟩
    cases _dv with
    | none =>
      simp [FireDiffuseCell.DefaultConstructor, FireDiffuseCell.Initialize,
        FIREDIFFUSEMODEL_NBVALS_PER_CELL]
    | some a =>
      cases a with
      | nil => exact absurd rfl hdv
      | cons x xs =>
        simp [FireDiffuseCell.DefaultConstructor, FireDiffuseCell.Initialize]
  · intro c cv hne hnb
    refine ⟨rfl, ?_⟩
    obtain ⟨dv, fv, nb⟩ := cv
    cases dv with
    | nil => exact absurd rfl hne
    | cons x xs =>
      cases fv with
      | false =>
        simp [FireDiffuseCell.CopyConstructor, FireDiffuseCell.Initialize]
      | true =>
        obtain ⟨k, rfl⟩ : ∃ k, nb = k + 1 := ⟨nb - 1, by simp at hnb; omega⟩
        simp [FireDiffuseCell.CopyConstructor, FireDiffuseCell.Initialize,
          List.range_succ_eq_map]

/-- Witness of C26: the copy of a scheduled cell with parameters of its own, which shares
the array holding its quantity 9, is a default cell with the quantity `DefaultC = 0`. -/
theorem constructors_give_defaults_witness :
    (FireDiffuseCell.CopyConstructor scenarioDefaults oddCell
      { dynVals := [9], freeDynVals := false, nbDynVals := 1 }).1 = scenarioCell ∧
    (FireDiffuseCell.CopyConstructor scenarioDefaults oddCell
      { dynVals := [9], freeDynVals := false, nbDynVals := 1 }).2.dynVals[0]? =
        some (0 : ℚ) :=
  (constructors_give_defaults scenarioDefaults).2 oddCell
    { dynVals := [9], freeDynVals := false, nbDynVals := 1 } (by simp) (by decide)

/-! ## Side effects of the derivative functions -/

/-- C22, failing input. `KChICellFunct::CompFunc` is not free of side effects on its
cell: for every cell and every input it leaves the cell with `gluIP3Prod = 0` (the other
fields are kept).  A cell whose exogenous input term is 1 before the call, as a
stimulation may leave it, has the term 0 after the call, and the slot `f[2]` does not
take the input into account: it is the same for the inputs 1 and 0. -/
theorem KChICellFunct_CompFunc_clears_gluIP3Prod :
    (∀ (E : MathEnv) (model : KChIModel) (cell : KChICell) (t : ℚ) (v : List ℚ) (vOff : Nat)
        (f : List ℚ) (fOff : Nat),
      (KChICellFunct.CompFunc E model cell t v vOff f fOff).1 =
        { cell with gluIP3Prod := 0 }) ∧
    stimulatedKCell.gluIP3Prod = 1 ∧
    (KChICellFunct.CompFunc exampleMath exampleKModel stimulatedKCell 0
      [1, 1, 1, 3, 100, -1, 1, 1 / 2, 0] 0 [0, 0, 0, 0, 0, 0, 0, 0, 0] 0).1.gluIP3Prod = 0 ∧
    (KChICellFunct.CompFunc exampleMath exampleKModel stimulatedKCell 0
      [1, 1, 1, 3, 100, -1, 1, 1 / 2, 0] 0 [0, 0, 0, 0, 0, 0, 0, 0, 0] 0).1 ≠
        stimulatedKCell ∧
    (KChICellFunct.CompFunc exampleMath exampleKModel stimulatedKCell 0
      [1, 1, 1, 3, 100, -1, 1, 1 / 2, 0] 0 [0, 0, 0, 0, 0, 0, 0, 0, 0] 0).2 =
    (KChICellFunct.CompFunc exampleMath exampleKModel leakCell 0
      [1, 1, 1, 3, 100, -1, 1, 1 / 2, 0] 0 [0, 0, 0, 0, 0, 0, 0, 0, 0] 0).2 := by
  have hall : ∀ (E : MathEnv) (model : KChIModel) (cell : KChICell) (t : ℚ) (v : List ℚ)
      (vOff : Nat) (f : List ℚ) (fOff : Nat),
      (KChICellFunct.CompFunc E model cell t v vOff f fOff).1 =
        { cell with gluIP3Prod := 0 } := fun _ _ _ _ _ _ _ _ => rfl
  refine ⟨hall, rfl, ?_, ?_, ?_⟩
  · rw [hall]
  · rw [hall]
    intro h
    have h2 := congrArg (fun c : KChICell => c.gluIP3Prod) h
    simp [stimulatedKCell] at h2
  · rfl

/-! ## Accesses to the cells from the topology -/

/-- C23, counterexample. The indices taken from the topology are not checked.  With one
allocated cell, a topology whose only node lists the neighbour 5 makes both
`FireDiffuseModel::ComputeFluxes` and `KChIModel::ComputeFluxes` evaluate `cells[5]`, and
a topology of three nodes makes them evaluate `cells[2]`. -/
theorem ComputeFluxes_accesses_out_of_range :
    ({ soloModel 5 with network := strayNetwork } : FireDiffuseModel ℚ).cells.length = 1 ∧
    5 ∈ FireDiffuseModel.ComputeFluxes_accesses
      ({ soloModel 5 with network := strayNetwork } : FireDiffuseModel ℚ).network ∧
    2 ∈ FireDiffuseModel.ComputeFluxes_accesses
      ({ soloModel 5 with network := wideNetwork } : FireDiffuseModel ℚ).network ∧
    ({ model := exampleKModel, cells := [leakCell], vals := [1, 1, 1, 3, 100, -1, 1, 1 / 2, 0],
       network := strayNetwork } : KChIModelState).cells.length = 1 ∧
    5 ∈ KChIModel.ComputeFluxes_accesses exampleKModel strayNetwork
      (KChIModel.expBranch exampleKModel [1, 1, 1, 3, 100, -1, 1, 1 / 2, 0]) ∧
    2 ∈ KChIModel.ComputeFluxes_accesses exampleKModel wideNetwork
      (KChIModel.expBranch exampleKModel [1, 1, 1, 3, 100, -1, 1, 1 / 2, 0]) := by
  refine ⟨rfl, ?_, ?_, rfl, ?_, ?_⟩
  · simp [FireDiffuseModel.ComputeFluxes_accesses, strayNetwork, List.range_succ]
  · simp [FireDiffuseModel.ComputeFluxes_accesses, wideNetwork, List.range_succ]
  · simp [KChIModel.ComputeFluxes_accesses, strayNetwork, List.range_succ]
  · simp [KChIModel.ComputeFluxes_accesses, wideNetwork, List.range_succ]

/-- C23, amended. For a topology that has at most as many nodes as there are allocated
cells and whose neighbour lists name allocated cells only, every `cells[k]` that
`FireDiffuseModel::ComputeFluxes` and `KChIModel::ComputeFluxes` evaluate has
`k < cells.size()`. -/
theorem ComputeFluxes_accesses_in_range (m : FireDiffuseModel ℚ) (s : KChIModelState)
    (hm : m.network.size ≤ m.cells.length)
    (hmn : ∀ i, i < m.network.size → ∀ nb ∈ m.network.GetNeighbors i, nb < m.cells.length)
    (hs : s.network.size ≤ s.cells.length)
    (hsn : ∀ i, i < s.network.size → ∀ nb ∈ s.network.GetNeighbors i, nb < s.cells.length) :
    (∀ k ∈ FireDiffuseModel.ComputeFluxes_accesses m.network, k < m.cells.length) ∧
    (∀ k ∈ KChIModel.ComputeFluxes_accesses s.model s.network
        (KChIModel.expBranch s.model s.vals), k < s.cells.length) := by
  constructor
  · intro k hk
    simp only [FireDiffuseModel.ComputeFluxes_accesses, List.mem_flatMap, List.mem_range,
      List.mem_cons] at hk
    obtain ⟨i, hi, hk⟩ := hk
    have hi2 : i < m.cells.length := lt_of_lt_of_le hi hm
    rcases hk with rfl | ⟨nb, hnb, hk⟩
    · exact hi2
    · have hnb2 := hmn i hi nb hnb
      simp only [List.mem_cons, List.mem_singleton, List.not_mem_nil, or_false] at hk
      rcases hk with rfl | rfl | rfl
      · exact hi2
      · exact hi2
      · exact hnb2
  · intro k hk
    simp only [KChIModel.ComputeFluxes_accesses, List.mem_flatMap, List.mem_range,
      List.mem_append] at hk
    obtain ⟨i, hi, hk⟩ := hk
    have hi2 : i < s.cells.length := lt_of_lt_of_le hi hs
    have hin : ∀ nb, nb < s.cells.length → ∀ l : List Nat, (∀ x ∈ l, x = i ∨ x = nb) →
        k ∈ l → k < s.cells.length := by
      intro nb hnb l hl hkl
      rcases hl k hkl with rfl | rfl
      · exact hi2
      · exact hnb
    rcases hk with hk | ⟨nb, hnb, hk⟩
    · exact hin i hi2 [i, i, i] (by simp) hk
    · have hnb2 := hsn i hi nb hnb
      rcases hk with ((hk | hk) | hk) | hk
      · split at hk
        · exact hin nb hnb2 _ (by simp) hk
        · split at hk
          · exact hin nb hnb2 _ (by simp) hk
          · simp at hk
      · exact hin nb hnb2 _ (by simp) hk
      · exact hin nb hnb2 _ (by simp) hk
      · split at hk
        · exact hin nb hnb2 _ (by simp) hk
        · exact hin nb hnb2 _ (by simp) hk

/-- Witness of C23, amended: the two coupled cells of the pair model and a KChI model of
one isolated cell. -/
theorem ComputeFluxes_accesses_in_range_witness :
    (∀ k ∈ FireDiffuseModel.ComputeFluxes_accesses pairModel.network,
      k < pairModel.cells.length) ∧
    (∀ k ∈ KChIModel.ComputeFluxes_accesses exampleKModel soloNetwork
        (KChIModel.expBranch exampleKModel [1, 1, 1, 3, 100, -1, 1, 1 / 2, 0]), k < 1) :=
  ComputeFluxes_accesses_in_range pairModel
    { model := exampleKModel, cells := [leakCell], vals := [1, 1, 1, 3, 100, -1, 1, 1 / 2, 0],
      network := soloNetwork }
    pairModel_wellFormed.1.le pairModel_wellFormed.2.2
    (by decide) (by intro i _ nb hnb; simp [soloNetwork] at hnb)

/-! ## Symmetries of the gap-junction fluxes of the KChI model -/

/-- C27. In `KChIModel::ComputeFluxes` the permeability computed for `(i, j)` is the one
computed for `(j, i)` (in the modes `SimpleEq` and `DoubleEq`, and in the default mode
too), the test that selects the exponential branch of the potassium flux gives the same
answer for `(i, j)` and `(j, i)`, and in the linear branch the term added to `KFluxIn` of
cell `i` for `j` is the negation of the term added to `KFluxIn` of cell `j` for `i`. -/
theorem KChI_flux_symmetry (E : MathEnv) (p : KChIModel) (vals : List ℚ) (i j : Nat) :
    KChIModel.perm p vals i j = KChIModel.perm p vals j i ∧
    KChIModel.expBranch p vals i j = KChIModel.expBranch p vals j i ∧
    (KChIModel.expBranch p vals i j = false →
      KChIModel.KFluxTerm E p vals i j = - KChIModel.KFluxTerm E p vals j i) ∧
    (∀ (s : KChIModelState) (c : KChICell), s.model = p → s.vals = vals →
      s.cells[i]? = some c →
      (KChIModel.ComputeFluxes_neighbor E i s j).cells[i]? =
        some { c with
               totFlux := c.totFlux + KChIModel.IP3FluxTerm s c i j
               KFluxIn := c.KFluxIn + KChIModel.KFluxTerm E p vals i j }) := by
  have hperm : KChIModel.perm p vals i j = KChIModel.perm p vals j i := by
    unfold KChIModel.perm
    rw [min_comm (kDynVal vals i KChICell.Gp) (kDynVal vals j KChICell.Gp),
      min_comm (kDynVal vals i KChICell.Gp * (p.alphaP - 1) +
        kDynVal vals i KChICell.Gm * (p.alphaM - 1))]
  have hbr : KChIModel.expBranch p vals i j = KChIModel.expBranch p vals j i := by
    unfold KChIModel.expBranch
    rw [abs_sub_comm]
  refine ⟨hperm, hbr, ?_, ?_⟩
  · intro h
    have h2 : KChIModel.expBranch p vals j i = false := by rw [← hbr]; exact h
    unfold KChIModel.KFluxTerm
    rw [h, h2, hperm]
    simp only [Bool.false_eq_true, if_false]
    ring
  · intro s c hp hv hc
    subst hp hv
    simp [KChIModel.ComputeFluxes_neighbor, List.getElem?_modify, hc]

/-- Witness of C27: two cells whose potentials differ by 2, below the threshold 3: the
linear branch is taken and the two potassium terms are opposite. -/
theorem KChI_flux_symmetry_witness :
    KChIModel.KFluxTerm exampleMath exampleKModel twoKCellVals 0 1 =
      - KChIModel.KFluxTerm exampleMath exampleKModel twoKCellVals 1 0 :=
  (KChI_flux_symmetry exampleMath exampleKModel twoKCellVals 0 1).2.2.1
    (by norm_num [KChIModel.expBranch, kDynVal, twoKCellVals, exampleKModel, KChICell.Vm,
      KCHIMODEL_NBVALS_PER_CELL, abs_le])

/-! ## Buffer layout of the KChI model -/

theorem Ptr_add_ne_null (p : Ptr) (k : Nat) (h : p ≠ Ptr.null) : p.add k ≠ Ptr.null := by
  intro hk
  apply h
  obtain ⟨b, o⟩ := p
  simp only [Ptr.add, Ptr.null, Ptr.mk.injEq] at hk ⊢
  omega

theorem Constructor_of_ne_null (newCell : KChICell) (p fresh : Ptr) (fv : Bool)
    (h : p ≠ Ptr.null) :
    KChICell.Constructor newCell p fv fresh =
      { cell := newCell, dynVals := p, freeDynVals := fv } := by
  unfold KChICell.Constructor
  rw [if_neg h]

theorem uint_offset (i n : Nat) (hi : i < n) (hn : 9 * n < UINT_RANGE) :
    i * KCHIMODEL_NBVALS_PER_CELL % UINT_RANGE = 9 * i := by
  have h : i * KCHIMODEL_NBVALS_PER_CELL < UINT_RANGE := by
    simp only [KCHIMODEL_NBVALS_PER_CELL]
    omega
  rw [Nat.mod_eq_of_lt h, KCHIMODEL_NBVALS_PER_CELL, Nat.mul_comm]

theorem uint_total (n : Nat) (hn : 9 * n < UINT_RANGE) :
    n * KCHIMODEL_NBVALS_PER_CELL % UINT_RANGE = 9 * n := by
  have h : n * KCHIMODEL_NBVALS_PER_CELL < UINT_RANGE := by
    simp only [KCHIMODEL_NBVALS_PER_CELL]
    omega
  rw [Nat.mod_eq_of_lt h, KCHIMODEL_NBVALS_PER_CELL, Nat.mul_comm]

theorem SetVals_layout (env : ODEProblemEnv)
    (hinit : ∀ o, (env.UseCurrentValsAsInitVals o).vals = o.vals)
    (s : KChIModelMem) (p : Ptr) (k : Nat) (hb : 9 * s.cells.length < UINT_RANGE) :
    (KChIModel.SetVals env s p k).cells.length = s.cells.length ∧
    (KChIModel.SetVals env s p k).cells.map (fun c => c.cell) = s.cells.map (fun c => c.cell) ∧
    BufferLayout (KChIModel.SetVals env s p k) := by
  refine ⟨?_, ?_, ?_⟩
  · simp [KChIModel.SetVals]
  · apply List.ext_getElem?
    intro i
    simp only [KChIModel.SetVals, List.getElem?_map, List.getElem?_mapIdx]
    cases s.cells[i]? with
    | none => rfl
    | some c => rfl
  · intro i c hc
    simp only [KChIModel.SetVals, List.getElem?_mapIdx] at hc
    simp only [KChIModel.SetVals, hinit]
    cases hs : s.cells[i]? with
    | none => rw [hs] at hc; cases hc
    | some c0 =>
      have hi : i < s.cells.length := lt_length_of_getElem? _ _ _ hs
      rw [hs] at hc
      simp only [Option.map_some', Option.some.injEq] at hc
      subst hc
      simp [KChICellObj.SetDynVals, uint_offset i _ hi hb]

theorem load_loop_layout (cenv : ChICellEnv) (E : MathEnv) (d : KChIDefaults)
    (model : KChIModel) (newCell : KChICell) (fresh : Nat → Ptr) (vals : Ptr)
    (hv : vals ≠ Ptr.null) (st : IStream) (n : Nat) (hn : 9 * n < UINT_RANGE) :
    ((List.range n).foldl
      (LoadFunctAndCellsFromStream_cell cenv E d model newCell fresh vals)
      (true, [], st)).2.1.length = n ∧
    ∀ (i : Nat) (c : KChICellObj),
      ((List.range n).foldl
        (LoadFunctAndCellsFromStream_cell cenv E d model newCell fresh vals)
        (true, [], st)).2.1[i]? = some c →
      c.dynVals = vals.add (9 * i) ∧ c.freeDynVals = false := by
  induction n with
  | zero =>
    refine ⟨rfl, ?_⟩
    intro i c hc
    simp at hc
  | succ n ih =>
    rw [List.range_succ, List.foldl_append]
    simp only [List.foldl_cons, List.foldl_nil]
    have ih2 := ih (by omega)
    generalize (List.range n).foldl
      (LoadFunctAndCellsFromStream_cell cenv E d model newCell fresh vals)
      (true, [], st) = acc at ih2
    obtain ⟨hlen, hall⟩ := ih2
    have hoff := uint_offset n (n + 1) (Nat.lt_succ_self n) hn
    have hcons := Constructor_of_ne_null newCell (vals.add (9 * n))
      (fresh n) false (Ptr_add_ne_null vals _ hv)
    refine ⟨?_, ?_⟩
    · simp [LoadFunctAndCellsFromStream_cell, hlen]
    · intro i c hc
      simp only [LoadFunctAndCellsFromStream_cell, hoff, hcons] at hc
      by_cases hi : i < n
      · rw [List.getElem?_append_left (by rw [hlen]; exact hi)] at hc
        exact hall i c hc
      · rw [List.getElem?_append_right (by rw [hlen]; omega), hlen] at hc
        have hin : i = n := by
          by_contra hne
          have : i - n ≠ 0 := by omega
          obtain ⟨k, hk⟩ := Nat.exists_eq_succ_of_ne_zero this
          rw [hk] at hc
          simp at hc
        subst hin
        simp only [Nat.sub_self, List.getElem?_cons_zero, Option.some.injEq] at hc
        subst hc
        exact ⟨rfl, rfl⟩

/-- C21. Buffer layout of `KChIModel`, for a number of cells `n` whose values fit the
type `unsigned int` of the code, `9 * n < 2 ^ 32` (beyond it the products
`nbCells * 9` and `i * 9` wrap and the buffer asked from `AllocateMemory` is smaller than
the slices of the cells), and for an `ODEProblem` whose `UseCurrentValsAsInitVals` keeps
the pointer `vals` and whose `AllocateMemory(n)` returns a buffer that is not null when
`n > 0`.  After `SetUpCellsAndODEs(n)` the model has `n` cells; after `SetVals` it has the
same cells in the same order; after `LoadFunctAndCellsFromStream` it has as many cells as
the count read from the stream.  After each of the three, `GetTotNbDynVals()` is 9 times
the number of cells, and cell `i` points at offset `9 * i` of the current buffer of the
model with `freeDynVals` false. -/
theorem KChIModel_buffer_layout (env : ODEProblemEnv) (cenv : ChICellEnv) (E : MathEnv)
    (d : KChIDefaults) (model : KChIModel) (newCell : KChICell) (fresh : Nat → Ptr)
    (hinit : ∀ o, (env.UseCurrentValsAsInitVals o).vals = o.vals)
    (halloc : ∀ o n, 0 < n → (env.AllocateMemory o n).vals ≠ Ptr.null) :
    (∀ (s : KChIModelMem) (n : Nat), 9 * n < UINT_RANGE →
      (KChIModel.SetUpCellsAndODEs env newCell fresh s n).cells.length = n ∧
      KChIModel.GetTotNbDynVals (KChIModel.SetUpCellsAndODEs env newCell fresh s n) = 9 * n ∧
      BufferLayout (KChIModel.SetUpCellsAndODEs env newCell fresh s n)) ∧
    (∀ (s : KChIModelMem) (p : Ptr) (k : Nat), 9 * s.cells.length < UINT_RANGE →
      (KChIModel.SetVals env s p k).cells.map (fun c => c.cell) =
        s.cells.map (fun c => c.cell) ∧
      KChIModel.GetTotNbDynVals (KChIModel.SetVals env s p k) = 9 * s.cells.length ∧
      BufferLayout (KChIModel.SetVals env s p k)) ∧
    (∀ (nbCells0 : Nat) (s : KChIModelMem) (stream : IStream),
      9 * (stream.readUInt nbCells0).1 < UINT_RANGE →
      (KChIModel.LoadFunctAndCellsFromStream env cenv E d model newCell fresh nbCells0 s
        stream).2.1.cells.length = (stream.readUInt nbCells0).1 ∧
      KChIModel.GetTotNbDynVals (KChIModel.LoadFunctAndCellsFromStream env cenv E d model
        newCell fresh nbCells0 s stream).2.1 = 9 * (stream.readUInt nbCells0).1 ∧
      BufferLayout (KChIModel.LoadFunctAndCellsFromStream env cenv E d model newCell fresh
        nbCells0 s stream).2.1) := by
  refine ⟨?_, ?_, ?_⟩
  · intro s n hn
    have hlen0 : ((List.range n).map
        (fun i => KChICell.Constructor newCell
          ((env.AllocateMemory s.ode (n * KCHIMODEL_NBVALS_PER_CELL % UINT_RANGE)).vals.add
            (i * KCHIMODEL_NBVALS_PER_CELL % UINT_RANGE)) false (fresh i))).length = n := by
      simp
    have h := SetVals_layout env hinit
      { ode := env.AllocateMemory s.ode (n * KCHIMODEL_NBVALS_PER_CELL % UINT_RANGE)
        cells := (List.range n).map
          (fun i => KChICell.Constructor newCell
            ((env.AllocateMemory s.ode (n * KCHIMODEL_NBVALS_PER_CELL % UINT_RANGE)).vals.add
              (i * KCHIMODEL_NBVALS_PER_CELL % UINT_RANGE)) false (fresh i)) } Ptr.null 0
      (by rw [hlen0]; exact hn)
    have hlen : (KChIModel.SetUpCellsAndODEs env newCell fresh s n).cells.length = n := by
      have h1 := h.1
      rw [hlen0] at h1
      exact h1
    refine ⟨hlen, ?_, h.2.2⟩
    unfold KChIModel.GetTotNbDynVals
    rw [hlen, uint_total n hn]
  · intro s p k hb
    have h := SetVals_layout env hinit s p k hb
    refine ⟨h.2.1, ?_, h.2.2⟩
    unfold KChIModel.GetTotNbDynVals
    rw [h.1, uint_total _ hb]
  · intro nbCells0 s stream hb
    by_cases hn : (stream.readUInt nbCells0).1 = 0
    · have hlen : (KChIModel.LoadFunctAndCellsFromStream env cenv E d model newCell fresh
          nbCells0 s stream).2.1.cells = [] := by
        simp [KChIModel.LoadFunctAndCellsFromStream, hn]
      refine ⟨by rw [hlen, hn]; rfl, ?_, ?_⟩
      · unfold KChIModel.GetTotNbDynVals
        rw [hlen, hn]; rfl
      · intro i c hc
        rw [hlen] at hc
        simp at hc
    · have hpos : 0 < (stream.readUInt nbCells0).1 * KCHIMODEL_NBVALS_PER_CELL % UINT_RANGE := by
        rw [uint_total _ hb]
        have : 0 < (stream.readUInt nbCells0).1 := Nat.pos_of_ne_zero hn
        omega
      have h := load_loop_layout cenv E d model newCell fresh
        (env.AllocateMemory s.ode
          ((stream.readUInt nbCells0).1 * KCHIMODEL_NBVALS_PER_CELL % UINT_RANGE)).vals
        (halloc _ _ hpos) (stream.readUInt nbCells0).2 (stream.readUInt nbCells0).1 hb
      refine ⟨h.1, ?_, h.2⟩
      unfold KChIModel.GetTotNbDynVals
      have h1 := h.1
      simp only [KChIModel.LoadFunctAndCellsFromStream]
      rw [h1, uint_total _ hb]

/-- Witness of C21: two cells set up in an empty model: 18 dynamic values, laid out at
the offsets 0 and 9 of the buffer. -/
theorem KChIModel_buffer_layout_witness :
    (KChIModel.SetUpCellsAndODEs plainODEProblemEnv leakCell
      (fun i => { block := 100 + i, off := 0 }) emptyKChIModelMem 2).cells.length = 2 ∧
    KChIModel.GetTotNbDynVals (KChIModel.SetUpCellsAndODEs plainODEProblemEnv leakCell
      (fun i => { block := 100 + i, off := 0 }) emptyKChIModelMem 2) = 9 * 2 ∧
    BufferLayout (KChIModel.SetUpCellsAndODEs plainODEProblemEnv leakCell
      (fun i => { block := 100 + i, off := 0 }) emptyKChIModelMem 2) :=
  (KChIModel_buffer_layout plainODEProblemEnv plainChICellEnv exampleMath exampleKDefaults
    exampleKModel leakCell (fun i => { block := 100 + i, off := 0 })
    (fun _ => rfl)
    (fun o n _ => by simp [plainODEProblemEnv, Ptr.null])).1 emptyKChIModelMem 2 (by decide)

/-! ## Parsing of a parameter description -/

theorem indexOf_eq (s : QString) (ch : Char) :
    QString.indexOf s ch = if ch ∈ s then ((beforeFirst ch s).length : Int) else -1 := by
  induction s with
  | nil => simp [QString.indexOf]
  | cons x xs ih =>
    by_cases hx : x = ch
    · subst hx
      simp [QString.indexOf, beforeFirst]
    · have hx2 : ¬ ch = x := fun h => hx h.symm
      by_cases hm : ch ∈ xs
      · rw [if_pos hm] at ih
        have h1 : QString.indexOf xs ch ≠ -1 := by rw [ih]; omega
        simp only [QString.indexOf, if_neg hx, if_neg h1, ih]
        simp [beforeFirst, hx, hx2, hm, List.takeWhile_cons]
      · rw [if_neg hm] at ih
        simp [QString.indexOf, hx, hx2, ih, hm]

theorem indexOf_eq_neg_one (s : QString) (ch : Char) :
    QString.indexOf s ch = -1 ↔ ch ∉ s := by
  rw [indexOf_eq]
  by_cases h : ch ∈ s
  · rw [if_pos h]
    constructor
    · intro h1
      omega
    · intro h1
      exact absurd h h1
  · simp [h]

theorem take_drop_first (s : QString) (ch : Char) (h : ch ∈ s) :
    (beforeFirst ch s).length < s.length ∧
    s.take (beforeFirst ch s).length = beforeFirst ch s ∧
    s.drop ((beforeFirst ch s).length + 1) = afterFirst ch s := by
  induction s with
  | nil => simp at h
  | cons x xs ih =>
    by_cases hx : x = ch
    · subst hx
      simp [beforeFirst, afterFirst]
    · have hm : ch ∈ xs := by
        rcases List.mem_cons.mp h with h1 | h1
        · exact absurd h1.symm hx
        · exact h1
      obtain ⟨h1, h2, h3⟩ := ih hm
      have hb : beforeFirst ch (x :: xs) = x :: beforeFirst ch xs := by
        simp [beforeFirst, List.takeWhile_cons, hx]
      have ha : afterFirst ch (x :: xs) = afterFirst ch xs := by
        simp [afterFirst, List.dropWhile_cons, hx]
      rw [hb, ha]
      refine ⟨by simpa using h1, ?_, ?_⟩
      · simpa using h2
      · simpa using h3

theorem left_indexOf (s : QString) (ch : Char) :
    QString.left s (QString.indexOf s ch) = beforeFirst ch s := by
  rw [indexOf_eq]
  by_cases h : ch ∈ s
  · obtain ⟨h1, h2, _⟩ := take_drop_first s ch h
    rw [if_pos h]
    unfold QString.left
    rw [if_neg (by omega)]
    simpa using h2
  · rw [if_neg h]
    have hb : beforeFirst ch s = s := by
      unfold beforeFirst
      rw [List.takeWhile_eq_self_iff]
      intro x hx
      simp only [bne_iff_ne, ne_eq]
      intro hxc
      exact h (hxc ▸ hx)
    rw [hb]
    simp [QString.left]

theorem mid_indexOf_of_mem (s : QString) (ch : Char) (h : ch ∈ s) :
    QString.mid s (QString.indexOf s ch + 1) = afterFirst ch s := by
  obtain ⟨h1, _, h3⟩ := take_drop_first s ch h
  rw [indexOf_eq, if_pos h]
  unfold QString.mid
  rw [if_neg (by omega)]
  rw [← h3]
  congr 1

theorem mid_indexOf_of_not_mem (s : QString) (ch : Char) (h : ch ∉ s) :
    QString.mid s (QString.indexOf s ch + 1) = s := by
  rw [indexOf_eq, if_neg h]
  simp [QString.mid]
theorem mid_space (str : QString) :
    QString.mid str (QString.indexOf str ' ' + 1) = textAfterType str := by
  unfold textAfterType
  by_cases h : ' ' ∈ str
  · rw [if_pos h, mid_indexOf_of_mem str ' ' h]
  · rw [if_neg h, mid_indexOf_of_not_mem str ' ' h]

theorem afterFirst_of_not_mem (ch : Char) (s : QString) (h : ch ∉ s) : afterFirst ch s = [] := by
  have hd : s.dropWhile (fun x => x != ch) = [] := by
    rw [List.dropWhile_eq_nil_iff]
    intro x hx
    simp only [bne_iff_ne, ne_eq]
    intro hxc
    exact h (hxc ▸ hx)
  simp [afterFirst, hd]

/-- The method `LoadFromString` written with the texts before and after the first
occurrences of the delimiters instead of positions. -/
theorem LoadFromString_eq (p : SingleParam) (str : QString) :
    SingleParam.LoadFromString p str =
      if '[' ∈ textAfterType str then
        if ']' ∈ afterFirst '[' (textAfterType str) then
          if '(' ∈ textAfterAllowed (textAfterType str) then
            if ')' ∈ afterFirst '(' (textAfterAllowed (textAfterType str)) then
              (true,
                { name := p.name
                  type := QString.trimmed (beforeFirst ' ' str)
                  defaultVal := QString.trimmed (beforeFirst ')'
                    (afterFirst '(' (textAfterAllowed (textAfterType str))))
                  allowedVals := p.allowedVals ++
                    (QString.split (beforeFirst ']' (afterFirst '[' (textAfterType str))) ' ').map
                      QString.trimmed })
            else
              (false,
                { name := p.name
                  type := QString.trimmed (beforeFirst ' ' str)
                  defaultVal := p.defaultVal
                  allowedVals := p.allowedVals ++
                    (QString.split (beforeFirst ']' (afterFirst '[' (textAfterType str))) ' ').map
                      QString.trimmed })
          else
            (true,
              { name := p.name
                type := QString.trimmed (beforeFirst ' ' str)
                defaultVal := p.defaultVal
                allowedVals := p.allowedVals ++
                  (QString.split (beforeFirst ']' (afterFirst '[' (textAfterType str))) ' ').map
                    QString.trimmed })
        else (false, { p with type := QString.trimmed (beforeFirst ' ' str) })
      else
        if '(' ∈ textAfterType str then
          if ')' ∈ afterFirst '(' (textAfterType str) then
            (true,
              { name := p.name
                type := QString.trimmed (beforeFirst ' ' str)
                defaultVal := QString.trimmed (beforeFirst ')' (afterFirst '(' (textAfterType str)))
                allowedVals := p.allowedVals })
          else (false, { p with type := QString.trimmed (beforeFirst ' ' str) })
        else (true, { p with type := QString.trimmed (beforeFirst ' ' str) }) := by
  unfold SingleParam.LoadFromString
  simp only [left_indexOf, mid_space]
  generalize textAfterType str = r1
  by_cases hb : '[' ∈ r1
  · have hb1 : QString.indexOf r1 '[' ≠ -1 := by rw [Ne, indexOf_eq_neg_one]; exact not_not.mpr hb
    have hta : textAfterAllowed r1 = afterFirst ']' (afterFirst '[' r1) := by
      simp [textAfterAllowed, hb]
    rw [if_pos hb1, if_pos hb, mid_indexOf_of_mem r1 '[' hb, hta]
    generalize afterFirst '[' r1 = r2
    by_cases hc : ']' ∈ r2
    · have hc1 : ¬ QString.indexOf r2 ']' = -1 := by rw [indexOf_eq_neg_one]; exact not_not.mpr hc
      rw [if_neg hc1, if_pos hc, mid_indexOf_of_mem r2 ']' hc]
      generalize afterFirst ']' r2 = r3
      by_cases hp : '(' ∈ r3
      · have hp1 : QString.indexOf r3 '(' ≠ -1 := by
          rw [Ne, indexOf_eq_neg_one]; exact not_not.mpr hp
        rw [if_pos hp1, if_pos hp, mid_indexOf_of_mem r3 '(' hp]
        generalize afterFirst '(' r3 = r4
        by_cases hq : ')' ∈ r4
        · have hq1 : ¬ QString.indexOf r4 ')' = -1 := by
            rw [indexOf_eq_neg_one]; exact not_not.mpr hq
          rw [if_neg hq1, if_pos hq]
        · have hq1 : QString.indexOf r4 ')' = -1 := by rw [indexOf_eq_neg_one]; exact hq
          rw [if_pos hq1, if_neg hq]
      · have hp1 : ¬ QString.indexOf r3 '(' ≠ -1 := by
          rw [Ne, indexOf_eq_neg_one]; exact not_not.mpr hp
        rw [if_neg hp1, if_neg hp]
    · have hc1 : QString.indexOf r2 ']' = -1 := by rw [indexOf_eq_neg_one]; exact hc
      rw [if_pos hc1, if_neg hc]
  · have hb1 : ¬ QString.indexOf r1 '[' ≠ -1 := by
      rw [Ne, indexOf_eq_neg_one]; exact not_not.mpr hb
    rw [if_neg hb1, if_neg hb]
    by_cases hp : '(' ∈ r1
    · have hp1 : QString.indexOf r1 '(' ≠ -1 := by
        rw [Ne, indexOf_eq_neg_one]; exact not_not.mpr hp
      rw [if_pos hp1, if_pos hp, mid_indexOf_of_mem r1 '(' hp]
      generalize afterFirst '(' r1 = r4
      by_cases hq : ')' ∈ r4
      · have hq1 : ¬ QString.indexOf r4 ')' = -1 := by
          rw [indexOf_eq_neg_one]; exact not_not.mpr hq
        rw [if_neg hq1, if_pos hq]
      · have hq1 : QString.indexOf r4 ')' = -1 := by rw [indexOf_eq_neg_one]; exact hq
        rw [if_pos hq1, if_neg hq]
    · have hp1 : ¬ QString.indexOf r1 '(' ≠ -1 := by
        rw [Ne, indexOf_eq_neg_one]; exact not_not.mpr hp
      rw [if_neg hp1, if_neg hp]
theorem split_ne_nil (s : QString) (sep : Char) : QString.split s sep ≠ [] := by
  cases s with
  | nil => simp [QString.split]
  | cons x xs =>
    unfold QString.split
    split
    · simp
    · split <;> simp

theorem split_spec (s : QString) (sep : Char) :
    [sep].intercalate (QString.split s sep) = s ∧ ∀ e ∈ QString.split s sep, sep ∉ e := by
  induction s with
  | nil => simp [QString.split, List.intercalate]
  | cons x xs ih =>
    obtain ⟨h1, h2⟩ := ih
    have hne := split_ne_nil xs sep
    by_cases hx : x = sep
    · subst hx
      have hs : QString.split (x :: xs) x = [] :: QString.split xs x := by
        simp [QString.split]
      rw [hs]
      refine ⟨?_, ?_⟩
      · cases hsp : QString.split xs x with
        | nil => exact absurd hsp hne
        | cons e es =>
          rw [hsp] at h1
          rw [← h1]
          simp [List.intercalate, List.intersperse]
      · intro e he
        rcases List.mem_cons.mp he with rfl | he
        · simp
        · exact h2 e he
    · cases hsp : QString.split xs sep with
      | nil => exact absurd hsp hne
      | cons e es =>
        have hs : QString.split (x :: xs) sep = (x :: e) :: es := by
          simp [QString.split, hx, hsp]
        rw [hs]
        rw [hsp] at h1 h2
        refine ⟨?_, ?_⟩
        · rw [← h1]
          cases es <;> simp [List.intercalate, List.intersperse]
        · intro e2 he2
          rcases List.mem_cons.mp he2 with rfl | he2
          · intro hmem
            rcases List.mem_cons.mp hmem with h3 | h3
            · exact hx h3.symm
            · exact h2 e (List.mem_cons_self _ _) h3
          · exact h2 e2 (List.mem_cons_of_mem _ he2)

/-- C29, counterexample. For the description `d [a] [` the text after the type is
`[a] [`, which contains a `[` with no `]` after it (the second one), and `LoadFromString`
returns true; for `d (1) (` the text left after the (absent) allowed-values part is
`(1) (`, which contains a `(` with no `)` after it, and `LoadFromString` returns true. -/
theorem LoadFromString_accepts_later_open_bracket :
    "d [a] [".toList = ['d'] ++ ' ' :: "[a] [".toList ∧
    (∃ a b : QString, "[a] [".toList = a ++ '[' :: b ∧ ']' ∉ b) ∧
    SingleParam.LoadFromString SingleParam.empty "d [a] [".toList =
      (true, { name := [], type := ['d'], defaultVal := [], allowedVals := [['a']] }) ∧
    "d (1) (".toList = ['d'] ++ ' ' :: "(1) (".toList ∧
    (∃ a b : QString, "(1) (".toList = a ++ '(' :: b ∧ ')' ∉ b) ∧
    SingleParam.LoadFromString SingleParam.empty "d (1) (".toList =
      (true, { name := [], type := ['d'], defaultVal := ['1'], allowedVals := [] }) := by
  refine ⟨by decide, ⟨"[a] ".toList, [], by decide, by simp⟩, by decide, by decide,
    ⟨"(1) ".toList, [], by decide, by simp⟩, by decide⟩

/-- C29, amended. `SingleParam::LoadFromString` returns false if and only if the first
`[` of the text after the type has no `]` after it, or the first `(` of the text left after
the allowed-values part has no `)` after it (the text after the type is what follows the
first space, the whole text when there is no space; the allowed-values part ends at the
first `]` after the first `[`).  On success `type` is the trimmed text before the first
space, `allowedVals` receives, after the values it holds, the trimmed space-separated
entries of the text between the first `[` and the first `]` after it (nothing when there
is no `[`), `defaultVal` is the trimmed text between the first `(` of the text left and
the first `)` after it (it is kept when there is no `(`), and `name` is kept.  The
entries of a text are the pieces between its spaces: joined by single spaces they give
the text back, and none contains a space. -/
theorem LoadFromString_result (p : SingleParam) (str : QString) :
    ((SingleParam.LoadFromString p str).1 = false ↔
      ('[' ∈ textAfterType str ∧ ']' ∉ afterFirst '[' (textAfterType str)) ∨
      ('(' ∈ textAfterAllowed (textAfterType str) ∧
        ')' ∉ afterFirst '(' (textAfterAllowed (textAfterType str)))) ∧
    ((SingleParam.LoadFromString p str).1 = true →
      (SingleParam.LoadFromString p str).2 =
        { name := p.name
          type := QString.trimmed (beforeFirst ' ' str)
          defaultVal :=
            if '(' ∈ textAfterAllowed (textAfterType str) then
              QString.trimmed (beforeFirst ')'
                (afterFirst '(' (textAfterAllowed (textAfterType str))))
            else p.defaultVal
          allowedVals := p.allowedVals ++
            (if '[' ∈ textAfterType str then
              (QString.split (beforeFirst ']' (afterFirst '[' (textAfterType str))) ' ').map
                QString.trimmed
            else []) }) ∧
    (∀ s : QString, [' '].intercalate (QString.split s ' ') = s ∧
      ∀ e ∈ QString.split s ' ', ' ' ∉ e) := by
  refine ⟨?_, ?_, fun s => split_spec s ' '⟩
  · rw [LoadFromString_eq]
    by_cases hb : '[' ∈ textAfterType str
    · by_cases hc : ']' ∈ afterFirst '[' (textAfterType str)
      · by_cases hp : '(' ∈ textAfterAllowed (textAfterType str)
        · by_cases hq : ')' ∈ afterFirst '(' (textAfterAllowed (textAfterType str))
          · simp [hb, hc, hp, hq]
          · simp [hb, hc, hp, hq]
        · simp [hb, hc, hp]
      · have hta : textAfterAllowed (textAfterType str) = [] := by
          simp only [textAfterAllowed, if_pos hb]
          exact afterFirst_of_not_mem _ _ hc
        simp [hb, hc, hta]
    · have hta : textAfterAllowed (textAfterType str) = textAfterType str := by
        simp only [textAfterAllowed, if_neg hb]
      rw [hta]
      by_cases hp : '(' ∈ textAfterType str
      · by_cases hq : ')' ∈ afterFirst '(' (textAfterType str)
        · simp [hb, hp, hq]
        · simp [hb, hp, hq]
      · simp [hb, hp]
  · rw [LoadFromString_eq]
    by_cases hb : '[' ∈ textAfterType str
    · by_cases hc : ']' ∈ afterFirst '[' (textAfterType str)
      · by_cases hp : '(' ∈ textAfterAllowed (textAfterType str)
        · by_cases hq : ')' ∈ afterFirst '(' (textAfterAllowed (textAfterType str))
          · simp [hb, hc, hp, hq]
          · simp [hb, hc, hp, hq]
        · simp [hb, hc, hp]
      · simp [hb, hc]
    · have hta : textAfterAllowed (textAfterType str) = textAfterType str := by
        simp only [textAfterAllowed, if_neg hb]
      rw [hta]
      by_cases hp : '(' ∈ textAfterType str
      · by_cases hq : ')' ∈ afterFirst '(' (textAfterType str)
        · simp [hb, hp, hq]
        · simp [hb, hp, hq]
      · simp [hb, hp]

/-- Witness of C29, amended: the description `d [a b] (a)` is accepted, with the type `d`,
the allowed values `a` and `b` and the default value `a`. -/
theorem LoadFromString_result_witness :
    (SingleParam.LoadFromString SingleParam.empty "d [a b] (a)".toList).2 =
      { name := [], type := ['d'], defaultVal := ['a'], allowedVals := [['a'], ['b']] } := by
  have h := (LoadFromString_result SingleParam.empty "d [a b] (a)".toList).2.1 (by decide)
  rw [h]
  decide

/-! ## Values of a group of parameters -/

theorem callParseValue_length {P : Type} (ops : SingleParamOps P) (k : Nat) (val : QString)
    (run : ParseRun P) :
    (ParamGroup.callParseValue ops k val run).parameters.length = run.parameters.length := by
  unfold ParamGroup.callParseValue
  split
  · split <;> simp
  · rfl

theorem callParseValue_accessed {P : Type} (ops : SingleParamOps P) (k : Nat) (val : QString)
    (run : ParseRun P) (x : Nat)
    (hx : x ∈ (ParamGroup.callParseValue ops k val run).accessed) :
    x ∈ run.accessed ∨ x = k := by
  unfold ParamGroup.callParseValue at hx
  split at hx
  · split at hx <;> simpa using hx
  · exact Or.inl hx

theorem token_loop_accessed {P : Type} (ops : SingleParamOps P) (N : Nat)
    (toks : List QString) :
    ∀ acc : ParseRun P × Nat, acc.1.parameters.length = N →
      (∀ k ∈ acc.1.accessed, k < N) → acc.2 + toks.length ≤ N →
      ∀ k ∈ (toks.foldl (ParamGroup.ParseParamValues_token ops) acc).1.accessed, k < N := by
  induction toks with
  | nil =>
    intro acc _ hacc _ k hk
    exact hacc k hk
  | cons tok toks ih =>
    intro acc hlen hacc hn
    rw [List.foldl_cons]
    simp only [List.length_cons] at hn
    apply ih
    · unfold ParamGroup.ParseParamValues_token
      split
      · simp only [callParseValue_length]
        exact hlen
      · exact hlen
    · intro k hk
      unfold ParamGroup.ParseParamValues_token at hk
      split at hk
      · rcases callParseValue_accessed ops _ _ _ k hk with h | h
        · exact hacc k h
        · omega
      · exact hacc k hk
    · unfold ParamGroup.ParseParamValues_token
      split
      · simp only
        omega
      · omega

theorem ParseParamValues_accessed {P : Type} (ops : SingleParamOps P) (g : ParamGroup P)
    (str : QString) (p0 : P) (h0 : g.parameters[0]? = some (some p0))
    (hn : (QString.splitSkipEmptyParts str ' ').length +
      (if ops.IsBoolean p0 = true then 1 else 0) ≤ g.parameters.length) :
    ∀ k ∈ (ParamGroup.ParseParamValues ops g str).accessed, k < g.parameters.length := by
  have hpos : 0 < g.parameters.length := by
    cases hg : g.parameters with
    | nil => rw [hg] at h0; simp at h0
    | cons a l => simp
  unfold ParamGroup.ParseParamValues
  simp only [h0]
  split
  · split
    · apply token_loop_accessed ops g.parameters.length
      · split
        · rw [callParseValue_length]
        · rfl
      · intro k hk
        split at hk
        · rcases callParseValue_accessed ops _ _ _ k hk with h | h
          · simp only [List.mem_singleton] at h
            omega
          · omega
        · simp only [List.mem_singleton] at hk
          omega
      · split
        · rename_i hb
          rw [if_pos hb] at hn
          simp only
          omega
        · rename_i hb
          rw [if_neg hb] at hn
          simp only
          omega
    · intro k hk
      simp at hk
  · intro k hk
    rcases callParseValue_accessed ops _ _ _ k hk with h | h
    · simp at h
    · omega

theorem ParseParamValues_too_many {P : Type} (ops : SingleParamOps P) (g : ParamGroup P)
    (str : QString)
    (hn : g.parameters.length < (QString.splitSkipEmptyParts str ' ').length) :
    (ParamGroup.ParseParamValues ops g str).status = ParseEnd.returned false ∧
    (ParamGroup.ParseParamValues ops g str).parsed = [] ∧
    (ParamGroup.ParseParamValues ops g str).accessed = [] ∧
    (ParamGroup.ParseParamValues ops g str).parameters = g.parameters := by
  have h1 : (QString.splitSkipEmptyParts str ' ').length > 0 := by omega
  have h2 : ¬ (QString.splitSkipEmptyParts str ' ').length ≤ g.parameters.length := by omega
  unfold ParamGroup.ParseParamValues
  simp only [if_pos h1, if_neg h2]
  simp

/-- C28, failing input. A group whose only parameter is a boolean, given the value string
`1` (one token, not more than the one parameter): `ParseParamValues` evaluates
`parameters[0]` twice and then `parameters[1]`, outside the vector of size 1.  A group of a
boolean and a number given `1 2` evaluates `parameters[2]`.  What holds for every group
whose first pointer is not null: when the number of tokens, plus one if the first
parameter is a boolean, is at most `parameters.size()`, every `parameters[k]` evaluated
has `k < parameters.size()`; with more tokens than parameters the method returns false,
evaluates no `parameters[k]` and parses no value. -/
theorem ParseParamValues_boolean_first_out_of_range :
    (QString.splitSkipEmptyParts "1".toList ' ').length = 1 ∧
    (ParamGroup.ParseParamValues SingleValueParam.ops
      { name := "-f".toList, parameters := [some flagParam] } "1".toList).status =
        ParseEnd.outOfRange 1 ∧
    (ParamGroup.ParseParamValues SingleValueParam.ops
      { name := "-f".toList, parameters := [some flagParam] } "1".toList).accessed =
        [0, 0, 1] ∧
    (ParamGroup.ParseParamValues SingleValueParam.ops
      { name := "-f".toList, parameters := [some flagParam, some (numberParam ['1'])] }
      "1 2".toList).status = ParseEnd.outOfRange 2 ∧
    (∀ (P : Type) (ops : SingleParamOps P) (g : ParamGroup P) (str : QString) (p0 : P),
      g.parameters[0]? = some (some p0) →
      (QString.splitSkipEmptyParts str ' ').length +
        (if ops.IsBoolean p0 = true then 1 else 0) ≤ g.parameters.length →
      ∀ k ∈ (ParamGroup.ParseParamValues ops g str).accessed, k < g.parameters.length) ∧
    (∀ (P : Type) (ops : SingleParamOps P) (g : ParamGroup P) (str : QString),
      g.parameters.length < (QString.splitSkipEmptyParts str ' ').length →
      (ParamGroup.ParseParamValues ops g str).status = ParseEnd.returned false ∧
      (ParamGroup.ParseParamValues ops g str).parsed = [] ∧
      (ParamGroup.ParseParamValues ops g str).accessed = [] ∧
      (ParamGroup.ParseParamValues ops g str).parameters = g.parameters) :=
  ⟨by decide, by decide, by decide, by decide,
    fun _ ops g str p0 h0 hn => ParseParamValues_accessed ops g str p0 h0 hn,
    fun _ ops g str hn => ParseParamValues_too_many ops g str hn⟩

/-! ## Saving a group of parameters -/

theorem savedStrings_append {P : Type} (ops : SingleParamOps P) (l1 l2 : List (Option P)) :
    savedStrings ops (l1 ++ l2) = savedStrings ops l1 ++ savedStrings ops l2 := by
  simp [savedStrings]

/-- The loop of `SaveToString` keeps the concatenation of `res` and `uncertain`: it grows
by the saved strings of the parameters met. -/
theorem save_loop_total {P : Type} (ops : SingleParamOps P) (l : List (Option P)) :
    ∀ acc : QString × QString,
      (l.foldl (ParamGroup.SaveToString_step ops) acc).1 ++
        (l.foldl (ParamGroup.SaveToString_step ops) acc).2 =
      acc.1 ++ acc.2 ++ savedStrings ops l := by
  induction l with
  | nil => intro acc; simp [savedStrings]
  | cons it l ih =>
    intro acc
    rw [List.foldl_cons, ih]
    cases it with
    | none => simp [ParamGroup.SaveToString_step, savedStrings]
    | some p =>
      by_cases hm : ops.IsParamModified p = true
      · simp [ParamGroup.SaveToString_step, savedStrings, hm]
      · simp [ParamGroup.SaveToString_step, savedStrings, hm]

/-- The loop of `SaveToString` over parameters none of which is modified leaves `res` as
it is. -/
theorem save_loop_unmodified {P : Type} (ops : SingleParamOps P) (l : List (Option P))
    (hl : ∀ p, some p ∈ l → ops.IsParamModified p = false) :
    ∀ acc : QString × QString,
      (l.foldl (ParamGroup.SaveToString_step ops) acc).1 = acc.1 := by
  induction l with
  | nil => intro acc; rfl
  | cons it l ih =>
    intro acc
    rw [List.foldl_cons, ih (fun p hp => hl p (List.mem_cons_of_mem _ hp))]
    cases it with
    | none => rfl
    | some p =>
      have hm := hl p (List.mem_cons_self _ _)
      simp [ParamGroup.SaveToString_step, hm]

/-- The loop of `SaveToString` on a list that ends with a modified parameter leaves
`uncertain` empty. -/
theorem save_loop_ends_modified {P : Type} (ops : SingleParamOps P) (l : List (Option P))
    (p : P) (hp : ops.IsParamModified p = true) (acc : QString × QString) :
    ((l ++ [some p]).foldl (ParamGroup.SaveToString_step ops) acc).2 = [] := by
  rw [List.foldl_append]
  simp [ParamGroup.SaveToString_step, hp]

/-- C30. `ParamGroup::SaveToString` returns the name of the group and a space, followed
by the saved strings of the parameters of index `0 .. k` in order, each followed by a
space, where `k` is the index of the last modified parameter (a null pointer in the
vector contributes nothing): the parameters before `k` are written whether modified or
not, those after `k` are left out.  When no parameter is modified the result is the name
and a space. -/
theorem SaveToString_upto_last_modified {P : Type} (ops : SingleParamOps P)
    (g : ParamGroup P) :
    (∀ (k : Nat) (p : P), g.parameters[k]? = some (some p) → ops.IsParamModified p = true →
      (∀ (j : Nat) (q : P), k < j → g.parameters[j]? = some (some q) →
        ops.IsParamModified q = false) →
      ParamGroup.SaveToString ops g =
        g.name ++ [' '] ++ savedStrings ops (g.parameters.take (k + 1))) ∧
    ((∀ (j : Nat) (q : P), g.parameters[j]? = some (some q) → ops.IsParamModified q = false) →
      ParamGroup.SaveToString ops g = g.name ++ [' ']) := by
  constructor
  · intro k p hk hp hlast
    have hlt : k < g.parameters.length := lt_length_of_getElem? _ _ _ hk
    have hsplit : g.parameters = (g.parameters.take k ++ [some p]) ++ g.parameters.drop (k + 1) := by
      have h1 : g.parameters.take (k + 1) = g.parameters.take k ++ [some p] := by
        rw [List.take_succ, hk]
        rfl
      rw [← h1, List.take_append_drop]
    have htake : g.parameters.take (k + 1) = g.parameters.take k ++ [some p] := by
      rw [List.take_succ, hk]
      rfl
    have hrest : ∀ q, some q ∈ g.parameters.drop (k + 1) → ops.IsParamModified q = false := by
      intro q hq
      obtain ⟨n, hn⟩ := List.getElem?_of_mem hq
      rw [List.getElem?_drop] at hn
      exact hlast (k + 1 + n) q (by omega) hn
    unfold ParamGroup.SaveToString
    rw [hsplit, List.foldl_append, save_loop_unmodified ops _ hrest]
    have htot := save_loop_total ops (g.parameters.take k ++ [some p]) (g.name ++ [' '], [])
    rw [save_loop_ends_modified ops _ p hp] at htot
    simp only [List.append_nil] at htot
    rw [htot, ← hsplit, htake]
  · intro hnone
    unfold ParamGroup.SaveToString
    rw [save_loop_unmodified ops _ (fun q hq => by
      obtain ⟨n, hn⟩ := List.getElem?_of_mem hq
      exact hnone n q hn)]

/-- Witness of C30: three numbers with the default value 1 holding 1, 2 and 1: the
second one is the last modified one; the first two are written, the third one is not. -/
theorem SaveToString_upto_last_modified_witness :
    ParamGroup.SaveToString SingleValueParam.ops
      { name := "-f".toList
        parameters := [some (numberParam ['1']), some (numberParam ['2']),
          some (numberParam ['1'])] } = "-f 1  2  ".toList := by
  have h := (SaveToString_upto_last_modified SingleValueParam.ops
      { name := "-f".toList
        parameters := [some (numberParam ['1']), some (numberParam ['2']),
          some (numberParam ['1'])] }).1 1 (numberParam ['2']) rfl (by decide)
      (by
        intro j q hj hq
        match j, hj, hq with
        | 2, _, hq =>
          simp only [List.getElem?_cons_succ, List.getElem?_cons_zero, Option.some.injEq] at hq
          subst hq
          decide
        | j + 3, _, hq => simp at hq)
  rw [h]
  decide

end AstroSim
